import Mathlib

/-!
# xkit/webs: URL router and middleware chain

A shallow embedding of `src/webs/{route,chain,context,mux}.go`.

Conventions of the embedding

* Go strings are modelled by `String` and handled through their character
  lists; every byte test of the source (`'/'`, `':'`, `'*'`, `'#'`, the
  braces) is ASCII, so character-level and byte-level splitting agree on
  valid UTF-8.
* The Go standard library the router calls is a parameter `Lib`: the
  non-ASCII part of `strings.ToLower`, `regexp.Compile` and
  `(*Regexp).FindStringSubmatch`.
* A Go map `map[string]*section` is modelled by an association list
  (`Subs`).  `range` over a map visits the entries in an unspecified order;
  the embedding iterates in list order, and registration appends a new key at
  the end.  Every ordering of a child list is therefore a possible run of the
  Go program, and a statement quantified over all tries covers all orders.
* A `panic` of the source is an error message carried next to the state that
  the code had built so far.
* A handler is observed through the trace of handler invocations; its body
  may re-enter `Chain.Next` a fixed number of times (`calls`).  Such a call is
  a call on the chain that runs the handler, which is what a handler can do
  when the chain it captured is served directly (`Chain.ServeHTTP`).  A node
  of the trie holds its own copy of a registered chain (`addRoute` copies the
  steps), which a handler cannot reach through the exported API; a handler
  with `calls > 0` under `Mux.ServeHTTP` is therefore outside what the
  embedding describes, and statements about dispatch of registered chains
  are faithful for handlers with `calls = 0`.
-/

namespace webs

/-! ## Standard library used by the router -/

/-- The parts of the Go standard library that the router calls and that are
not re-implemented here. -/
structure Lib where
  /-- Value of `unicode.ToLower` on a non-ASCII character. -/
  unicodeToLower : Char → Char
  /-- Whether `regexp.Compile` accepts the source text. -/
  Compile : String → Bool
  /-- Result of `regexp.MustCompile(re).FindStringSubmatch(s)`; `none` is the nil slice. -/
  FindStringSubmatch : String → String → Option (List String)

/-- Auxiliary loop of `Split`: `acc` holds the current piece reversed. -/
def splitAux : List Char → List Char → List (List Char)
  | [], acc => [acc.reverse]
  | c :: cs, acc => if c = '/' then acc.reverse :: splitAux cs [] else splitAux cs (c :: acc)

/-- Go `strings.Split(s, "/")`. -/
def Split (s : String) : List String := (splitAux s.data []).map String.mk

/-- Go `unicode.IsSpace`. -/
def isSpace (c : Char) : Bool :=
  let n := c.toNat
  n = 0x20 || (0x09 ≤ n && n ≤ 0x0D) || n = 0x85 || n = 0xA0 || n = 0x1680 ||
    (0x2000 ≤ n && n ≤ 0x200A) || n = 0x2028 || n = 0x2029 || n = 0x202F ||
    n = 0x205F || n = 0x3000

/-- Go `strings.TrimSpace`. -/
def TrimSpace (s : String) : String :=
  String.mk ((s.data.dropWhile isSpace).reverse.dropWhile isSpace).reverse

/-- One character of Go `strings.ToLower`: ASCII letters directly, other
characters through `unicode.ToLower`. -/
def lowerChar (lib : Lib) (c : Char) : Char :=
  if c.toNat < 128 then
    (if 65 ≤ c.toNat ∧ c.toNat ≤ 90 then Char.ofNat (c.toNat + 32) else c)
  else lib.unicodeToLower c

/-- Go `strings.ToLower`. -/
def ToLower (lib : Lib) (s : String) : String := String.mk (s.data.map (lowerChar lib))

/-- Auxiliary of `Join`: the pieces after the first, each preceded by `/`. -/
def joinAux : List String → List Char
  | [] => []
  | p :: ps => '/' :: (p.data ++ joinAux ps)

/-- Go `strings.Join(ps, "/")`. -/
def Join : List String → String
  | [] => ""
  | p :: ps => String.mk (p.data ++ joinAux ps)

/-- Go `strings.HasSuffix(s, "/")`. -/
def HasSuffixSlash (s : String) : Bool := s.data.getLast? = some '/'

/-- Go `strings.Index(name, "}")` as the characters before the first `}`
and those after it; `none` is the result -1. -/
def cutBrace : List Char → Option (List Char × List Char)
  | [] => none
  | c :: cs =>
    if c = '}' then some ([], cs)
    else match cutBrace cs with
      | none => none
      | some (a, b) => some (c :: a, b)

/-! ## chain.go -/

/-- A request handler (`Handler` interface value that is not nil).  It is
observed by `name`; while it runs, its body calls `Next` on the chain that
runs it `calls` times. -/
structure Handler where
  name : Nat
  calls : Nat
  deriving DecidableEq, Repr

/-- One handler invocation: the handler, and the value of the chain cursor
`nextIdx` at the moment its body starts. -/
structure Event where
  h : Handler
  cursor : Int
  deriving DecidableEq, Repr

/-- Go `type Chain struct`; a nil `Handler` is `none`. -/
structure Chain where
  mws : List (Option Handler)
  h : Option Handler
  nextIdx : Int
  deriving DecidableEq, Repr

/-- Go `NewChain` (and the zero value of `Chain`). -/
def NewChain : Chain := { mws := [], h := none, nextIdx := 0 }

/-- Go `(*Chain).Prepend`. -/
def Chain.Prepend (c : Chain) (mws : List (Option Handler)) : Chain :=
  { c with mws := mws ++ c.mws }

/-- Go `(*Chain).Append`. -/
def Chain.Append (c : Chain) (mws : List (Option Handler)) : Chain :=
  { c with mws := c.mws ++ mws }

/-- Go `(*Chain).Use`. -/
def Chain.Use (c : Chain) (h : Option Handler) : Chain := { c with h := h }

/-- The step selected by `Next` at the current cursor: `some h` for a
middleware or the terminal (`h` itself may be nil), `none` for the
`return` branch. -/
def Chain.pick (c : Chain) : Option (Option Handler) :=
  if 0 ≤ c.nextIdx ∧ c.nextIdx < c.mws.length then some (c.mws.getD c.nextIdx.toNat none)
  else if c.nextIdx = c.mws.length then some c.h
  else none

/-- A handler body: `k` successive calls of `next` on the chain. -/
def runBody (next : Chain → Option (Chain × List Event)) : Nat → Chain → Option (Chain × List Event)
  | 0, c => some (c, [])
  | k + 1, c =>
    match next c with
    | none => none
    | some (c1, t1) =>
      match runBody next k c1 with
      | none => none
      | some (c2, t2) => some (c2, t1 ++ t2)

/-- Go `(*Chain).Next`.  `fuel` bounds the depth of nested calls; the result
is the chain after the call and the handlers run, in order. -/
def Chain.Next : Nat → Chain → Option (Chain × List Event)
  | 0, _ => none
  | fuel + 1, c =>
    match c.pick with
    | none => some (c, [])
    | some h =>
      let c1 : Chain := { c with nextIdx := c.nextIdx + 1 }
      match h with
      | none => some (c1, [])
      | some hd =>
        match runBody (Chain.Next fuel) hd.calls c1 with
        | none => none
        | some (c2, t2) =>
          match Chain.Next fuel c2 with
          | none => none
          | some (c3, t3) => some (c3, ⟨hd, c1.nextIdx⟩ :: (t2 ++ t3))

/-- Go `(*Chain).ServeHTTP`. -/
def Chain.ServeHTTP (fuel : Nat) (c : Chain) : Option (Chain × List Event) :=
  Chain.Next fuel { c with nextIdx := 0 }

/-! ## route.go: the trie -/

/-- Go `type sectionType int` with its four constants. -/
inductive sectionType where
  | SectionTypeRaw
  | SectionTypeWildCard
  | SectionTypeMatch
  | SectionTypeRegexp
  deriving DecidableEq, Repr

open sectionType

mutual
/-- Go `type section struct`.  `regexp` holds the source text of the compiled
pattern (`none` is the nil pointer). -/
inductive Section where
  | mk (sName : String) (sType : sectionType) (regexp : Option String)
      (hasNonRawSub : Bool) (subs : Subs) (ts : Bool) (chain : Chain) : Section
/-- The child map `map[string]*section`, in iteration order. -/
inductive Subs where
  | nil : Subs
  | cons (key : String) (s : Section) (rest : Subs) : Subs
end

/-- Field `sName`. -/
def Section.sName : Section → String
  | .mk n _ _ _ _ _ _ => n

/-- Field `sType`. -/
def Section.sType : Section → sectionType
  | .mk _ t _ _ _ _ _ => t

/-- Field `regexp`. -/
def Section.regexp : Section → Option String
  | .mk _ _ r _ _ _ _ => r

/-- Field `hasNonRawSub`. -/
def Section.hasNonRawSub : Section → Bool
  | .mk _ _ _ f _ _ _ => f

/-- Field `subs`. -/
def Section.subs : Section → Subs
  | .mk _ _ _ _ ss _ _ => ss

/-- Field `ts`. -/
def Section.ts : Section → Bool
  | .mk _ _ _ _ _ t _ => t

/-- Field `chain`. -/
def Section.chain : Section → Chain
  | .mk _ _ _ _ _ _ c => c

/-- Assignment to the field `subs`. -/
def Section.setSubs : Section → Subs → Section
  | .mk n t r f _ ts c, ss => .mk n t r f ss ts c

/-- Assignment to the field `chain`. -/
def Section.setChain : Section → Chain → Section
  | .mk n t r f ss ts _, c => .mk n t r f ss ts c

/-- Assignment to the field `ts`. -/
def Section.setTs : Section → Bool → Section
  | .mk n t r f ss _ c, ts => .mk n t r f ss ts c

/-- The entries of a child map, in iteration order. -/
def Subs.toList : Subs → List (String × Section)
  | .nil => []
  | .cons k s rest => (k, s) :: rest.toList

/-- Map lookup `subs[key]`. -/
def Subs.find : Subs → String → Option Section
  | .nil, _ => none
  | .cons k s rest, key => if k = key then some s else rest.find key

/-- Map assignment `subs[key] = s`: an existing key keeps its place, a new
key goes to the end. -/
def Subs.set : Subs → String → Section → Subs
  | .nil, key, s => .cons key s .nil
  | .cons k s0 rest, key, s => if k = key then .cons k s rest else .cons k s0 (rest.set key s)

/-- Go `type sectionValue struct`; a nil `vals` is `[]`. -/
structure sectionValue where
  s : Section
  vals : List String

/-- Go `type Context struct`; the maps are association lists with unique keys. -/
structure Context where
  paramMap : List (String × List String)
  Vars : List (String × String)
  ServeFileRoot : String
  path : List sectionValue

/-- The zero value `Context{}`. -/
def Context.zero : Context := { paramMap := [], Vars := [], ServeFileRoot := "", path := [] }

/-- Go `type Mux struct`.  `NotFound` names the configured collaborator
(`none`: the default `http.NotFound`). -/
structure Mux where
  roots : List (String × Section)
  hasWildcard : Bool
  NotFound : Option Nat

/-- Go `New`. -/
def New : Mux := { roots := [], hasWildcard := false, NotFound := none }

/-- A fresh `&section{}` with the name, type and pattern chosen by `newSection`. -/
def Section.fresh (sName : String) (sType : sectionType) (regexp : Option String)
    (hasNonRawSub : Bool) : Section :=
  .mk sName sType regexp hasNonRawSub .nil false NewChain

/-- The `switch name[0]` of `newSection`: the router (its `hasWildcard` flag
may be set) and either the error message or the node before the parent
checks. -/
def classify (lib : Lib) (m : Mux) (name : String) : Mux × Except String Section :=
  match name.data with
  | [] => (m, .error "index out of range")
  | ':' :: r => (m, .ok (Section.fresh (String.mk r) SectionTypeMatch none false))
  | '*' :: r =>
    ({ m with hasWildcard := true }, .ok (Section.fresh (String.mk r) SectionTypeWildCard none false))
  | '#' :: r =>
    match r with
    | [] => (m, .error "regexp empty")
    | '{' :: r2 =>
      match cutBrace r2 with
      | none => (m, .error "regexp format error")
      | some (nm, re) =>
        if re.length = 0 then (m, .error "regexp empty")
        else if lib.Compile (String.mk re) then
          (m, .ok (Section.fresh (String.mk nm) SectionTypeRegexp (some (String.mk re)) false))
        else (m, .error "regexp compile error")
    | c :: r2 =>
      if lib.Compile (String.mk (c :: r2)) then
        (m, .ok (Section.fresh "" SectionTypeRegexp (some (String.mk (c :: r2))) false))
      else (m, .error "regexp compile error")
  | c :: r => (m, .ok (Section.fresh (String.mk (c :: r)) SectionTypeRaw none false))

/-- Go `newSection(m, sParent, name)`; `sParent = none` is the nil parent, and
the pair `(nil, errmsg)` of the source is `.error errmsg`. -/
def newSection (lib : Lib) (m : Mux) (sParent : Option Section) (name : String) :
    Mux × Except String Section :=
  match classify lib m name with
  | (m1, .error e) => (m1, .error e)
  | (m1, .ok s) =>
    match sParent with
    | none => (m1, .ok s)
    | some par =>
      if par.sType = SectionTypeWildCard then (m1, .error "wildcard not the last section")
      else if s.sType ≠ SectionTypeRaw then
        if par.hasNonRawSub then (m1, .error "multiple non raw section")
        else (m1, .ok (Section.mk s.sName s.sType s.regexp true s.subs s.ts s.chain))
      else (m1, .ok s)

/-- The dynamic type and value of the `Handler` argument of a registration. -/
inductive HandlerArg where
  /-- The nil interface value. -/
  | nilHandler
  /-- A `HandlerFunc`; `none` is the nil function. -/
  | handlerFunc (hf : Option Handler)
  /-- A `*Chain`; `none` is the nil pointer. -/
  | chainPtr (c : Option Chain)
  /-- A value of another type that implements `Handler`. -/
  | other (h : Handler)

/-- The argument checks at the head of `addRoute`: the panic message, if any. -/
def checkArgs (path : String) : HandlerArg → Option String
  | .handlerFunc none => some "nil handler function"
  | .chainPtr none => some "nil chain handler"
  | .chainPtr (some c) =>
    if c.h = none then some "chain has nil handler"
    else if path.data.head? ≠ some '/' then some "path must begin with '/'" else none
  | .nilHandler => some "nil handler"
  | _ => if path.data.head? ≠ some '/' then some "path must begin with '/'" else none

/-- The tail of `addRoute` after the loop, at the node `s` the path leads to;
`isRoot` is the source's `s == rs`. -/
def attach (path : String) (h : HandlerArg) (s : Section) (isRoot : Bool) :
    Section × Option String :=
  if s.chain.h ≠ none then (s, some ("handler for path " ++ path ++ " redefined"))
  else
    let s1 : Section :=
      match h with
      | .chainPtr (some c) => s.setChain { (s.chain.Append c.mws) with h := c.h }
      | .handlerFunc (some hf) => s.setChain { s.chain with h := some hf }
      | .other hd => s.setChain { s.chain with h := some hd }
      | _ => s
    if s1.chain.h = none then (s1, some ("handler for path " ++ path ++ " not defined"))
    else if isRoot then (s1, none)
    else (s1.setTs (HasSuffixSlash path), none)

/-- The loop of `addRoute` over the pieces of the path, from node `s` on,
followed by `attach`. -/
def addRouteFrom (lib : Lib) (path : String) (h : HandlerArg) :
    List String → Mux → Section → Bool → Mux × Section × Option String
  | [], m, s, isRoot =>
    let r := attach path h s isRoot
    (m, r.1, r.2)
  | p :: ps, m, s, isRoot =>
    if p.length = 0 then addRouteFrom lib path h ps m s isRoot
    else
      let p := ToLower lib p
      match s.subs.find p with
      | some ss =>
        let r := addRouteFrom lib path h ps m ss false
        (r.1, s.setSubs (s.subs.set p r.2.1), r.2.2)
      | none =>
        match newSection lib m (some s) p with
        | (m1, .error e) => (m1, s, some ("error: addRoute: " ++ path ++ " " ++ e))
        | (m1, .ok ss) =>
          let r := addRouteFrom lib path h ps m1 ss false
          (r.1, s.setSubs (s.subs.set p r.2.1), r.2.2)

/-- Go `(*section).addRoute`: the router, the root after the call, and the
panic message if the call panicked. -/
def Section.addRoute (lib : Lib) (rs : Section) (m : Mux) (path : String) (h : HandlerArg) :
    Mux × Section × Option String :=
  match checkArgs path h with
  | some e => (m, rs, some e)
  | none => addRouteFrom lib path h (Split path) m rs true

/-- Map lookup `roots[method]`. -/
def lookupRoot : List (String × Section) → String → Option Section
  | [], _ => none
  | (k, s) :: rest, key => if k = key then some s else lookupRoot rest key

/-- Map assignment `roots[method] = rs`. -/
def setRoot : List (String × Section) → String → Section → List (String × Section)
  | [], key, s => [(key, s)]
  | (k, s0) :: rest, key, s => if k = key then (k, s) :: rest else (k, s0) :: setRoot rest key s

/-- Go `(*Mux).Handle`: the router after the call and the panic message, if any. -/
def Mux.Handle (lib : Lib) (m : Mux) (method path : String) (h : HandlerArg) :
    Mux × Option String :=
  match lookupRoot m.roots method with
  | some rs =>
    let r := rs.addRoute lib m path h
    ({ r.1 with roots := setRoot r.1.roots method r.2.1 }, r.2.2)
  | none =>
    match newSection lib m none "/" with
    | (m1, .error e) => (m1, some e)
    | (m1, .ok rs) =>
      let r := rs.addRoute lib { m1 with roots := setRoot m1.roots method rs } path h
      ({ r.1 with roots := setRoot r.1.roots method r.2.1 }, r.2.2)

/-- Registration of a list of routes, stopping at the first panic. -/
def registerAll (lib : Lib) : Mux → List (String × String × HandlerArg) → Mux × Option String
  | m, [] => (m, none)
  | m, (method, path, h) :: rest =>
    match m.Handle lib method path h with
    | (m1, none) => registerAll lib m1 rest
    | (m1, some e) => (m1, some e)

/-! ## route.go: matching -/

/-- Go `(*section).match(p, skipWildcard)` with `p = p0 :: rest`: the results
`matched`, `byWildcard`, `vals`. -/
def Section.matchSeg (lib : Lib) (s : Section) (p0 : String) (rest : List String)
    (skipWildcard : Bool) : Bool × Bool × List String :=
  match s.sType with
  | SectionTypeRaw => if s.sName = p0 then (true, false, [p0]) else (false, false, [])
  | SectionTypeMatch => (true, false, [p0])
  | SectionTypeRegexp =>
    match s.regexp with
    | none => (false, false, [])
    | some re =>
      match lib.FindStringSubmatch re p0 with
      | some vals => (true, false, vals)
      | none => (false, false, [])
  | SectionTypeWildCard =>
    if !skipWildcard then (true, true, [Join (p0 :: rest)]) else (false, false, [])

/-- The statement `ctx.path = append(ctx.path, sectionValue{s, vals})`. -/
def Context.push (ctx : Context) (s : Section) (vals : List String) : Context :=
  { ctx with path := ctx.path ++ [⟨s, vals⟩] }

/-- The statement `ctx.path = ctx.path[:len(ctx.path)-1]`. -/
def Context.pop (ctx : Context) : Context := { ctx with path := ctx.path.dropLast }

mutual
/-- Go `findRoute_r(ctx, s, path, skipWildcard)` with `path = p0 :: rest`. -/
def findRoute_r (lib : Lib) (ctx : Context) : Section → String → List String → Bool → Bool × Context
  | .mk n t r f subs ts c, p0, rest, skipWildcard =>
    match (Section.mk n t r f subs ts c).matchSeg lib p0 rest skipWildcard with
    | (true, byWildcard, vals) =>
      let ctx1 := ctx.push (.mk n t r f subs ts c) vals
      match rest with
      | [] => (true, ctx1)
      | q :: rest1 =>
        if byWildcard then (true, ctx1)
        else
          match findRoute_range lib ctx1 subs q rest1 skipWildcard with
          | (true, ctx2) => (true, ctx2)
          | (false, ctx2) => (false, ctx2.pop)
    | (false, _, _) => (false, ctx)
/-- The loop `for _, ss := range subs` around `findRoute_r`. -/
def findRoute_range (lib : Lib) (ctx : Context) : Subs → String → List String → Bool → Bool × Context
  | .nil, _, _, _ => (false, ctx)
  | .cons _ ss more, p0, rest, skipWildcard =>
    match findRoute_r lib ctx ss p0 rest skipWildcard with
    | (true, ctx1) => (true, ctx1)
    | (false, ctx1) => findRoute_range lib ctx1 more p0 rest skipWildcard
end

/-- The pieces of the request path that are non-empty after `TrimSpace`
(`pstrim` in `findRoute`). -/
def pstrim (path : String) : List String :=
  (Split path).filterMap (fun p => if (TrimSpace p).length > 0 then some (TrimSpace p) else none)

/-- Go `findRoute(m, ctx, rs, path)`. -/
def findRoute (lib : Lib) (m : Mux) (ctx : Context) (rs : Section) (path : String) :
    Bool × Context :=
  let ctx0 := ctx.push rs []
  match pstrim path with
  | [] => (true, ctx0)
  | p0 :: rest =>
    match findRoute_range lib ctx0 rs.subs p0 rest true with
    | (true, ctx1) => (true, ctx1)
    | (false, ctx1) =>
      if m.hasWildcard then
        match findRoute_range lib ctx1 rs.subs p0 rest false with
        | (true, ctx2) => (true, ctx2)
        | (false, ctx2) => (false, ctx2.pop)
      else (false, ctx1.pop)

/-! ## context.go -/

/-- Map assignment `paramMap[name] = vals`. -/
def setParam (pm : List (String × List String)) (name : String) (vals : List String) :
    List (String × List String) :=
  (name, vals) :: pm.filter (fun kv => kv.1 ≠ name)

/-- Go `(*Context).setParams`. -/
def Context.setParams (ctx : Context) : Context :=
  let pm := List.foldl
    (fun pm sv => if sv.s.sName.length > 0 then setParam pm sv.s.sName sv.vals else pm)
    ctx.paramMap ctx.path
  { ctx with paramMap := pm }

/-- Go `(*Context).ParamsByName`; the nil slice is `[]`. -/
def Context.ParamsByName (ctx : Context) (name : String) : List String :=
  match ctx.paramMap.find? (fun kv => kv.1 = name) with
  | some kv => kv.2
  | none => []

/-- Go `(*Context).ParamByName`. -/
def Context.ParamByName (ctx : Context) (name : String) : String :=
  match ctx.ParamsByName name with
  | v :: _ => v
  | [] => ""

/-! ## mux.go: dispatch -/

/-- What a dispatch did: it served the chain of the matched node with the
context built for the request (giving the chain after the run and the
handlers run), or it invoked the Not-Found collaborator. -/
inductive Response where
  | served (ctx : Context) (chain : Chain) (trace : List Event)
  | notFound (collaborator : Option Nat)

/-- Go `(*Mux).ServeHTTP` for a request with the given method and URL path.
Handlers of the embedding do not panic, so `reCover` has nothing to do.  The
cursor of the served chain, the only thing a dispatch changes in the trie, is
returned in the response and not written back: `Chain.ServeHTTP` resets it
before every use. -/
def Mux.ServeHTTP (lib : Lib) (fuel : Nat) (m : Mux) (method path : String) : Option Response :=
  match lookupRoot m.roots method with
  | some rs =>
    match findRoute lib m Context.zero rs path with
    | (true, ctx) =>
      match ctx.path.getLast? with
      | some sv =>
        match sv.s.chain.ServeHTTP fuel with
        | some (c, trace) => some (.served ctx.setParams c trace)
        | none => none
      | none => none
    | (false, _) => some (.notFound m.NotFound)
  | none => some (.notFound m.NotFound)

/-! ## Vocabulary of the statements -/

/-- A library instance for evaluating concrete runs on ASCII routes without
regular expressions; such runs never consult it. -/
def stubLib : Lib :=
  { unicodeToLower := fun c => c, Compile := fun _ => false, FindStringSubmatch := fun _ _ => none }

/-- Step `i` of a chain: middleware `i`, or the terminal handler at
`i = len(mws)`; `none` for a nil step and outside that range. -/
def Chain.stepAt (c : Chain) (i : Int) : Option Handler :=
  match ({ c with nextIdx := i } : Chain).pick with
  | some h => h
  | none => none

/-- The trace of running the handlers `hs` one after the other when the
cursor is `i` before the first of them. -/
def eventsFrom : Int → List Handler → List Event
  | _, [] => []
  | i, h :: hs => ⟨h, i + 1⟩ :: eventsFrom (i + 1) hs

/-- What one call of `Next` (or a sequence of calls) may do to a chain:
steps and terminal are kept, the cursor does not go back, every handler
run is the step just below the cursor it sees, and the cursors seen
increase strictly. -/
structure Advances (c c1 : Chain) (t : List Event) : Prop where
  mws_eq : c1.mws = c.mws
  h_eq : c1.h = c.h
  cursor_le : c.nextIdx ≤ c1.nextIdx
  events : ∀ e ∈ t, c.nextIdx < e.cursor ∧ e.cursor ≤ c1.nextIdx ∧ c.stepAt (e.cursor - 1) = some e.h
  increasing : t.Pairwise (fun a b => a.cursor < b.cursor)

/-- An example chain: middleware 1 and 2, terminal 3, none of which calls
`Next`; the cursor is left at 9 by an earlier use. -/
def quietChain : Chain :=
  { mws := [some ⟨1, 0⟩, some ⟨2, 0⟩], h := some ⟨3, 0⟩, nextIdx := 9 }

/-- An example chain whose first middleware calls `Next` twice and whose
second calls it once. -/
def eagerChain : Chain :=
  { mws := [some ⟨1, 2⟩, some ⟨2, 1⟩], h := some ⟨3, 0⟩, nextIdx := 5 }

/-- A structural match of the segments `p0 :: rest` from node `s` downwards
in a pass with the given `skipWildcard` flag: the nodes visited, root-most
first, each with the values it captured.  A node ends the match when no
segment is left after it or when it matched as a wildcard; otherwise the
match goes on in one of its children. -/
inductive Walk (lib : Lib) (skip : Bool) : Section → String → List String → List sectionValue → Prop
  | last {s : Section} {p0 : String} {rest : List String} {b : Bool} {vals : List String} :
      s.matchSeg lib p0 rest skip = (true, b, vals) →
      (rest = [] ∨ b = true) →
      Walk lib skip s p0 rest [⟨s, vals⟩]
  | step {s : Section} {p0 q : String} {rest : List String} {vals : List String}
      {k : String} {ss : Section} {w : List sectionValue} :
      s.matchSeg lib p0 (q :: rest) skip = (true, false, vals) →
      (k, ss) ∈ s.subs.toList →
      Walk lib skip ss q rest w →
      Walk lib skip s p0 (q :: rest) (⟨s, vals⟩ :: w)

/-- A full match of the list of request segments below the root `rs`: the
nodes visited after the root.  With no segment the root alone is the match. -/
def FullMatch (lib : Lib) (skip : Bool) (rs : Section) (segs : List String)
    (w : List sectionValue) : Prop :=
  match segs with
  | [] => w = []
  | p0 :: rest => ∃ k ss, (k, ss) ∈ rs.subs.toList ∧ Walk lib skip ss p0 rest w

/-- No node of the walk is a Wildcard node. -/
def WildcardFree (w : List sectionValue) : Prop :=
  ∀ sv ∈ w, sv.s.sType ≠ SectionTypeWildCard

mutual
/-- Number of Wildcard nodes in the subtree of a node, the node included. -/
def Section.wildCount : Section → Nat
  | .mk _ t _ _ subs _ _ => (if t = SectionTypeWildCard then 1 else 0) + subs.wildCount
/-- Number of Wildcard nodes in the subtrees of a child map. -/
def Subs.wildCount : Subs → Nat
  | .nil => 0
  | .cons _ s rest => s.wildCount + rest.wildCount
end

/-- The recorded walk of a context as (type, name, captured values). -/
def Context.walk (ctx : Context) : List (sectionType × String × List String) :=
  ctx.path.map (fun sv => (sv.s.sType, sv.s.sName, sv.vals))

/-- The handlers a dispatch ran, in order; `none` when it invoked Not-Found. -/
def Response.handlers : Response → Option (List Handler)
  | .served _ _ t => some (t.map Event.h)
  | .notFound _ => none

/-- The context a dispatch handed to the chain; `none` when it invoked Not-Found. -/
def Response.context : Response → Option Context
  | .served ctx _ _ => some ctx
  | .notFound _ => none

/-- The search of a request path in the trie of a method, on a fresh context. -/
def Mux.find (lib : Lib) (m : Mux) (method path : String) : Option (Bool × Context) :=
  (lookupRoot m.roots method).map (fun rs => findRoute lib m Context.zero rs path)

/-- Handler number `n` as a registration argument (a `HandlerFunc` that does
not call `Next`). -/
def hf (n : Nat) : HandlerArg := .handlerFunc (some ⟨n, 0⟩)

/-- A router with the single route `GET /Users`. -/
def upperRouter : Mux × Option String :=
  registerAll stubLib New [("GET", "/Users", hf 1)]

/-- A router with `GET /users/:id` registered before `GET /users/active`. -/
def usersRouter : Mux × Option String :=
  registerAll stubLib New [("GET", "/users/:id", hf 1), ("GET", "/users/active", hf 2)]

/-- The routes of `usersRouter` registered in the other order, so that the
children of `users` are visited `active` first. -/
def usersRouterSwapped : Mux × Option String :=
  registerAll stubLib New [("GET", "/users/active", hf 2), ("GET", "/users/:id", hf 1)]

/-- A router with `GET /:id` registered before `GET /*rest`. -/
def siblingsRouter : Mux × Option String :=
  registerAll stubLib New [("GET", "/:id", hf 1), ("GET", "/*rest", hf 2)]

/-- A router with `GET /files/*rest` and `GET /files/report`. -/
def filesRouter : Mux × Option String :=
  registerAll stubLib New [("GET", "/files/*rest", hf 1), ("GET", "/files/report", hf 2)]

/-- The node of `*rest` in `filesRouter`. -/
def restNode : Section :=
  .mk "rest" SectionTypeWildCard none true .nil false { mws := [], h := some ⟨1, 0⟩, nextIdx := 0 }

/-- The node of `report` in `filesRouter`. -/
def reportNode : Section :=
  .mk "report" SectionTypeRaw none false .nil false { mws := [], h := some ⟨2, 0⟩, nextIdx := 0 }

/-- The node of `files` in `filesRouter`. -/
def filesNode : Section :=
  .mk "files" SectionTypeRaw none false (.cons "*rest" restNode (.cons "report" reportNode .nil))
    false NewChain

/-- The `GET` root of `filesRouter`. -/
def filesRoot : Section :=
  .mk "/" SectionTypeRaw none false (.cons "files" filesNode .nil) false NewChain

/-- A router with `GET /files/x/*deep` registered before `GET /files/*rest`. -/
def deepRouter : Mux × Option String :=
  registerAll stubLib New [("GET", "/files/x/*deep", hf 1), ("GET", "/files/*rest", hf 2)]

/-- A router with the single route `GET /:id/id`. -/
def idRouter : Mux × Option String :=
  registerAll stubLib New [("GET", "/:id/id", hf 1)]

/-- A router with the single route `GET /a/b`. -/
def abRouter : Mux × Option String :=
  registerAll stubLib New [("GET", "/a/b", hf 1)]

/-- The node of `:id` in `usersRouter`. -/
def idNode : Section :=
  .mk "id" SectionTypeMatch none true .nil false { mws := [], h := some ⟨1, 0⟩, nextIdx := 0 }

/-- The node of `active` in `usersRouter`. -/
def activeNode : Section :=
  .mk "active" SectionTypeRaw none false .nil false { mws := [], h := some ⟨2, 0⟩, nextIdx := 0 }

/-- The node of `users` in `usersRouter`. -/
def usersNode : Section :=
  .mk "users" SectionTypeRaw none false (.cons ":id" idNode (.cons "active" activeNode .nil))
    false NewChain

/-- The `GET` root of `usersRouter`. -/
def usersRoot : Section :=
  .mk "/" SectionTypeRaw none false (.cons "users" usersNode .nil) false NewChain

/-- The pieces of a registration path that the loop of `addRoute` does not
skip (the non-empty ones), as written. -/
def rawTokens (path : String) : List String :=
  (Split path).filter (fun p => p.length ≠ 0)

/-- The non-empty pieces of a list of pieces, lower-cased: the keys the loop
of `addRoute` looks up, in order. -/
def toks (lib : Lib) (ps : List String) : List String :=
  (ps.filter (fun p => p.length ≠ 0)).map (ToLower lib)

/-- The keys a registration path leads through: its non-empty pieces,
lower-cased. -/
def tokens (lib : Lib) (path : String) : List String := toks lib (Split path)

/-- The node that a list of keys leads to from `s` through existing
children. -/
def reachFrom : Section → List String → Option Section
  | s, [] => some s
  | s, p :: ps =>
    match s.subs.find p with
    | some ss => reachFrom ss ps
    | none => none

/-- The node that a registration path leads to in the trie of a method, if
all its nodes exist. -/
def Mux.reach (lib : Lib) (m : Mux) (method path : String) : Option Section :=
  match lookupRoot m.roots method with
  | some rs => reachFrom rs (tokens lib path)
  | none => none

/-- The panic message of a second registration. -/
def redefined (path : String) : String := "handler for path " ++ path ++ " redefined"

/-- The root that `Handle` creates for a method without one. -/
def freshRoot : Section := Section.fresh "/" SectionTypeRaw none false

/-- A router with the single route `GET /a`. -/
def aRouter : Mux × Option String :=
  registerAll stubLib New [("GET", "/a", hf 1)]

/-- The type that `newSection` gives to a node created for the key `k`. -/
def tokenType (k : String) : sectionType :=
  match k.data with
  | ':' :: _ => SectionTypeMatch
  | '*' :: _ => SectionTypeWildCard
  | '#' :: _ => SectionTypeRegexp
  | _ => SectionTypeRaw

/-- What registration maintains at every node: a Wildcard node has no
children; a child has the type its key is classified as; the flag
`hasNonRawSub` is set exactly on the nodes that are not Raw; the children of
a node that is not Raw are all Raw; a node without terminal handler has no
middleware. -/
structure NodeOK (n : Section) : Prop where
  wild_leaf : n.sType = SectionTypeWildCard → n.subs = .nil
  keyed : ∀ k c, (k, c) ∈ n.subs.toList → c.sType = tokenType k
  flag : n.hasNonRawSub = true ↔ n.sType ≠ SectionTypeRaw
  raw_below : n.sType ≠ SectionTypeRaw → ∀ k c, (k, c) ∈ n.subs.toList → c.sType = SectionTypeRaw
  chain_empty : n.chain.h = none → n.chain.mws = []

mutual
/-- Every node of the subtree of a node satisfies `NodeOK`. -/
def Section.OK : Section → Prop
  | .mk n t r f subs ts c => NodeOK (.mk n t r f subs ts c) ∧ subs.OK
/-- Every node below a child map satisfies `NodeOK`. -/
def Subs.OK : Subs → Prop
  | .nil => True
  | .cons _ s rest => s.OK ∧ rest.OK
end

/-- Every node of every trie of the router satisfies `NodeOK`. -/
def Mux.OK (m : Mux) : Prop := ∀ k rs, lookupRoot m.roots k = some rs → rs.OK

mutual
/-- The nodes of the subtree of a node, the node first. -/
def Section.nodes : Section → List Section
  | .mk n t r f subs ts c => (.mk n t r f subs ts c) :: subs.nodes
/-- The nodes below a child map. -/
def Subs.nodes : Subs → List Section
  | .nil => []
  | .cons _ s rest => s.nodes ++ rest.nodes
end

/-- ASCII digit, the class `\d` of Go's regular expressions. -/
def isDigit (c : Char) : Bool := 48 ≤ c.toNat && c.toNat ≤ 57

/-- The leftmost four consecutive digits of a text. -/
def findFourDigits : List Char → Option (List Char)
  | [] => none
  | a :: t =>
    match t with
    | b :: c :: d :: _ =>
      if isDigit a && isDigit b && isDigit c && isDigit d then some [a, b, c, d]
      else findFourDigits t
    | _ => none

/-- A library instance that knows the one pattern `\d{4}`: it compiles, and
`FindStringSubmatch` returns the leftmost run of four digits (the pattern has
no capture group, so the result is the whole match alone). -/
def digitsLib : Lib :=
  { unicodeToLower := fun c => c
    Compile := fun re => re = "\\d{4}"
    FindStringSubmatch := fun re s =>
      if re = "\\d{4}" then (findFourDigits s.data).map (fun l => [String.mk l]) else none }

/-- The router with the single route `GET /archive/#{year}\d{4}`, built with
the library `lib`. -/
def archiveRouter (lib : Lib) : Mux × Option String :=
  registerAll lib New [("GET", "/archive/#{year}\\d{4}", hf 1)]

/-- The Regex node of `archiveRouter`. -/
def yearNode : Section :=
  .mk "year" SectionTypeRegexp (some "\\d{4}") true .nil false
    { mws := [], h := some ⟨1, 0⟩, nextIdx := 0 }

/-- The node of `archive` in `archiveRouter`. -/
def archiveNode : Section :=
  .mk "archive" SectionTypeRaw none false (.cons "#{year}\\d{4}" yearNode .nil) false NewChain

/-- The `GET` root of `archiveRouter`. -/
def archiveRoot : Section :=
  .mk "/" SectionTypeRaw none false (.cons "archive" archiveNode .nil) false NewChain

/-- The last node of a recorded path whose stored name is `n`. -/
def lastNamed (path : List sectionValue) (n : String) : Option sectionValue :=
  path.reverse.find? (fun sv => sv.s.sName = n)

mutual
/-- No node of the subtree of a node is a Wildcard node. -/
def Section.wildFree : Section → Prop
  | .mk _ t _ _ subs _ _ => t ≠ SectionTypeWildCard ∧ subs.wildFree
/-- No node below a child map is a Wildcard node. -/
def Subs.wildFree : Subs → Prop
  | .nil => True
  | .cons _ s rest => s.wildFree ∧ rest.wildFree
end

/-- The router-wide flag `hasWildcard` is set whenever some trie of the
router holds a Wildcard node. -/
def Mux.flagOK (m : Mux) : Prop :=
  m.hasWildcard = false → ∀ k rs, lookupRoot m.roots k = some rs → rs.wildFree

/-- A router with the single route `GET /users/:id`. -/
def getRouter : Mux × Option String :=
  registerAll stubLib New [("GET", "/users/:id", hf 1)]

mutual
/-- The node with the cursor of every chain of its subtree set to 0. -/
def Section.eraseCursor : Section → Section
  | .mk n t r f subs ts c => .mk n t r f subs.eraseCursor ts { c with nextIdx := 0 }
/-- The child map with the cursor of every chain below it set to 0. -/
def Subs.eraseCursor : Subs → Subs
  | .nil => .nil
  | .cons k s rest => .cons k s.eraseCursor rest.eraseCursor
end

/-- The context with the chain cursors of the recorded nodes set to 0. -/
def Context.eraseCursor (ctx : Context) : Context :=
  { ctx with path := ctx.path.map (fun sv => ⟨sv.s.eraseCursor, sv.vals⟩) }

/-- Two routers that differ at most in the cursors of their chains, which is
all that a dispatch writes to a router. -/
def sameButCursors (m m2 : Mux) : Prop :=
  m.hasWildcard = m2.hasWildcard ∧ m.NotFound = m2.NotFound ∧
    m.roots.map (fun kr => (kr.1, kr.2.eraseCursor)) =
      m2.roots.map (fun kr => (kr.1, kr.2.eraseCursor))

/-- What a handler can see of a dispatch: the handlers run, the parameter
map handed to the chain, and the walk (types, names, captured values). -/
def Response.observed (r : Response) :
    Option (List Handler) × Option (List (String × List String)) ×
      Option (List (sectionType × String × List String)) :=
  (r.handlers, r.context.map (fun c => c.paramMap), r.context.map Context.walk)

/-- The root of `usersRouter` after the request `GET /users/7` has been
served: the cursor of the chain of `:id` is left at 1. -/
def usersRootServed : Section :=
  .mk "/" SectionTypeRaw none false
    (.cons "users"
      (.mk "users" SectionTypeRaw none false
        (.cons ":id"
          (.mk "id" SectionTypeMatch none true .nil false
            { mws := [], h := some ⟨1, 0⟩, nextIdx := 1 })
          (.cons "active" activeNode .nil))
        false NewChain)
      .nil)
    false NewChain

/-- An example chain argument whose steps do not call `Next`: middleware 1
and terminal 2. -/
def quietPair : Chain := { mws := [some ⟨1, 0⟩], h := some ⟨2, 0⟩, nextIdx := 0 }

/-- The registration of `quietPair` under `GET /archive/#{year}\d{4}` with
the library `digitsLib`. -/
def archiveChainRouter : Mux × Option String :=
  New.Handle digitsLib "GET" "/archive/#{year}\\d{4}" (.chainPtr (some quietPair))

/-- The registration of `quietPair` under `GET /Users`. -/
def upperChainRouter : Mux × Option String :=
  New.Handle stubLib "GET" "/Users" (.chainPtr (some quietPair))

/-- The registration of `quietPair` under `GET /a`. -/
def aChainRouter : Mux × Option String :=
  New.Handle stubLib "GET" "/a" (.chainPtr (some quietPair))

mutual
/-- Every child of the first node has, somewhere in the child map of the
second, a child under the same key with the same name, type and pattern, and
so on below.  Two tries that differ only in the order of the children are
related in both directions. -/
def Section.sim : Section → Section → Bool
  | .mk n t r _ subs _ _, s2 =>
    decide (s2.sName = n) && decide (s2.sType = t) && decide (s2.regexp = r) &&
      Subs.sim subs s2.subs.toList
/-- Every child of the map has a related child under the same key in the
list. -/
def Subs.sim : Subs → List (String × Section) → Bool
  | .nil, _ => true
  | .cons k s rest, l => l.any (fun p => decide (p.1 = k) && Section.sim s p.2) && Subs.sim rest l
end

/-- Every entry of the list is a child of the entry before it, and the first
entry is a child of `p`. -/
def IsDescent : Section → List sectionValue → Prop
  | _, [] => True
  | p, sv :: rest => (∃ k, (k, sv.s) ∈ p.subs.toList) ∧ IsDescent sv.s rest

/-- Entry `i` of the list holds the values that its node captures from
segment `i` (a Wildcard node from segment `i` and all that follow); there are
at least as many segments as entries. -/
def CapturesFrom (lib : Lib) : List String → List sectionValue → Prop
  | _, [] => True
  | [], _ :: _ => False
  | p0 :: rest, sv :: more =>
    (∃ b, sv.s.matchSeg lib p0 rest false = (true, b, sv.vals)) ∧ CapturesFrom lib rest more

/-- An example chain with a nil entry at index 1, after a middleware that
calls `Next` once: middleware 1, nil, middleware 2, terminal 3. -/
def holeChain : Chain :=
  { mws := [some ⟨1, 1⟩, none, some ⟨2, 0⟩], h := some ⟨3, 0⟩, nextIdx := 0 }

/-- An example chain with a nil entry at index 2, after two middleware that
do not call `Next`. -/
def stopChain : Chain :=
  { mws := [some ⟨1, 0⟩, some ⟨2, 0⟩, none, some ⟨4, 0⟩], h := some ⟨3, 0⟩, nextIdx := 0 }

/-- What classification stores for a key: the name and the pattern source of
the node that `newSection` creates for it; `none` when the key is refused. -/
def tokenLabel (lib : Lib) (k : String) : Option (String × Option String) :=
  match (classify lib New k).2 with
  | .ok s => some (s.sName, s.regexp)
  | .error _ => none

/-- What registration maintains at every node, besides `NodeOK`: a child has
the name and the pattern that classification extracts from its key; the keys
of the child map are distinct; every key satisfies `K`. -/
structure NodeNamed (lib : Lib) (K : String → Prop) (n : Section) : Prop where
  named : ∀ k c, (k, c) ∈ n.subs.toList → tokenLabel lib k = some (c.sName, c.regexp)
  distinct : (n.subs.toList.map Prod.fst).Nodup
  keys : ∀ k c, (k, c) ∈ n.subs.toList → K k

mutual
/-- Every node of the subtree of a node satisfies `NodeNamed`. -/
def Section.Named (lib : Lib) (K : String → Prop) : Section → Prop
  | .mk n t r f subs ts c => NodeNamed lib K (.mk n t r f subs ts c) ∧ subs.Named lib K
/-- Every node below a child map satisfies `NodeNamed`. -/
def Subs.Named (lib : Lib) (K : String → Prop) : Subs → Prop
  | .nil => True
  | .cons _ s rest => s.Named lib K ∧ rest.Named lib K
end

/-- Every node of every trie of the router satisfies `NodeNamed`. -/
def Mux.Named (lib : Lib) (K : String → Prop) (m : Mux) : Prop :=
  ∀ k rs, lookupRoot m.roots k = some rs → rs.Named lib K

/-- The router with the single route `GET /:ID`, built with the library
`lib`. -/
def idRouterUpper (lib : Lib) : Mux × Option String :=
  New.Handle lib "GET" "/:ID" (hf 1)

/-- A library instance in which every pattern compiles. -/
def anyLib : Lib :=
  { unicodeToLower := fun c => c, Compile := fun _ => true, FindStringSubmatch := fun _ _ => none }

end webs

/-!
# xkit/clip: sub-command selection and size parsing

A shallow embedding of `parseSubCommand` and `parseSize` of
`src/clip/clip.go`.

* Strings are handled through their character lists, as in the router.  The
  source compares byte lengths and byte prefixes and reads the last byte; on
  valid UTF-8 a text is a byte prefix of another exactly when it is a
  character prefix, and the unit letters are ASCII, so the tests agree.
* `int64` values are integers; the one multiplication of the source wraps
  around modulo `2^64` (`wrap64`).
* An `error` result is its message; nil is `none`.
-/

namespace clip

/-! ## Standard library used by the parser -/

/-- The part of the Go standard library that `parseSize` calls and that is
not re-implemented here. -/
structure Strconv where
  /-- Result of `strconv.ParseInt(s, 0, 64)`: the value returned and whether
  the error is nil.  On an error Go returns 0 or the nearest `int64` bound. -/
  ParseInt : String → Int × Bool

/-- Go `strings.HasPrefix`. -/
def HasPrefix (s pre : String) : Bool := pre.data.isPrefixOf s.data

/-- The value of an `int64` expression whose mathematical value is `x`:
arithmetic on `int64` wraps around modulo `2^64`. -/
def wrap64 (x : Int) : Int := (x + 2 ^ 63) % 2 ^ 64 - 2 ^ 63

/-! ## clip.go -/

/-- Go `type Command struct`, reduced to the fields that sub-command
selection reads: `name` and `subcmds`. -/
inductive Command where
  | mk (name : String) (subcmds : List Command) : Command

/-- Field `name`. -/
def Command.name : Command → String
  | .mk n _ => n

/-- Field `subcmds`. -/
def Command.subcmds : Command → List Command
  | .mk _ l => l

/-- The test of the loop body of `parseSubCommand`: whether `scTmp` is set
for the sub-command `s`. -/
def subMatches (s : Command) (str : String) : Bool :=
  if s.name.length = str.length then decide (s.name = str)
  else if s.name.length > str.length then HasPrefix s.name str
  else false

/-- The loop of `parseSubCommand` over the remaining sub-commands, from the
current value of `sc`: the values of `sc` and `er` after the loop. -/
def subLoop (str : String) : List Command → Option Command → Option Command × Option String
  | [], sc => (sc, none)
  | s :: rest, sc =>
    if subMatches s str then
      match sc with
      | some _ => (none, some ("ambiguous command '" ++ str ++ "'"))
      | none => subLoop str rest (some s)
    else subLoop str rest sc

/-- Go `parseSubCommand(c, str)`: the results `consumed`, `sc`, `er`; a nil
error is `none`. -/
def parseSubCommand (c : Command) (str : String) : Nat × Option Command × Option String :=
  if c.subcmds.length = 0 then (0, none, none)
  else
    match subLoop str c.subcmds none with
    | (some sc, er) => (1, some sc, er)
    | (none, _) => (0, none, some ("'" ++ str ++ "' not recognized."))

/-- The `switch sz[len(sz)-1]` of `parseSize`: the value of `factor` after
it, for the last character `c` of the text. -/
def unitFactor (c : Char) : Int :=
  if c = 'k' ∨ c = 'K' then 1024
  else if c = 'm' ∨ c = 'M' then 1024 * 1024
  else if c = 'g' ∨ c = 'G' then 1024 * 1024 * 1024
  else 0

/-- Go `parseSize(sz)`: the results `n` and `err`; a nil error is `none`.
The last character is absent exactly when `len(sz) == 0`; `n *= factor` is a
multiplication of `int64` values. -/
def parseSize (lib : Strconv) (sz : String) : Int × Option String :=
  match sz.data.getLast? with
  | none => (0, none)
  | some c =>
    let factor := unitFactor c
    let sz1 := if factor > 0 then String.mk sz.data.dropLast else sz
    match lib.ParseInt sz1 with
    | (n, true) => (wrap64 (n * factor), none)
    | (n, false) => (n, some ("invalid log size " ++ sz1))

/-! ## Vocabulary of the statements -/

/-- The specification's words: the name equals the text or has it as a
proper prefix. -/
def SpecNameMatches (name str : String) : Prop :=
  name = str ∨ ∃ more : List Char, more ≠ [] ∧ name.data = str.data ++ more

/-- The specification's words: `s` is the only sub-command of `c` whose name
equals `str` or has `str` as a proper prefix. -/
def SpecSelects (c : Command) (str : String) (s : Command) : Prop :=
  ∃ pre post, c.subcmds = pre ++ s :: post ∧ SpecNameMatches s.name str ∧
    (∀ x ∈ pre, ¬ SpecNameMatches x.name str) ∧ (∀ x ∈ post, ¬ SpecNameMatches x.name str)

/-- A command with the sub-commands `run`, `runner` and `stop`. -/
def runCommand : Command :=
  .mk "tool" [.mk "run" [], .mk "runner" [], .mk "stop" []]

/-- The value of a text of decimal digits. -/
def digitsValue : List Char → Option Nat
  | [] => some 0
  | c :: cs =>
    if 48 ≤ c.toNat ∧ c.toNat ≤ 57 then
      (digitsValue cs).map (fun v => (c.toNat - 48) * 10 ^ cs.length + v)
    else none

/-- A library instance that agrees with `strconv.ParseInt(s, 0, 64)` on the
texts it accepts: a decimal number without sign, prefix or underscore, not
starting with `0`, that fits `int64`.  It reports an error with value 0 for
every other text (the real function accepts more). -/
def decimalStrconv : Strconv :=
  { ParseInt := fun s =>
      match s.data with
      | [] => (0, false)
      | '0' :: _ => (0, false)
      | cs =>
        match digitsValue cs with
        | some v => if v < 2 ^ 63 then ((v : Int), true) else (0, false)
        | none => (0, false) }

end clip

/-! # Properties -/

namespace webs

open sectionType

/-! ## Middleware chain -/

theorem Advances.refl (c : Chain) : Advances c c [] :=
  ⟨rfl, rfl, le_refl _, by simp, List.Pairwise.nil⟩

theorem stepAt_congr {c c1 : Chain} (hm : c1.mws = c.mws) (hh : c1.h = c.h) (i : Int) :
    c1.stepAt i = c.stepAt i := by
  simp [Chain.stepAt, Chain.pick, hm, hh]

theorem Advances.trans {a b c : Chain} {t1 t2 : List Event}
    (h1 : Advances a b t1) (h2 : Advances b c t2) : Advances a c (t1 ++ t2) := by
  refine ⟨h2.mws_eq.trans h1.mws_eq, h2.h_eq.trans h1.h_eq, le_trans h1.cursor_le h2.cursor_le, ?_, ?_⟩
  · intro e he
    rcases List.mem_append.mp he with he | he
    · obtain ⟨x, y, z⟩ := h1.events e he
      exact ⟨x, le_trans y h2.cursor_le, z⟩
    · obtain ⟨x, y, z⟩ := h2.events e he
      refine ⟨lt_of_le_of_lt h1.cursor_le x, y, ?_⟩
      rw [← stepAt_congr h1.mws_eq h1.h_eq]; exact z
  · rw [List.pairwise_append]
    refine ⟨h1.increasing, h2.increasing, ?_⟩
    intro x hx y hy
    exact lt_of_le_of_lt (h1.events x hx).2.1 (h2.events y hy).1

theorem runBody_advances (next : Chain → Option (Chain × List Event)) (n : Nat) (bound : Int)
    (hnext : ∀ c : Chain, c.mws.length = n → bound ≤ c.nextIdx →
      ∃ c1 t, next c = some (c1, t) ∧ Advances c c1 t) :
    ∀ (k : Nat) (c : Chain), c.mws.length = n → bound ≤ c.nextIdx →
      ∃ c1 t, runBody next k c = some (c1, t) ∧ Advances c c1 t := by
  intro k
  induction k with
  | zero => intro c _ _; exact ⟨c, [], rfl, Advances.refl c⟩
  | succ k ih =>
    intro c hn hc
    obtain ⟨c1, t1, e1, a1⟩ := hnext c hn hc
    obtain ⟨c2, t2, e2, a2⟩ := ih c1 (by rw [a1.mws_eq]; exact hn) (le_trans hc a1.cursor_le)
    exact ⟨c2, t1 ++ t2, by simp [runBody, e1, e2], a1.trans a2⟩

theorem pick_some_range {c : Chain} {h : Option Handler} (hp : c.pick = some h) :
    0 ≤ c.nextIdx ∧ c.nextIdx ≤ c.mws.length := by
  unfold Chain.pick at hp
  split_ifs at hp with h1 h2
  · exact ⟨h1.1, le_of_lt h1.2⟩
  · rw [h2]; exact ⟨by positivity, le_refl _⟩

theorem stepAt_cursor {c : Chain} {h : Option Handler} (hp : c.pick = some h) :
    c.stepAt c.nextIdx = h := by
  simp [Chain.stepAt, hp]

/-- With fuel above the number of steps left, `Next` returns, and what it
does is an advance of the cursor. -/
theorem Next_advances : ∀ (fuel : Nat) (c : Chain), 0 ≤ c.nextIdx →
    (c.mws.length + 1 - c.nextIdx).toNat + 1 ≤ fuel →
    ∃ c1 t, Chain.Next fuel c = some (c1, t) ∧ Advances c c1 t := by
  intro fuel
  induction fuel with
  | zero => intro c _ hf; omega
  | succ fuel ih =>
    intro c h0 hf
    unfold Chain.Next
    cases hp : c.pick with
    | none => exact ⟨c, [], rfl, Advances.refl c⟩
    | some h =>
      have hr := pick_some_range hp
      have hstep := stepAt_cursor hp
      cases h with
      | none =>
        refine ⟨{ c with nextIdx := c.nextIdx + 1 }, [], rfl, ⟨rfl, rfl, ?_, by simp, List.Pairwise.nil⟩⟩
        simp
      | some hd =>
        have hnext : ∀ d : Chain, d.mws.length = c.mws.length → c.nextIdx + 1 ≤ d.nextIdx →
            ∃ c1 t, Chain.Next fuel d = some (c1, t) ∧ Advances d c1 t := by
          intro d hd1 hd2
          apply ih d (by omega)
          rw [hd1]; omega
        obtain ⟨c2, t2, e2, a2⟩ := runBody_advances (Chain.Next fuel) c.mws.length (c.nextIdx + 1)
          hnext hd.calls { c with nextIdx := c.nextIdx + 1 } rfl (le_refl _)
        obtain ⟨c3, t3, e3, a3⟩ := hnext c2 (by rw [a2.mws_eq]) a2.cursor_le
        have a23 := a2.trans a3
        refine ⟨c3, ⟨hd, c.nextIdx + 1⟩ :: (t2 ++ t3), by simp [e2, e3], ?_⟩
        refine ⟨a23.mws_eq, a23.h_eq, ?_, ?_, ?_⟩
        · have := a23.cursor_le
          simp at this; omega
        · intro e he
          rcases List.mem_cons.mp he with he | he
          · subst he
            have := a23.cursor_le
            simp at this
            refine ⟨by simp, by simpa using this, ?_⟩
            simpa using hstep
          · obtain ⟨x, y, z⟩ := a23.events e he
            simp at x
            refine ⟨by omega, y, ?_⟩
            rw [← z]; exact (stepAt_congr rfl rfl _).symm
        · rw [List.pairwise_cons]
          refine ⟨?_, a23.increasing⟩
          intro e he
          have := (a23.events e he).1
          simpa using this

theorem pick_of_stepAt {c : Chain} {i : Int} {m : Handler} (h : c.stepAt i = some m) :
    ({ c with nextIdx := i } : Chain).pick = some (some m) := by
  unfold Chain.stepAt at h
  cases hp : ({ c with nextIdx := i } : Chain).pick with
  | none => rw [hp] at h; simp at h
  | some x => rw [hp] at h; simp at h; rw [h]

theorem Next_total (fuel : Nat) (c : Chain) (h0 : 0 ≤ c.nextIdx)
    (hf : (c.mws.length + 1 - c.nextIdx).toNat + 1 ≤ fuel) :
    ∃ r, Chain.Next fuel c = some r := by
  obtain ⟨c1, t, e, _⟩ := Next_advances fuel c h0 hf
  exact ⟨(c1, t), e⟩

/-- A handler that never calls `Next` leaves the chain as it found it. -/
theorem runBody_zero (next : Chain → Option (Chain × List Event)) (c : Chain) :
    runBody next 0 c = some (c, []) := rfl

/-- One call of `Next` at a non-nil step whose handler does not re-enter
the chain: the handler runs, then `Next` goes on from the following
cursor. -/
theorem Next_quiet_step (fuel : Nat) (c : Chain) (m : Handler)
    (hp : c.pick = some (some m)) (hc : m.calls = 0) :
    Chain.Next (fuel + 1) c =
      match Chain.Next fuel { c with nextIdx := c.nextIdx + 1 } with
      | none => none
      | some (c3, t3) => some (c3, ⟨m, c.nextIdx + 1⟩ :: t3) := by
  rw [Chain.Next]
  simp only [hp, hc, runBody_zero, List.nil_append]

theorem getD_middle (pre suf : List Handler) (x : Handler) :
    ((pre ++ x :: suf).map some).getD pre.length none = some x := by
  induction pre with
  | nil => rfl
  | cons y pre ihp => simpa using ihp

/-- The run of a chain whose remaining steps are all non-nil and do not
re-enter it: from cursor `pre.length` on, the handlers `suf` and the
terminal run in order, each once, and the cursor ends past the terminal. -/
theorem Next_linear (t : Handler) (ht : t.calls = 0) :
    ∀ (suf : List Handler) (pre : List Handler) (c : Chain) (fuel : Nat),
      c.mws = (pre ++ suf).map some → c.h = some t → c.nextIdx = pre.length →
      (∀ x ∈ suf, x.calls = 0) → suf.length + 2 ≤ fuel →
      Chain.Next fuel c =
        some ({ c with nextIdx := ((pre ++ suf).length : Int) + 1 },
          eventsFrom pre.length (suf ++ [t])) := by
  intro suf
  induction suf with
  | nil =>
    intro pre c fuel hm hh hi _ hf
    obtain ⟨f, rfl⟩ : ∃ f, fuel = f + 2 := ⟨fuel - 2, by simp at hf; omega⟩
    have hp : c.pick = some (some t) := by
      simp [Chain.pick, hm, hi, hh]
    rw [Next_quiet_step _ _ _ hp ht]
    have hp2 : ({ c with nextIdx := c.nextIdx + 1 } : Chain).pick = none := by
      simp [Chain.pick, hm, hi]
    have hn : Chain.Next (f + 1) { c with nextIdx := c.nextIdx + 1 } =
        some ({ c with nextIdx := c.nextIdx + 1 }, []) := by
      rw [Chain.Next, hp2]
    rw [hn]
    simp [eventsFrom, hi]
  | cons x suf ih =>
    intro pre c fuel hm hh hi hq hf
    obtain ⟨f, rfl⟩ : ∃ f, fuel = f + 1 := ⟨fuel - 1, by simp at hf; omega⟩
    have hp : c.pick = some (some x) := by
      have hlen : (pre.length : Int) < ((pre ++ x :: suf).map some).length := by
        simp
      have hget := getD_middle pre suf x
      rw [Chain.pick, hm, hi]
      rw [if_pos ⟨by positivity, hlen⟩]
      simp only [Int.toNat_ofNat, hget]
    rw [Next_quiet_step _ _ _ hp (hq x (by simp))]
    have := ih (pre ++ [x]) { c with nextIdx := c.nextIdx + 1 } f
      (by simp [hm]) hh (by simp [hi]) (fun y hy => hq y (by simp [hy])) (by simp at hf ⊢; omega)
    rw [this]
    simp [eventsFrom, hi]

theorem eventsFrom_handlers (i : Int) (hs : List Handler) :
    (eventsFrom i hs).map Event.h = hs := by
  induction hs generalizing i with
  | nil => rfl
  | cons x hs ih => simp [eventsFrom, ih]

/-- C8: for a chain with non-nil middleware `ms` and terminal `h`, none of
which re-enters the chain, `Chain.ServeHTTP` returns (given fuel above the
number of steps) having run `ms` and then `h`, in that order and each once,
whatever the cursor was before; the chain it leaves behind gives the same
trace when dispatched again. -/
theorem C8_chain_runs_steps_in_order (c : Chain) (ms : List Handler) (h : Handler) (fuel : Nat)
    (hm : c.mws = ms.map some) (hh : c.h = some h)
    (hq : ∀ x ∈ ms, x.calls = 0) (ht : h.calls = 0) (hf : ms.length + 2 ≤ fuel) :
    Chain.ServeHTTP fuel c =
        some ({ c with nextIdx := (ms.length : Int) + 1 }, eventsFrom 0 (ms ++ [h])) ∧
      Chain.ServeHTTP fuel { c with nextIdx := (ms.length : Int) + 1 } =
        some ({ c with nextIdx := (ms.length : Int) + 1 }, eventsFrom 0 (ms ++ [h])) ∧
      (eventsFrom 0 (ms ++ [h])).map Event.h = ms ++ [h] := by
  have key : ∀ d : Chain, d.mws = c.mws → d.h = c.h →
      Chain.ServeHTTP fuel d =
        some ({ c with nextIdx := (ms.length : Int) + 1 }, eventsFrom 0 (ms ++ [h])) := by
    intro d hd1 hd2
    have := Next_linear h ht ms [] { d with nextIdx := 0 } fuel
      (by simp [hd1, hm]) (by simp [hd2, hh]) (by simp) hq hf
    simp only [Chain.ServeHTTP]
    rw [this]
    simp [hd1, hd2]
  exact ⟨key c rfl rfl, key _ rfl rfl, eventsFrom_handlers 0 _⟩

/-- Instance of C8 on `quietChain`, whose cursor starts at 9. -/
theorem C8_chain_runs_steps_in_order_witness :
    Chain.ServeHTTP 4 quietChain =
        some ({ quietChain with nextIdx := (([⟨1, 0⟩, ⟨2, 0⟩] : List Handler).length : Int) + 1 },
          eventsFrom 0 ([⟨1, 0⟩, ⟨2, 0⟩] ++ [⟨3, 0⟩])) ∧
      Chain.ServeHTTP 4
          { quietChain with nextIdx := (([⟨1, 0⟩, ⟨2, 0⟩] : List Handler).length : Int) + 1 } =
        some ({ quietChain with nextIdx := (([⟨1, 0⟩, ⟨2, 0⟩] : List Handler).length : Int) + 1 },
          eventsFrom 0 ([⟨1, 0⟩, ⟨2, 0⟩] ++ [⟨3, 0⟩])) ∧
      (eventsFrom 0 ([⟨1, 0⟩, ⟨2, 0⟩] ++ [⟨3, 0⟩])).map Event.h
        = [⟨1, 0⟩, ⟨2, 0⟩] ++ [(⟨3, 0⟩ : Handler)] :=
  C8_chain_runs_steps_in_order quietChain [⟨1, 0⟩, ⟨2, 0⟩] ⟨3, 0⟩ 4 rfl rfl (by decide) rfl (by decide)

/-- C9: within a dispatch the cursor only moves forward.  Any call of
`Next` at a cursor that is not negative returns (given fuel above the
number of steps) and is an advance: steps and terminal are kept, the
cursor does not decrease, every handler run is the step one below the
cursor it sees (the cursor was increased before the handler started), and
the cursors seen increase strictly, so no step runs twice, however often the
handlers call `Next` themselves.  The same holds for a whole dispatch, and
`Next` called with the cursor past the terminal returns the chain unchanged
with an empty trace. -/
theorem C9_cursor_only_advances (c : Chain) (fuel : Nat) (hf : c.mws.length + 2 ≤ fuel) :
    (0 ≤ c.nextIdx → ∃ c1 t, Chain.Next fuel c = some (c1, t) ∧ Advances c c1 t) ∧
      (∃ c1 t, Chain.ServeHTTP fuel c = some (c1, t) ∧ c1.mws = c.mws ∧ c1.h = c.h ∧
        (∀ e ∈ t, 0 < e.cursor ∧ e.cursor ≤ c1.nextIdx ∧ c.stepAt (e.cursor - 1) = some e.h) ∧
        t.Pairwise (fun a b => a.cursor < b.cursor) ∧ (t.map Event.cursor).Nodup) ∧
      ((c.mws.length : Int) < c.nextIdx → Chain.Next fuel c = some (c, [])) := by
  refine ⟨?_, ?_, ?_⟩
  · intro h0
    exact Next_advances fuel c h0 (by omega)
  · obtain ⟨c1, t, e, a⟩ := Next_advances fuel { c with nextIdx := 0 } (le_refl _)
      (by simp; omega)
    refine ⟨c1, t, e, a.mws_eq, a.h_eq, ?_, a.increasing, ?_⟩
    · intro ev hev
      obtain ⟨x, y, z⟩ := a.events ev hev
      refine ⟨x, y, ?_⟩
      rw [← z]; exact (stepAt_congr rfl rfl _).symm
    · unfold List.Nodup
      rw [List.pairwise_map]
      exact a.increasing.imp (fun hab => ne_of_lt hab)
  · intro hlt
    obtain ⟨f, rfl⟩ : ∃ f, fuel = f + 1 := ⟨fuel - 1, by omega⟩
    have hp : c.pick = none := by
      unfold Chain.pick
      rw [if_neg (by omega), if_neg (by omega)]
    rw [Chain.Next, hp]

/-- Instance of C9 on `eagerChain`, whose handlers call `Next` twice and once. -/
theorem C9_cursor_only_advances_witness :
    (0 ≤ eagerChain.nextIdx →
        ∃ c1 t, Chain.Next 4 eagerChain = some (c1, t) ∧ Advances eagerChain c1 t) ∧
      (∃ c1 t, Chain.ServeHTTP 4 eagerChain = some (c1, t) ∧ c1.mws = eagerChain.mws ∧
        c1.h = eagerChain.h ∧
        (∀ e ∈ t, 0 < e.cursor ∧ e.cursor ≤ c1.nextIdx ∧
          eagerChain.stepAt (e.cursor - 1) = some e.h) ∧
        t.Pairwise (fun a b => a.cursor < b.cursor) ∧ (t.map Event.cursor).Nodup) ∧
      ((eagerChain.mws.length : Int) < eagerChain.nextIdx →
        Chain.Next 4 eagerChain = some (eagerChain, [])) :=
  C9_cursor_only_advances eagerChain 4 (by decide)

/-- A call of `Next` at a non-nil step starts its trace with that step. -/
theorem Next_head (fuel : Nat) (c : Chain) (m : Handler) (hp : c.pick = some (some m))
    (r : Chain × List Event) (hr : Chain.Next (fuel + 1) c = some r) :
    ∃ t, r.2 = ⟨m, c.nextIdx + 1⟩ :: t := by
  rw [Chain.Next] at hr
  simp only [hp] at hr
  cases hb : runBody (Chain.Next fuel) m.calls { c with nextIdx := c.nextIdx + 1 } with
  | none => rw [hb] at hr; simp at hr
  | some r2 =>
    rw [hb] at hr
    cases hn : Chain.Next fuel r2.1 with
    | none => simp [hn] at hr
    | some r3 =>
      simp [hn] at hr
      exact ⟨r2.2 ++ r3.2, by rw [← hr]⟩

/-- C7 (counterexample): in `quietChain` no handler calls `Next`, yet the
dispatch runs middleware 1, then middleware 2, then the terminal 3. -/
theorem C7_counterexample :
    (∀ x ∈ quietChain.mws, ∀ m, x = some m → m.calls = 0) ∧
      (Chain.ServeHTTP 4 quietChain).map (fun r => r.2.map Event.h)
        = some [⟨1, 0⟩, ⟨2, 0⟩, ⟨3, 0⟩] := by
  decide

/-- C7 (amended): propagation is automatic.  When the step at the cursor is
a handler `m` that returns without calling `Next`, `Next` itself goes on: if
the following step (middleware or terminal) is a handler `m2`, it runs
directly after `m` in the same dispatch. -/
theorem C7_chain_continues_after_quiet_step (c : Chain) (m m2 : Handler) (fuel : Nat)
    (h0 : 0 ≤ c.nextIdx) (hm : c.stepAt c.nextIdx = some m) (hc : m.calls = 0)
    (hm2 : c.stepAt (c.nextIdx + 1) = some m2) (hf : c.mws.length + 2 ≤ fuel) :
    ∃ c1 t, Chain.Next fuel c =
      some (c1, ⟨m, c.nextIdx + 1⟩ :: ⟨m2, c.nextIdx + 1 + 1⟩ :: t) := by
  obtain ⟨f, rfl⟩ : ∃ f, fuel = f + 2 := ⟨fuel - 2, by omega⟩
  have hp : c.pick = some (some m) := pick_of_stepAt hm
  have hp2 : ({ c with nextIdx := c.nextIdx + 1 } : Chain).pick = some (some m2) :=
    pick_of_stepAt hm2
  have hr2 := pick_some_range hp2
  simp only at hr2
  obtain ⟨r, hr⟩ := Next_total (f + 1) { c with nextIdx := c.nextIdx + 1 } (by simp; omega)
    (by simp only; omega)
  obtain ⟨t, ht⟩ := Next_head f _ m2 hp2 r hr
  refine ⟨r.1, t, ?_⟩
  rw [Next_quiet_step _ _ _ hp hc, hr]
  simp only at ht
  simp only [← ht]

/-- Instance of the amended C7 on `quietChain` with the cursor reset to 0. -/
theorem C7_chain_continues_after_quiet_step_witness :
    ∃ c1 t, Chain.Next 4 { quietChain with nextIdx := 0 } =
      some (c1, ⟨⟨1, 0⟩, (0 : Int) + 1⟩ :: ⟨⟨2, 0⟩, (0 : Int) + 1 + 1⟩ :: t) :=
  C7_chain_continues_after_quiet_step { quietChain with nextIdx := 0 } ⟨1, 0⟩ ⟨2, 0⟩ 4
    (by decide) (by decide) rfl (by decide) (by decide)

/-! ## Registration and matching on concrete routers -/

/-- C1 (failing run): the route `GET /Users` is registered without error,
its stored node name is the lower-cased `users`, and the request
`GET /Users`, the exact path registered, finds no route and ends in
Not-Found, while `GET /users` is served by the registered handler. -/
theorem C1_registered_path_with_capital_not_found :
    upperRouter.2 = none ∧
      (lookupRoot upperRouter.1.roots "GET").map
          (fun rs => rs.subs.toList.map (fun kv => (kv.1, kv.2.sType, kv.2.sName)))
        = some [("users", SectionTypeRaw, "users")] ∧
      (upperRouter.1.find stubLib "GET" "/Users").map (fun r => (r.1, r.2.walk)) = some (false, []) ∧
      (upperRouter.1.ServeHTTP stubLib 3 "GET" "/Users").map Response.handlers = some none ∧
      (upperRouter.1.ServeHTTP stubLib 3 "GET" "/users").map Response.handlers
        = some (some [⟨1, 0⟩]) := by
  decide

/-- C2 (failing run): with `/users/:id` and `/users/active` registered and
the children of `users` visited in that order, the request `/users/active`
resolves to the Match node `id`, capturing `active`, and runs the handler of
`/users/:id`, not the handler of the Raw node `active`; the Raw node is
reached only when the children are visited in the other order. -/
theorem C2_match_node_wins_over_raw_sibling :
    usersRouter.2 = none ∧
      (usersRouter.1.find stubLib "GET" "/users/active").map (fun r => (r.1, r.2.walk))
        = some (true, [(SectionTypeRaw, "/", []), (SectionTypeRaw, "users", ["users"]),
            (SectionTypeMatch, "id", ["active"])]) ∧
      (usersRouter.1.ServeHTTP stubLib 3 "GET" "/users/active").map Response.handlers
        = some (some [⟨1, 0⟩]) ∧
      usersRouterSwapped.2 = none ∧
      (usersRouterSwapped.1.find stubLib "GET" "/users/active").map (fun r => (r.1, r.2.walk))
        = some (true, [(SectionTypeRaw, "/", []), (SectionTypeRaw, "users", ["users"]),
            (SectionTypeRaw, "active", ["active"])]) := by
  refine ⟨?_, ?_, ?_, ?_, ?_⟩ <;> decide

/-- C10 (failing run): registering `/:id` and then `/*rest` under the same
parent succeeds, and the root then has two non-Raw children, while its own
`hasNonRawSub` flag is still false. -/
theorem C10_second_non_raw_sibling_accepted :
    siblingsRouter.2 = none ∧
      (lookupRoot siblingsRouter.1.roots "GET").map
          (fun rs => (rs.hasNonRawSub, rs.subs.toList.map (fun kv => (kv.1, kv.2.sType, kv.2.hasNonRawSub))))
        = some (false, [(":id", SectionTypeMatch, true), ("*rest", SectionTypeWildCard, true)]) := by
  decide

/-! ## The search as a backtracking search for walks -/

theorem push_pop (ctx : Context) (s : Section) (vals : List String) :
    (ctx.push s vals).pop = ctx := by
  simp [Context.push, Context.pop]

theorem matchSeg_skip {lib : Lib} {s : Section} {p0 : String} {rest : List String}
    {byWildcard : Bool} {vals : List String}
    (h : s.matchSeg lib p0 rest true = (true, byWildcard, vals)) :
    s.sType ≠ SectionTypeWildCard ∧ byWildcard = false ∧
      s.matchSeg lib p0 rest false = (true, false, vals) := by
  unfold Section.matchSeg at h ⊢
  cases ht : s.sType <;> simp only [ht] at h ⊢
  · by_cases h1 : s.sName = p0
    · simp [h1] at h ⊢
      exact ⟨h.1, h.2⟩
    · simp [h1] at h
  · simp at h
  · simp at h ⊢
    exact ⟨h.1, h.2⟩
  · cases hr : s.regexp with
    | none => simp [hr] at h
    | some re =>
      simp only [hr] at h ⊢
      cases hf : lib.FindStringSubmatch re p0 with
      | none => simp [hf] at h
      | some v =>
        simp [hf] at h ⊢
        exact ⟨h.1, h.2⟩

theorem matchSeg_not_wildcard {lib : Lib} {s : Section} (p0 : String) (rest : List String)
    (h : s.sType ≠ SectionTypeWildCard) :
    s.matchSeg lib p0 rest true = s.matchSeg lib p0 rest false := by
  unfold Section.matchSeg
  cases ht : s.sType <;> simp_all

mutual
/-- What `findRoute_r` returns: success with a walk from `s` appended to the
recorded path, or failure with the context as it was. -/
theorem findRoute_r_sound (lib : Lib) :
    ∀ (s : Section) (ctx : Context) (p0 : String) (rest : List String) (skip : Bool),
      (∃ w, findRoute_r lib ctx s p0 rest skip = (true, { ctx with path := ctx.path ++ w }) ∧
          Walk lib skip s p0 rest w) ∨
        findRoute_r lib ctx s p0 rest skip = (false, ctx)
  | .mk n t r f subs ts c, ctx, p0, rest, skip => by
    rw [findRoute_r]
    cases hm : (Section.mk n t r f subs ts c).matchSeg lib p0 rest skip with
    | mk matched r2 =>
      cases r2 with
      | mk byW vals =>
        cases matched with
        | false => right; rfl
        | true =>
          cases rest with
          | nil =>
            left
            exact ⟨[⟨.mk n t r f subs ts c, vals⟩], rfl, Walk.last hm (Or.inl rfl)⟩
          | cons q rest1 =>
            cases byW with
            | true =>
              left
              exact ⟨[⟨.mk n t r f subs ts c, vals⟩], rfl, Walk.last hm (Or.inr rfl)⟩
            | false =>
              rcases findRoute_range_sound lib subs (ctx.push (.mk n t r f subs ts c) vals)
                q rest1 skip with ⟨w, k, ss, hmem, he, hw⟩ | he
              · left
                refine ⟨⟨.mk n t r f subs ts c, vals⟩ :: w, ?_, Walk.step hm hmem hw⟩
                simp only [he, Bool.false_eq_true, if_false]
                simp [Context.push]
              · right
                simp only [he, Bool.false_eq_true, if_false, push_pop]
/-- What the loop over a child map returns: success with a walk from one of
the children, or failure with the context as it was. -/
theorem findRoute_range_sound (lib : Lib) :
    ∀ (subs : Subs) (ctx : Context) (p0 : String) (rest : List String) (skip : Bool),
      (∃ w k ss, (k, ss) ∈ subs.toList ∧
          findRoute_range lib ctx subs p0 rest skip = (true, { ctx with path := ctx.path ++ w }) ∧
          Walk lib skip ss p0 rest w) ∨
        findRoute_range lib ctx subs p0 rest skip = (false, ctx)
  | .nil, ctx, p0, rest, skip => by
    right; rw [findRoute_range]
  | .cons k ss more, ctx, p0, rest, skip => by
    rw [findRoute_range]
    rcases findRoute_r_sound lib ss ctx p0 rest skip with ⟨w, he, hw⟩ | he
    · left
      exact ⟨w, k, ss, by simp [Subs.toList], by simp [he], hw⟩
    · rw [he]
      rcases findRoute_range_sound lib more ctx p0 rest skip with ⟨w, k2, ss2, hmem, he2, hw⟩ | he2
      · left
        exact ⟨w, k2, ss2, by simp [Subs.toList, hmem], by simp [he2], hw⟩
      · right
        simp [he2]
end


theorem findRoute_range_of_mem (lib : Lib) (q : String) (rest : List String) (skip : Bool) :
    ∀ (subs : Subs) (k : String) (ss : Section), (k, ss) ∈ subs.toList →
      (∀ ctx, (findRoute_r lib ctx ss q rest skip).1 = true) →
      ∀ ctx, (findRoute_range lib ctx subs q rest skip).1 = true
  | .nil, _, _, hmem, _, _ => by simp [Subs.toList] at hmem
  | .cons k0 s0 more, k, ss, hmem, hss, ctx => by
    rw [findRoute_range]
    rcases findRoute_r_sound lib s0 ctx q rest skip with ⟨w, he, _⟩ | he
    · rw [he]
    · rw [he]
      simp only [Subs.toList, List.mem_cons, Prod.mk.injEq] at hmem
      rcases hmem with ⟨_, rfl⟩ | hmem
      · have := hss ctx
        rw [he] at this
        simp at this
      · exact findRoute_range_of_mem lib q rest skip more k ss hmem hss ctx

/-- The search from a node succeeds whenever a walk from it exists. -/
theorem findRoute_r_complete (lib : Lib) {skip : Bool} {s : Section} {p0 : String}
    {rest : List String} {w : List sectionValue} (hw : Walk lib skip s p0 rest w) :
    ∀ ctx, (findRoute_r lib ctx s p0 rest skip).1 = true := by
  induction hw with
  | @last s p0 rest byW vals hm hd =>
    intro ctx
    cases s with
    | mk n t r f subs ts c =>
      rw [findRoute_r, hm]
      rcases hd with rfl | rfl
      · rfl
      · cases rest <;> rfl
  | @step s p0 q rest vals k ss w hm hmem _ ih =>
    intro ctx
    cases s with
    | mk n t r f subs ts c =>
      rw [findRoute_r, hm]
      have h := findRoute_range_of_mem lib q rest skip subs k ss hmem ih
        (ctx.push (.mk n t r f subs ts c) vals)
      simp only [Bool.false_eq_true, if_false]
      cases hr : findRoute_range lib (ctx.push (.mk n t r f subs ts c) vals) subs q rest skip with
      | mk b ctx2 =>
        rw [hr] at h
        simp only at h
        subst h
        rfl

theorem walk_skip_of_wildcardFree (lib : Lib) {s : Section} {p0 : String}
    {rest : List String} {w : List sectionValue} (hw : Walk lib false s p0 rest w)
    (hfree : WildcardFree w) : Walk lib true s p0 rest w := by
  induction hw with
  | @last s p0 rest byW vals hm hd =>
    have hs : s.sType ≠ SectionTypeWildCard := hfree ⟨s, vals⟩ (by simp)
    exact Walk.last (by rw [matchSeg_not_wildcard p0 rest hs]; exact hm) hd
  | @step s p0 q rest vals k ss w hm hmem _ ih =>
    have hs : s.sType ≠ SectionTypeWildCard := hfree ⟨s, vals⟩ (by simp)
    refine Walk.step (by rw [matchSeg_not_wildcard p0 _ hs]; exact hm) hmem (ih ?_)
    intro sv hsv
    exact hfree sv (by simp [hsv])

theorem walk_wildcardFree_of_skip (lib : Lib) {s : Section} {p0 : String}
    {rest : List String} {w : List sectionValue} (hw : Walk lib true s p0 rest w) :
    Walk lib false s p0 rest w ∧ WildcardFree w := by
  induction hw with
  | @last s p0 rest byW vals hm hd =>
    obtain ⟨h1, h2, h3⟩ := matchSeg_skip hm
    subst h2
    refine ⟨Walk.last h3 hd, ?_⟩
    intro sv hsv
    simp at hsv
    subst hsv
    exact h1
  | @step s p0 q rest vals k ss w hm hmem _ ih =>
    obtain ⟨h1, _, h3⟩ := matchSeg_skip hm
    refine ⟨Walk.step h3 hmem ih.1, ?_⟩
    intro sv hsv
    simp at hsv
    rcases hsv with rfl | hsv
    · exact h1
    · exact ih.2 sv hsv

/-- The wildcard-suppressed pass over the children of the root succeeds
exactly when a wildcard-free full match exists. -/
theorem pass_one_complete (lib : Lib) (ctx : Context) (rs : Section) (p0 : String)
    (rest : List String) (w : List sectionValue)
    (hw : FullMatch lib false rs (p0 :: rest) w) (hfree : WildcardFree w) :
    (findRoute_range lib ctx rs.subs p0 rest true).1 = true := by
  obtain ⟨k, ss, hmem, hwalk⟩ := hw
  exact findRoute_range_of_mem lib p0 rest true rs.subs k ss hmem
    (findRoute_r_complete lib (walk_skip_of_wildcardFree lib hwalk hfree)) ctx

/-- C3: for every trie and request path, if some full match of the path's
segments uses no Wildcard node, then `findRoute` succeeds and the walk it
records after the root is a full match that contains no Wildcard node. -/
theorem C3_wildcard_free_match_beats_wildcard (lib : Lib) (m : Mux) (ctx : Context)
    (rs : Section) (path : String) (w : List sectionValue)
    (hw : FullMatch lib false rs (pstrim path) w) (hfree : WildcardFree w) :
    ∃ w2, findRoute lib m ctx rs path = (true, { ctx with path := ctx.path ++ ⟨rs, []⟩ :: w2 }) ∧
      FullMatch lib false rs (pstrim path) w2 ∧ WildcardFree w2 := by
  unfold findRoute
  cases hps : pstrim path with
  | nil =>
    refine ⟨[], rfl, ?_, ?_⟩
    · simp [FullMatch]
    · intro sv hsv; simp at hsv
  | cons p0 rest =>
    rw [hps] at hw
    have hc := pass_one_complete lib (ctx.push rs []) rs p0 rest w hw hfree
    rcases findRoute_range_sound lib rs.subs (ctx.push rs []) p0 rest true with
      ⟨w2, k, ss, hmem, he, hw2⟩ | he
    · obtain ⟨hw3, hfree2⟩ := walk_wildcardFree_of_skip lib hw2
      refine ⟨w2, ?_, ⟨k, ss, hmem, hw3⟩, hfree2⟩
      simp only [he]
      simp [Context.push]
    · rw [he] at hc
      simp at hc

/-! ## Wildcard nodes of a trie -/

theorem Subs.wildCount_eq_sum : ∀ subs : Subs,
    subs.wildCount = (subs.toList.map (fun kv => kv.2.wildCount)).sum
  | .nil => by simp [Subs.wildCount, Subs.toList]
  | .cons k s rest => by
    simp [Subs.wildCount, Subs.toList, Subs.wildCount_eq_sum rest]

theorem wildCount_le_of_mem {subs : Subs} {k : String} {ss : Section}
    (h : (k, ss) ∈ subs.toList) : ss.wildCount ≤ subs.wildCount := by
  rw [Subs.wildCount_eq_sum]
  exact List.single_le_sum (by simp) _ (List.mem_map.mpr ⟨(k, ss), h, rfl⟩)

theorem Section.wildCount_eq (s : Section) :
    s.wildCount = (if s.sType = SectionTypeWildCard then 1 else 0) + s.subs.wildCount := by
  cases s; rfl

theorem wildCount_pos_of_walk (lib : Lib) {skip : Bool} {s : Section} {p0 : String}
    {rest : List String} {w : List sectionValue} (hw : Walk lib skip s p0 rest w)
    (hwild : ∃ sv ∈ w, sv.s.sType = SectionTypeWildCard) : 1 ≤ s.wildCount := by
  induction hw with
  | @last s p0 rest byW vals hm hd =>
    obtain ⟨sv, hsv, ht⟩ := hwild
    simp at hsv
    subst hsv
    rw [Section.wildCount_eq]
    simp at ht
    simp [ht]
  | @step s p0 q rest vals k ss w hm hmem _ ih =>
    obtain ⟨sv, hsv, ht⟩ := hwild
    rw [Section.wildCount_eq]
    simp at hsv
    rcases hsv with rfl | hsv
    · simp at ht
      simp [ht]
    · have h1 := ih ⟨sv, hsv, ht⟩
      have h2 := wildCount_le_of_mem hmem
      omega

/-- Two entries of a child map that both hold a Wildcard node are the same
entry when the map holds at most one Wildcard node. -/
theorem unique_wild_entry {l : List (String × Section)} {a b : String × Section}
    (hsum : (l.map (fun kv => kv.2.wildCount)).sum ≤ 1)
    (ha : a ∈ l) (hb : b ∈ l) (hca : 1 ≤ a.2.wildCount) (hcb : 1 ≤ b.2.wildCount) : a = b := by
  induction l with
  | nil => simp at ha
  | cons x l ih =>
    simp only [List.map_cons, List.sum_cons] at hsum
    have hle : ∀ y ∈ l, y.2.wildCount ≤ (l.map (fun kv => kv.2.wildCount)).sum := fun y hy =>
      List.single_le_sum (by simp) _ (List.mem_map.mpr ⟨y, hy, rfl⟩)
    rcases List.mem_cons.mp ha with ha1 | ha1
    · rcases List.mem_cons.mp hb with hb1 | hb1
      · rw [ha1, hb1]
      · have := hle b hb1
        rw [ha1] at hca
        omega
    · rcases List.mem_cons.mp hb with hb1 | hb1
      · have := hle a ha1
        rw [hb1] at hcb
        omega
      · exact ih (by omega) ha1 hb1

theorem matchSeg_raw {lib : Lib} {s : Section} (p0 : String) (rest : List String) (skip : Bool)
    (h : s.sType = SectionTypeRaw) :
    s.matchSeg lib p0 rest skip = if s.sName = p0 then (true, false, [p0]) else (false, false, []) := by
  simp [Section.matchSeg, h]

theorem matchSeg_wild {lib : Lib} {s : Section} (p0 : String) (rest : List String)
    (h : s.sType = SectionTypeWildCard) :
    s.matchSeg lib p0 rest false = (true, true, [Join (p0 :: rest)]) := by
  simp [Section.matchSeg, h]

theorem matchSeg_match {lib : Lib} {s : Section} (p0 : String) (rest : List String) (skip : Bool)
    (h : s.sType = SectionTypeMatch) :
    s.matchSeg lib p0 rest skip = (true, false, [p0]) := by
  simp [Section.matchSeg, h]

/-! ## The parameter map -/

/-- The step of the loop of `setParams`. -/
theorem setParams_eq (ctx : Context) :
    ctx.setParams.paramMap = List.foldl
      (fun pm sv => if sv.s.sName.length > 0 then setParam pm sv.s.sName sv.vals else pm)
      ctx.paramMap ctx.path := rfl

theorem find_setParam_same (pm : List (String × List String)) (name : String) (vals : List String) :
    (setParam pm name vals).find? (fun kv => kv.1 = name) = some (name, vals) := by
  simp [setParam]

theorem find_setParam_other (pm : List (String × List String)) (name other : String)
    (vals : List String) (h : other ≠ name) :
    (setParam pm other vals).find? (fun kv => kv.1 = name) = pm.find? (fun kv => kv.1 = name) := by
  simp only [setParam]
  rw [List.find?_cons_of_neg _ (by simpa using h), List.find?_filter]
  congr 1
  funext a
  by_cases ha : a.1 = name
  · have : ¬ name = other := fun e => h e.symm
    simp [ha, this]
  · simp [ha]

theorem foldl_keeps (name : String) (post : List sectionValue)
    (hpost : ∀ x ∈ post, x.s.sName ≠ name) :
    ∀ pm : List (String × List String),
      (List.foldl (fun pm sv => if sv.s.sName.length > 0 then setParam pm sv.s.sName sv.vals else pm)
        pm post).find? (fun kv => kv.1 = name) = pm.find? (fun kv => kv.1 = name) := by
  induction post with
  | nil => intro pm; rfl
  | cons x post ih =>
    intro pm
    rw [List.foldl_cons, ih (fun y hy => hpost y (by simp [hy]))]
    split_ifs
    · exact find_setParam_other pm name _ _ (hpost x (by simp))
    · rfl

/-- Last write wins: a named node of the recorded path after which no node
has the same name determines `ParamsByName` of its name. -/
theorem ParamsByName_last (ctx : Context) (pre post : List sectionValue) (sv : sectionValue)
    (hpath : ctx.path = pre ++ sv :: post) (hname : sv.s.sName.length > 0)
    (hpost : ∀ x ∈ post, x.s.sName ≠ sv.s.sName) :
    ctx.setParams.ParamsByName sv.s.sName = sv.vals := by
  unfold Context.ParamsByName
  rw [setParams_eq, hpath, List.foldl_append, List.foldl_cons, foldl_keeps _ post hpost]
  simp only [hname, if_true, find_setParam_same]

/-- When the wildcard-suppressed pass over the children of the root fails,
the request has no wildcard-free full match. -/
theorem no_free_match_of_pass_one (lib : Lib) (ctx : Context) (rs : Section) (p0 : String)
    (rest : List String) (h : (findRoute_range lib ctx rs.subs p0 rest true).1 = false) :
    ¬ ∃ w, FullMatch lib false rs (p0 :: rest) w ∧ WildcardFree w := by
  rintro ⟨w, hw, hfree⟩
  rw [pass_one_complete lib ctx rs p0 rest w hw hfree] at h
  simp at h

theorem not_free_iff {w : List sectionValue} (h : ¬ WildcardFree w) :
    ∃ sv ∈ w, sv.s.sType = SectionTypeWildCard := by
  unfold WildcardFree at h
  push_neg at h
  exact h

/-- The only full match of `files :: s1 :: ss` in a trie whose single
Wildcard node is the child `wc` of the Raw child `files` of the root, apart
from wildcard-free ones. -/
theorem walk_through_only_wildcard (lib : Lib) (rs files wc : Section) (kf kw : String)
    (s1 : String) (ss : List String) (w : List sectionValue)
    (hfiles : (kf, files) ∈ rs.subs.toList) (hft : files.sType = SectionTypeRaw)
    (hwc : (kw, wc) ∈ files.subs.toList) (hwt : wc.sType = SectionTypeWildCard)
    (honly : rs.wildCount = 1)
    (hw : FullMatch lib false rs ("files" :: s1 :: ss) w) (hwild : ¬ WildcardFree w) :
    w = [⟨files, ["files"]⟩, ⟨wc, [Join (s1 :: ss)]⟩] := by
  obtain ⟨k, n, hmem, hwalk⟩ := hw
  have hwcpos : 1 ≤ wc.wildCount := by rw [Section.wildCount_eq]; simp [hwt]
  have hfsub : 1 ≤ files.subs.wildCount := le_trans hwcpos (wildCount_le_of_mem hwc)
  have hfpos : 1 ≤ files.wildCount := by rw [Section.wildCount_eq]; omega
  have hrsub : rs.subs.wildCount ≤ 1 := by rw [Section.wildCount_eq] at honly; omega
  have hfle : files.wildCount ≤ 1 := le_trans (wildCount_le_of_mem hfiles) hrsub
  have hfsub1 : files.subs.wildCount ≤ 1 := by rw [Section.wildCount_eq] at hfle; omega
  have hnpos := wildCount_pos_of_walk lib hwalk (not_free_iff hwild)
  have hn : (k, n) = (kf, files) :=
    unique_wild_entry (by rw [← Subs.wildCount_eq_sum]; exact hrsub) hmem hfiles hnpos hfpos
  obtain ⟨rfl, rfl⟩ := Prod.mk.inj hn
  cases hwalk with
  | last hm hd =>
    rw [matchSeg_raw _ _ _ hft] at hm
    split_ifs at hm
    · simp at hm
      rcases hd with hd | hd
      · simp at hd
      · rw [hd] at hm; simp at hm
    · simp at hm
  | @step _ _ _ _ vals k2 n2 w2 hm hmem2 hwalk2 =>
    rw [matchSeg_raw _ _ _ hft] at hm
    have hvals : vals = ["files"] := by
      split_ifs at hm
      · simp at hm; exact hm.symm
      · simp at hm
    subst hvals
    have hwild2 : ∃ sv ∈ w2, sv.s.sType = SectionTypeWildCard := by
      obtain ⟨sv, hsv, ht⟩ := not_free_iff hwild
      simp at hsv
      rcases hsv with rfl | hsv
      · simp [hft] at ht
      · exact ⟨sv, hsv, ht⟩
    have hn2pos := wildCount_pos_of_walk lib hwalk2 hwild2
    have hn2 : (k2, n2) = (kw, wc) :=
      unique_wild_entry (by rw [← Subs.wildCount_eq_sum]; exact hfsub1) hmem2 hwc hn2pos hwcpos
    obtain ⟨rfl, rfl⟩ := Prod.mk.inj hn2
    cases hwalk2 with
    | last hm2 _ =>
      rw [matchSeg_wild _ _ hwt] at hm2
      simp at hm2
      simp [hm2.2]
    | step hm2 _ _ =>
      rw [matchSeg_wild _ _ hwt] at hm2
      simp at hm2

/-- C4 (amended): with `/files/*rest` registered (`wc` is the Wildcard child
named `rest` of the Raw child `files` of the root, and the router-wide
wildcard flag is set) and `wc` the only Wildcard node of the method's trie,
every request whose non-empty trimmed segments are `files, s1, ..., sk`
(k >= 1) and that has no wildcard-free full match resolves to the walk
root, `files`, `wc`; the value captured by `wc`, and seen under the name
`rest`, is `s1, ..., sk` joined by `/`. -/
theorem C4_only_wildcard_takes_the_tail (lib : Lib) (m : Mux) (rs files wc : Section)
    (kf kw : String) (path : String) (s1 : String) (ss : List String)
    (hflag : m.hasWildcard = true)
    (hfiles : (kf, files) ∈ rs.subs.toList) (hft : files.sType = SectionTypeRaw)
    (hfn : files.sName = "files")
    (hwc : (kw, wc) ∈ files.subs.toList) (hwt : wc.sType = SectionTypeWildCard)
    (hwn : wc.sName = "rest")
    (honly : rs.wildCount = 1)
    (hpath : pstrim path = "files" :: s1 :: ss)
    (hno : ¬ ∃ w, FullMatch lib false rs (pstrim path) w ∧ WildcardFree w) :
    ∃ ctx, findRoute lib m Context.zero rs path = (true, ctx) ∧
      ctx.path = [⟨rs, []⟩, ⟨files, ["files"]⟩, ⟨wc, [Join (s1 :: ss)]⟩] ∧
      ctx.setParams.ParamByName "rest" = Join (s1 :: ss) := by
  rw [hpath] at hno
  unfold findRoute
  simp only [hpath]
  rcases findRoute_range_sound lib rs.subs (Context.zero.push rs []) "files" (s1 :: ss) true with
    ⟨w, k, n, hmem, _, hw⟩ | he
  · exfalso
    obtain ⟨h1, h2⟩ := walk_wildcardFree_of_skip lib hw
    exact hno ⟨w, ⟨k, n, hmem, h1⟩, h2⟩
  · simp only [he, hflag, if_true]
    rcases findRoute_range_sound lib rs.subs (Context.zero.push rs []) "files" (s1 :: ss) false with
      ⟨w, k, n, hmem, he2, hw2⟩ | he2
    · have hwild : ¬ WildcardFree w := fun hf => hno ⟨w, ⟨k, n, hmem, hw2⟩, hf⟩
      have hweq := walk_through_only_wildcard lib rs files wc kf kw s1 ss w hfiles hft hwc hwt
        honly ⟨k, n, hmem, hw2⟩ hwild
      subst hweq
      simp only [he2]
      refine ⟨_, rfl, by simp [Context.push, Context.zero], ?_⟩
      have hp := ParamsByName_last
        ({ Context.zero.push rs [] with path := (Context.zero.push rs []).path ++
          [⟨files, ["files"]⟩, ⟨wc, [Join (s1 :: ss)]⟩] })
        [⟨rs, []⟩, ⟨files, ["files"]⟩] [] ⟨wc, [Join (s1 :: ss)]⟩
        (by simp [Context.push, Context.zero]) (by simp [hwn]; decide) (by simp)
      simp only [hwn] at hp
      simp only [Context.ParamByName, hp]
    · exfalso
      have hwalk : Walk lib false files "files" (s1 :: ss)
          [⟨files, ["files"]⟩, ⟨wc, [Join (s1 :: ss)]⟩] :=
        Walk.step (by rw [matchSeg_raw _ _ _ hft, if_pos hfn]) hwc
          (Walk.last (matchSeg_wild _ _ hwt) (Or.inr rfl))
      have := findRoute_range_of_mem lib "files" (s1 :: ss) false rs.subs kf files hfiles
        (findRoute_r_complete lib hwalk) (Context.zero.push rs [])
      rw [he2] at this
      simp at this

/-! ## What `findRoute` records -/

/-- What `findRoute` returns: success with the root and a full match recorded
after the path it was given, or failure with the context as it was. -/
theorem findRoute_sound (lib : Lib) (m : Mux) (ctx : Context) (rs : Section) (path : String) :
    (∃ w, findRoute lib m ctx rs path = (true, { ctx with path := ctx.path ++ ⟨rs, []⟩ :: w }) ∧
        FullMatch lib false rs (pstrim path) w) ∨
      findRoute lib m ctx rs path = (false, ctx) := by
  unfold findRoute
  cases hps : pstrim path with
  | nil => left; exact ⟨[], rfl, by simp [FullMatch]⟩
  | cons p0 rest =>
    simp only
    rcases findRoute_range_sound lib rs.subs (ctx.push rs []) p0 rest true with
      ⟨w, k, n, hmem, he, hw⟩ | he
    · left
      refine ⟨w, ?_, ⟨k, n, hmem, (walk_wildcardFree_of_skip lib hw).1⟩⟩
      simp only [he]
      simp [Context.push]
    · simp only [he]
      by_cases hflag : m.hasWildcard = true
      · simp only [hflag, if_true]
        rcases findRoute_range_sound lib rs.subs (ctx.push rs []) p0 rest false with
          ⟨w, k, n, hmem, he2, hw⟩ | he2
        · left
          refine ⟨w, ?_, ⟨k, n, hmem, hw⟩⟩
          simp only [he2]
          simp [Context.push]
        · right
          simp only [he2, push_pop]
      · right
        simp only [hflag, push_pop]
        simp

/-- In a walk, the node at position `i` was matched against segment `i`; a
Match node captured exactly that segment. -/
theorem walk_get (lib : Lib) {skip : Bool} {s : Section} {p0 : String} {rest : List String}
    {w : List sectionValue} (hw : Walk lib skip s p0 rest w) :
    ∀ (i : Nat) (sv : sectionValue), w[i]? = some sv → sv.s.sType = SectionTypeMatch →
      ∃ seg, (p0 :: rest)[i]? = some seg ∧ sv.vals = [seg] := by
  induction hw with
  | @last s p0 rest byW vals hm hd =>
    intro i sv hi ht
    cases i with
    | zero =>
      simp at hi
      subst hi
      rw [matchSeg_match _ _ _ ht] at hm
      simp at hm
      exact ⟨p0, by simp, hm.2.symm⟩
    | succ i => simp at hi
  | @step s p0 q rest vals k ss w hm hmem _ ih =>
    intro i sv hi ht
    cases i with
    | zero =>
      simp at hi
      subst hi
      rw [matchSeg_match _ _ _ ht] at hm
      simp at hm
      exact ⟨p0, by simp, hm.symm⟩
    | succ i =>
      simp at hi
      obtain ⟨seg, h1, h2⟩ := ih i sv hi ht
      exact ⟨seg, by simpa using h1, h2⟩

theorem split_at_index {α : Type} : ∀ (l : List α) (n : Nat) (x : α), l[n]? = some x →
    l = l.take n ++ x :: l.drop (n + 1)
  | [], n, x, h => by simp at h
  | a :: l, 0, x, h => by simp at h; simp [h]
  | a :: l, n + 1, x, h => by
    simp at h
    simpa using split_at_index l n x h

/-- C5 (amended): when a request resolves to a walk, a Match node at
position `i` below the root whose stored name is not empty, and after which
no node of the walk has the same stored name, binds its name to the request
segment at position `i`: `ParamByName` of that name is that segment. -/
theorem C5_match_node_binds_its_segment (lib : Lib) (m : Mux) (rs : Section) (path : String)
    (ctx : Context) (i : Nat) (sv : sectionValue)
    (hfound : findRoute lib m Context.zero rs path = (true, ctx))
    (hsv : ctx.path[i + 1]? = some sv)
    (hmatch : sv.s.sType = SectionTypeMatch)
    (hname : sv.s.sName.length > 0)
    (hlater : ∀ sv2 ∈ ctx.path.drop (i + 2), sv2.s.sName ≠ sv.s.sName) :
    ∃ seg, (pstrim path)[i]? = some seg ∧ ctx.setParams.ParamByName sv.s.sName = seg := by
  rcases findRoute_sound lib m Context.zero rs path with ⟨w, he, hw⟩ | he
  · rw [he] at hfound
    have hctx := (Prod.mk.inj hfound).2
    have hpath : ctx.path = ⟨rs, []⟩ :: w := by rw [← hctx]; simp [Context.zero]
    have hwi : w[i]? = some sv := by rw [hpath] at hsv; simpa using hsv
    cases hps : pstrim path with
    | nil =>
      rw [hps] at hw
      simp [FullMatch] at hw
      rw [hw] at hwi
      simp at hwi
    | cons p0 rest =>
      rw [hps] at hw
      obtain ⟨k, n, _, hwalk⟩ := hw
      obtain ⟨seg, h1, h2⟩ := walk_get lib hwalk i sv hwi hmatch
      refine ⟨seg, h1, ?_⟩
      have hp := ParamsByName_last ctx (ctx.path.take (i + 1)) (ctx.path.drop (i + 2)) sv
        (split_at_index ctx.path (i + 1) sv hsv) hname hlater
      simp only [Context.ParamByName, hp, h2]
  · rw [he] at hfound
    simp at hfound

/-! ## Dispatch -/

theorem ServeHTTP_total (fuel : Nat) (c : Chain) (hf : c.mws.length + 2 ≤ fuel) :
    ∃ r, c.ServeHTTP fuel = some r :=
  Next_total fuel { c with nextIdx := 0 } (le_refl _) (by simp; omega)

/-- A chain without middleware and without terminal handler runs nothing. -/
theorem ServeHTTP_empty (fuel : Nat) (c : Chain) (hh : c.h = none) (hm : c.mws = []) :
    c.ServeHTTP (fuel + 1) = some ({ c with nextIdx := 1 }, []) := by
  have hp : ({ c with nextIdx := 0 } : Chain).pick = some none := by
    simp [Chain.pick, hm, hh]
  rw [Chain.ServeHTTP, Chain.Next, hp]
  rfl

/-- What `Mux.ServeHTTP` does with the result of the search, whether the node
reached has a terminal handler or not (the test `c != nil` of the source is on
the address of a struct field and never fails).  Dispatch invokes the
Not-Found collaborator exactly when the method has no root or the search
fails; the empty path always resolves to the method's root; and when the
search succeeds, dispatch serves the chain of the last node of the walk with
the parameters set: with enough fuel the result is a served response, and for
a node with no middleware and a nil terminal no handler runs at all. -/
theorem ServeHTTP_serves_every_match (lib : Lib) (fuel : Nat) (m : Mux) (method path : String) :
    (m.ServeHTTP lib fuel method path = some (.notFound m.NotFound) ↔
        ¬ ∃ ctx, m.find lib method path = some (true, ctx)) ∧
      (∀ rs, lookupRoot m.roots method = some rs → pstrim path = [] →
        m.find lib method path = some (true, Context.zero.push rs [])) ∧
      (∀ ctx, m.find lib method path = some (true, ctx) →
        ∃ sv, ctx.path.getLast? = some sv ∧
          (sv.s.chain.mws.length + 2 ≤ fuel →
            ∃ c t, sv.s.chain.ServeHTTP fuel = some (c, t) ∧
              m.ServeHTTP lib fuel method path = some (.served ctx.setParams c t)) ∧
          (sv.s.chain.h = none → sv.s.chain.mws = [] → 1 ≤ fuel →
            m.ServeHTTP lib fuel method path =
              some (.served ctx.setParams { sv.s.chain with nextIdx := 1 } []))) := by
  unfold Mux.ServeHTTP Mux.find
  cases hroot : lookupRoot m.roots method with
  | none => simp
  | some rs =>
    simp only [Option.map_some', Option.some.injEq]
    have hfound : ∀ ctx, findRoute lib m Context.zero rs path = (true, ctx) →
        ∃ sv, ctx.path.getLast? = some sv := by
      intro ctx hctx
      rcases findRoute_sound lib m Context.zero rs path with ⟨w, he, _⟩ | he
      · rw [he] at hctx
        have h2 := (Prod.mk.inj hctx).2
        cases hl : ctx.path.getLast? with
        | some sv => exact ⟨sv, rfl⟩
        | none =>
          rw [List.getLast?_eq_none_iff] at hl
          rw [← h2] at hl
          simp at hl
      · rw [he] at hctx
        simp at hctx
    refine ⟨?_, ?_, ?_⟩
    · cases hr : findRoute lib m Context.zero rs path with
      | mk b ctx =>
        cases b with
        | false => simp
        | true =>
          obtain ⟨sv, hsv⟩ := hfound ctx hr
          simp only [hsv]
          cases hc : sv.s.chain.ServeHTTP fuel with
          | none => simp
          | some r => simp
    · intro rs2 hrs hps
      cases hrs
      unfold findRoute
      simp only [hps]
    · intro ctx hctx
      obtain ⟨sv, hsv⟩ := hfound ctx hctx
      refine ⟨sv, hsv, ?_, ?_⟩
      · intro hf
        obtain ⟨r, hr⟩ := ServeHTTP_total fuel sv.s.chain hf
        exact ⟨r.1, r.2, hr, by simp only [hctx, hsv, hr]⟩
      · intro hh hm hf
        obtain ⟨f, rfl⟩ : ∃ f, fuel = f + 1 := ⟨fuel - 1, by omega⟩
        simp only [hctx, hsv, ServeHTTP_empty f sv.s.chain hh hm]

/-! ## Instances on concrete routers -/

theorem filesRouter_eq :
    filesRouter = ({ roots := [("GET", filesRoot)], hasWildcard := true, NotFound := none }, none) :=
  rfl

theorem usersRouter_eq :
    usersRouter = ({ roots := [("GET", usersRoot)], hasWildcard := false, NotFound := none }, none) :=
  rfl

/-- Instance of C3 on `filesRouter`: the request `/files/report` has the
wildcard-free full match `files`, `report`. -/
theorem C3_wildcard_free_match_beats_wildcard_witness :
    ∃ w2, findRoute stubLib filesRouter.1 Context.zero filesRoot "/files/report"
        = (true, { Context.zero with path := Context.zero.path ++ ⟨filesRoot, []⟩ :: w2 }) ∧
      FullMatch stubLib false filesRoot (pstrim "/files/report") w2 ∧ WildcardFree w2 :=
  C3_wildcard_free_match_beats_wildcard stubLib filesRouter.1 Context.zero filesRoot "/files/report"
    [⟨filesNode, ["files"]⟩, ⟨reportNode, ["report"]⟩]
    ⟨"files", filesNode, List.Mem.head _,
      Walk.step (k := "report") rfl (List.Mem.tail _ (List.Mem.head _))
        (Walk.last (b := false) rfl (Or.inl rfl))⟩
    (by intro sv hsv; simp at hsv; rcases hsv with rfl | rfl <;> decide)

/-- C4 (counterexample): with `/files/x/*deep` and `/files/*rest` registered
and the Raw child `x` of `files` visited before `*rest`, the request
`/files/x/y` has no wildcard-free match (the search with wildcards
suppressed fails), yet it resolves to the Wildcard node `deep` with the
value `y`, the handler of `/files/x/*deep` runs, and nothing is bound to
`rest`. -/
theorem C4_counterexample :
    deepRouter.2 = none ∧
      (({ deepRouter.1 with hasWildcard := false } : Mux).find stubLib "GET" "/files/x/y").map
          (fun r => r.1) = some false ∧
      (deepRouter.1.find stubLib "GET" "/files/x/y").map (fun r => (r.1, r.2.walk))
        = some (true, [(SectionTypeRaw, "/", []), (SectionTypeRaw, "files", ["files"]),
            (SectionTypeRaw, "x", ["x"]), (SectionTypeWildCard, "deep", ["y"])]) ∧
      (deepRouter.1.ServeHTTP stubLib 3 "GET" "/files/x/y").map
          (fun r => (r.handlers, r.context.map (fun c => c.ParamByName "rest")))
        = some (some [⟨1, 0⟩], some "") := by
  decide

/-- Instance of the amended C4 on `filesRouter` and the request `/files/a/b`. -/
theorem C4_only_wildcard_takes_the_tail_witness :
    ∃ ctx, findRoute stubLib filesRouter.1 Context.zero filesRoot "/files/a/b" = (true, ctx) ∧
      ctx.path = [⟨filesRoot, []⟩, ⟨filesNode, ["files"]⟩, ⟨restNode, [Join ("a" :: ["b"])]⟩] ∧
      ctx.setParams.ParamByName "rest" = Join ("a" :: ["b"]) :=
  C4_only_wildcard_takes_the_tail stubLib filesRouter.1 filesRoot filesNode restNode
    "files" "*rest" "/files/a/b" "a" ["b"] rfl (List.Mem.head _) rfl rfl (List.Mem.head _) rfl rfl
    (by decide) (by decide)
    (no_free_match_of_pass_one stubLib Context.zero filesRoot "files" ["a", "b"] (by decide))

/-- C5 (counterexample): for the route `/:id/id` the request `/42/id`
resolves to the route, the Match node `id` captures `42`, and the handler
sees `ParamByName "id" = "id"`, the value written later by the Raw node
`id`. -/
theorem C5_counterexample :
    idRouter.2 = none ∧
      (idRouter.1.find stubLib "GET" "/42/id").map (fun r => (r.1, r.2.walk))
        = some (true, [(SectionTypeRaw, "/", []), (SectionTypeMatch, "id", ["42"]),
            (SectionTypeRaw, "id", ["id"])]) ∧
      (idRouter.1.ServeHTTP stubLib 3 "GET" "/42/id").map
          (fun r => (r.handlers, r.context.map (fun c => c.ParamByName "id")))
        = some (some [⟨1, 0⟩], some "id") := by
  decide

/-- Instance of the amended C5 on `usersRouter` and the request `/users/7`. -/
theorem C5_match_node_binds_its_segment_witness :
    ∃ seg, (pstrim "/users/7")[1]? = some seg ∧
      (Context.mk [] [] "" [⟨usersRoot, []⟩, ⟨usersNode, ["users"]⟩, ⟨idNode, ["7"]⟩]).setParams.ParamByName
        (sectionValue.mk idNode ["7"]).s.sName = seg :=
  C5_match_node_binds_its_segment stubLib usersRouter.1 usersRoot "/users/7"
    (Context.mk [] [] "" [⟨usersRoot, []⟩, ⟨usersNode, ["users"]⟩, ⟨idNode, ["7"]⟩]) 1
    ⟨idNode, ["7"]⟩ rfl rfl rfl (by decide) (by intro sv2 h; simp at h)

/-- C6 (failing run): with only `/a/b` registered, the requests `/a` and `/`
reach nodes without a terminal handler; the search reports success and
dispatch serves their chains, running no handler, where the claim asks for
Not-Found.  The request `/a/c`, which matches no node, does end in Not-Found,
and `/a/b` runs the registered handler. -/
theorem C6_unroutable_node_is_served :
    abRouter.2 = none ∧
      (abRouter.1.find stubLib "GET" "/a").map (fun r => (r.1, r.2.walk))
        = some (true, [(SectionTypeRaw, "/", []), (SectionTypeRaw, "a", ["a"])]) ∧
      (abRouter.1.find stubLib "GET" "/a").map
          (fun r => r.2.path.getLast?.map (fun sv => sv.s.chain.h.isSome))
        = some (some false) ∧
      (abRouter.1.ServeHTTP stubLib 3 "GET" "/a").map Response.handlers = some (some []) ∧
      (abRouter.1.ServeHTTP stubLib 3 "GET" "/").map Response.handlers = some (some []) ∧
      (abRouter.1.ServeHTTP stubLib 3 "GET" "/a/c").map Response.handlers = some none ∧
      (abRouter.1.ServeHTTP stubLib 3 "GET" "/a/b").map Response.handlers
        = some (some [⟨1, 0⟩]) := by
  refine ⟨?_, ?_, ?_, ?_, ?_, ?_, ?_⟩ <;> decide

/-! ## Registration -/

theorem toks_nil (lib : Lib) : toks lib [] = [] := rfl

theorem toks_cons_empty (lib : Lib) (p : String) (ps : List String) (h : p.length = 0) :
    toks lib (p :: ps) = toks lib ps := by
  simp [toks, h]

theorem toks_cons (lib : Lib) (p : String) (ps : List String) (h : ¬ p.length = 0) :
    toks lib (p :: ps) = ToLower lib p :: toks lib ps := by
  simp [toks, h]

theorem Subs.set_find_self : ∀ (subs : Subs) (p : String) (ss : Section),
    subs.find p = some ss → subs.set p ss = subs
  | .nil, _, _, h => by simp [Subs.find] at h
  | .cons k s rest, p, ss, h => by
    unfold Subs.find at h
    unfold Subs.set
    split_ifs at h ⊢ with hk
    · simp at h; rw [h]
    · rw [Subs.set_find_self rest p ss h]

theorem Section.setSubs_self (s : Section) : s.setSubs s.subs = s := by
  cases s; rfl

theorem setRoot_lookup_self : ∀ (roots : List (String × Section)) (k : String) (rs : Section),
    lookupRoot roots k = some rs → setRoot roots k rs = roots
  | [], _, _, h => by simp [lookupRoot] at h
  | (k0, s0) :: rest, k, rs, h => by
    unfold lookupRoot at h
    unfold setRoot
    split_ifs at h ⊢ with hk
    · simp at h; rw [h]
    · rw [setRoot_lookup_self rest k rs h]

theorem newSection_root (lib : Lib) (m : Mux) :
    newSection lib m none "/" = (m, .ok freshRoot) := rfl

theorem classify_fresh (lib : Lib) (m m1 : Mux) (p : String) (s : Section)
    (h : classify lib m p = (m1, .ok s)) :
    ∃ n t r, s = Section.fresh n t r false := by
  unfold classify at h
  split at h
  · simp at h
  · simp at h; exact ⟨_, _, _, h.2.symm⟩
  · simp at h; exact ⟨_, _, _, h.2.symm⟩
  · split at h
    · simp at h
    · split at h
      · simp at h
      · split_ifs at h <;> simp at h
        exact ⟨_, _, _, h.2.symm⟩
    · split_ifs at h <;> simp at h
      exact ⟨_, _, _, h.2.symm⟩
  · simp at h; exact ⟨_, _, _, h.2.symm⟩

theorem newSection_fresh (lib : Lib) (m m1 : Mux) (par : Option Section) (p : String)
    (ss : Section) (h : newSection lib m par p = (m1, .ok ss)) :
    ∃ n t r f, ss = Section.fresh n t r f := by
  unfold newSection at h
  split at h
  · simp at h
  · rename_i m2 s hc
    obtain ⟨n, t, r, rfl⟩ := classify_fresh lib m m2 p s hc
    split at h
    · simp at h; exact ⟨n, t, r, false, h.2.symm⟩
    · split_ifs at h <;> simp at h
      · exact ⟨n, t, r, true, h.2.symm⟩
      · exact ⟨n, t, r, false, h.2.symm⟩

theorem attach_redefined (path : String) (h : HandlerArg) (s : Section) (isRoot : Bool)
    (hs : s.chain.h ≠ none) : attach path h s isRoot = (s, some (redefined path)) := by
  unfold attach
  rw [if_pos hs]
  rfl

theorem Section.chain_setChain (s : Section) (c : Chain) : (s.setChain c).chain = c := by
  cases s; rfl

theorem Section.chain_setTs (s : Section) (b : Bool) : (s.setTs b).chain = s.chain := by
  cases s; rfl

/-- With arguments that pass the checks, `attach` at a node without terminal
handler succeeds and gives the node a terminal handler. -/
theorem attach_ok (path : String) (h : HandlerArg) (s : Section) (isRoot : Bool)
    (hargs : checkArgs path h = none) (hs : s.chain.h = none) :
    (attach path h s isRoot).2 = none ∧ (attach path h s isRoot).1.chain.h ≠ none := by
  unfold attach
  rw [if_neg (by simp [hs])]
  cases h with
  | nilHandler => simp [checkArgs] at hargs
  | handlerFunc f =>
    cases f with
    | none => simp [checkArgs] at hargs
    | some f => cases isRoot <;> simp [Section.chain_setChain, Section.chain_setTs]
  | chainPtr c =>
    cases c with
    | none => simp [checkArgs] at hargs
    | some c =>
      have hc : c.h ≠ none := by
        intro hc
        simp [checkArgs, hc] at hargs
      cases isRoot <;> simp [Section.chain_setChain, Section.chain_setTs, hc]
  | other f => cases isRoot <;> simp [Section.chain_setChain, Section.chain_setTs]

theorem addRouteFrom_nil (lib : Lib) (path : String) (h : HandlerArg) (m : Mux) (s : Section)
    (isRoot : Bool) :
    addRouteFrom lib path h [] m s isRoot = (m, (attach path h s isRoot).1, (attach path h s isRoot).2) := by
  rw [addRouteFrom]

theorem addRouteFrom_skip (lib : Lib) (path : String) (h : HandlerArg) (p : String)
    (ps : List String) (m : Mux) (s : Section) (isRoot : Bool) (hp : p.length = 0) :
    addRouteFrom lib path h (p :: ps) m s isRoot = addRouteFrom lib path h ps m s isRoot := by
  rw [addRouteFrom, if_pos hp]

theorem addRouteFrom_found (lib : Lib) (path : String) (h : HandlerArg) (p : String)
    (ps : List String) (m : Mux) (s ss : Section) (isRoot : Bool) (hp : ¬ p.length = 0)
    (hf : s.subs.find (ToLower lib p) = some ss) :
    addRouteFrom lib path h (p :: ps) m s isRoot =
      ((addRouteFrom lib path h ps m ss false).1,
        s.setSubs (s.subs.set (ToLower lib p) (addRouteFrom lib path h ps m ss false).2.1),
        (addRouteFrom lib path h ps m ss false).2.2) := by
  rw [addRouteFrom, if_neg hp]
  simp only [hf]

theorem addRouteFrom_new_error (lib : Lib) (path : String) (h : HandlerArg) (p : String)
    (ps : List String) (m m1 : Mux) (s : Section) (isRoot : Bool) (e : String)
    (hp : ¬ p.length = 0) (hf : s.subs.find (ToLower lib p) = none)
    (hn : newSection lib m (some s) (ToLower lib p) = (m1, .error e)) :
    addRouteFrom lib path h (p :: ps) m s isRoot =
      (m1, s, some ("error: addRoute: " ++ path ++ " " ++ e)) := by
  rw [addRouteFrom, if_neg hp]
  simp only [hf, hn]

theorem addRouteFrom_new_ok (lib : Lib) (path : String) (h : HandlerArg) (p : String)
    (ps : List String) (m m1 : Mux) (s ss : Section) (isRoot : Bool)
    (hp : ¬ p.length = 0) (hf : s.subs.find (ToLower lib p) = none)
    (hn : newSection lib m (some s) (ToLower lib p) = (m1, .ok ss)) :
    addRouteFrom lib path h (p :: ps) m s isRoot =
      ((addRouteFrom lib path h ps m1 ss false).1,
        s.setSubs (s.subs.set (ToLower lib p) (addRouteFrom lib path h ps m1 ss false).2.1),
        (addRouteFrom lib path h ps m1 ss false).2.2) := by
  rw [addRouteFrom, if_neg hp]
  simp only [hf, hn]

/-- Registration along existing nodes to a node that has a terminal handler
panics with the redefinition message and changes nothing. -/
theorem addRouteFrom_redefined (lib : Lib) (path : String) (h : HandlerArg) :
    ∀ (ps : List String) (m : Mux) (s : Section) (isRoot : Bool) (t : Section),
      reachFrom s (toks lib ps) = some t → t.chain.h ≠ none →
      addRouteFrom lib path h ps m s isRoot = (m, s, some (redefined path)) := by
  intro ps
  induction ps with
  | nil =>
    intro m s isRoot t hr ht
    simp [toks_nil, reachFrom] at hr
    subst hr
    simp [addRouteFrom_nil, attach_redefined path h s isRoot ht]
  | cons p ps ih =>
    intro m s isRoot t hr ht
    by_cases hp : p.length = 0
    · rw [toks_cons_empty lib p ps hp] at hr
      rw [addRouteFrom_skip _ _ _ _ _ _ _ _ hp]
      exact ih m s isRoot t hr ht
    · rw [toks_cons lib p ps hp] at hr
      simp only [reachFrom] at hr
      cases hf : s.subs.find (ToLower lib p) with
      | none => rw [hf] at hr; simp at hr
      | some ss =>
        rw [hf] at hr
        simp only at hr
        rw [addRouteFrom_found _ _ _ _ _ _ _ _ _ hp hf, ih m ss false t hr ht]
        simp [Subs.set_find_self _ _ _ hf, Section.setSubs_self]

/-- Registration along existing nodes to a node without terminal handler
succeeds when the arguments pass the checks. -/
theorem addRouteFrom_existing (lib : Lib) (path : String) (h : HandlerArg)
    (hargs : checkArgs path h = none) :
    ∀ (ps : List String) (m : Mux) (s : Section) (isRoot : Bool) (t : Section),
      reachFrom s (toks lib ps) = some t → t.chain.h = none →
      (addRouteFrom lib path h ps m s isRoot).2.2 = none := by
  intro ps
  induction ps with
  | nil =>
    intro m s isRoot t hr ht
    simp [toks_nil, reachFrom] at hr
    subst hr
    simp [addRouteFrom_nil, (attach_ok path h s isRoot hargs ht).1]
  | cons p ps ih =>
    intro m s isRoot t hr ht
    by_cases hp : p.length = 0
    · rw [toks_cons_empty lib p ps hp] at hr
      rw [addRouteFrom_skip _ _ _ _ _ _ _ _ hp]
      exact ih m s isRoot t hr ht
    · rw [toks_cons lib p ps hp] at hr
      simp only [reachFrom] at hr
      cases hf : s.subs.find (ToLower lib p) with
      | none => rw [hf] at hr; simp at hr
      | some ss =>
        rw [hf] at hr
        simp only at hr
        rw [addRouteFrom_found _ _ _ _ _ _ _ _ _ hp hf]
        exact ih m ss false t hr ht

theorem error_ne_redefined (path e : String) :
    "error: addRoute: " ++ path ++ " " ++ e ≠ redefined path := by
  intro heq
  have h := congrArg String.data heq
  simp only [redefined, String.data_append] at h
  have h2 := congrArg List.head? h
  simp at h2

/-- A fresh node leads nowhere but to itself, and has no terminal handler. -/
theorem reachFrom_fresh (n : String) (t : sectionType) (r : Option String) (f : Bool)
    (ks : List String) (x : Section) (h : reachFrom (Section.fresh n t r f) ks = some x) :
    x.chain.h = none := by
  cases ks with
  | nil =>
    simp [reachFrom] at h
    subst h
    rfl
  | cons k ks => simp [reachFrom, Section.fresh, Section.subs, Subs.find] at h

/-- When the arguments pass the checks, the loop of `addRoute` panics with the
redefinition message only at an existing node that has a terminal handler. -/
theorem addRouteFrom_redefined_only (lib : Lib) (path : String) (h : HandlerArg)
    (hargs : checkArgs path h = none) :
    ∀ (ps : List String) (m : Mux) (s : Section) (isRoot : Bool),
      (addRouteFrom lib path h ps m s isRoot).2.2 = some (redefined path) →
      ∃ t, reachFrom s (toks lib ps) = some t ∧ t.chain.h ≠ none := by
  intro ps
  induction ps with
  | nil =>
    intro m s isRoot he
    rw [addRouteFrom_nil] at he
    refine ⟨s, rfl, ?_⟩
    intro hs
    rw [(attach_ok path h s isRoot hargs hs).1] at he
    simp at he
  | cons p ps ih =>
    intro m s isRoot he
    by_cases hp : p.length = 0
    · rw [addRouteFrom_skip _ _ _ _ _ _ _ _ hp] at he
      rw [toks_cons_empty lib p ps hp]
      exact ih m s isRoot he
    · rw [toks_cons lib p ps hp]
      cases hf : s.subs.find (ToLower lib p) with
      | some ss =>
        rw [addRouteFrom_found _ _ _ _ _ _ _ _ _ hp hf] at he
        obtain ⟨t, ht1, ht2⟩ := ih m ss false he
        exact ⟨t, by simp [reachFrom, hf, ht1], ht2⟩
      | none =>
        cases hn : newSection lib m (some s) (ToLower lib p) with
        | mk m1 r =>
          cases r with
          | error e =>
            rw [addRouteFrom_new_error _ _ _ _ _ _ _ _ _ _ hp hf hn] at he
            simp at he
            exact absurd he (error_ne_redefined path e)
          | ok ss =>
            rw [addRouteFrom_new_ok _ _ _ _ _ _ _ _ _ _ hp hf hn] at he
            obtain ⟨t, ht1, ht2⟩ := ih m1 ss false he
            obtain ⟨n, ty, r, f, rfl⟩ := newSection_fresh lib m m1 (some s) _ ss hn
            exact absurd (reachFrom_fresh n ty r f _ t ht1) ht2

theorem Handle_existing_root (lib : Lib) (m : Mux) (method path : String) (h : HandlerArg)
    (rs : Section) (hroot : lookupRoot m.roots method = some rs)
    (hargs : checkArgs path h = none) :
    m.Handle lib method path h =
      ({ (addRouteFrom lib path h (Split path) m rs true).1 with
          roots := setRoot (addRouteFrom lib path h (Split path) m rs true).1.roots method
            (addRouteFrom lib path h (Split path) m rs true).2.1 },
        (addRouteFrom lib path h (Split path) m rs true).2.2) := by
  simp only [Mux.Handle, hroot, Section.addRoute, hargs]

theorem Handle_no_root (lib : Lib) (m : Mux) (method path : String) (h : HandlerArg)
    (hroot : lookupRoot m.roots method = none) (hargs : checkArgs path h = none) :
    m.Handle lib method path h =
      ({ (addRouteFrom lib path h (Split path)
            { m with roots := setRoot m.roots method freshRoot } freshRoot true).1 with
          roots := setRoot (addRouteFrom lib path h (Split path)
            { m with roots := setRoot m.roots method freshRoot } freshRoot true).1.roots method
            (addRouteFrom lib path h (Split path)
              { m with roots := setRoot m.roots method freshRoot } freshRoot true).2.1 },
        (addRouteFrom lib path h (Split path)
          { m with roots := setRoot m.roots method freshRoot } freshRoot true).2.2) := by
  simp only [Mux.Handle, hroot, newSection_root, Section.addRoute, hargs]

/-- C11: for arguments that pass the checks of `addRoute`, `Handle` panics
with the redefinition message exactly when the node reached by the path's
non-empty, lower-cased tokens exists and has a non-nil terminal handler; when
the node exists, `Handle` fails exactly in that case; the router is then left
as it was, so the handler registered first stays in place; and paths with the
same non-empty lower-cased tokens reach the same node. -/
theorem C11_second_registration_is_fatal (lib : Lib) (m : Mux) (method path : String)
    (h : HandlerArg) (hargs : checkArgs path h = none) :
    ((m.Handle lib method path h).2 = some (redefined path) ↔
        ∃ s, m.reach lib method path = some s ∧ s.chain.h ≠ none) ∧
      (∀ s, m.reach lib method path = some s →
        ((m.Handle lib method path h).2 ≠ none ↔ s.chain.h ≠ none)) ∧
      (∀ s, m.reach lib method path = some s → s.chain.h ≠ none →
        m.Handle lib method path h = (m, some (redefined path))) ∧
      (∀ path2, tokens lib path2 = tokens lib path →
        m.reach lib method path2 = m.reach lib method path) := by
  have hfatal : ∀ s, m.reach lib method path = some s → s.chain.h ≠ none →
      m.Handle lib method path h = (m, some (redefined path)) := by
    intro s hs hne
    unfold Mux.reach at hs
    cases hroot : lookupRoot m.roots method with
    | none => rw [hroot] at hs; simp at hs
    | some rs =>
      rw [hroot] at hs
      simp only at hs
      rw [Handle_existing_root lib m method path h rs hroot hargs,
        addRouteFrom_redefined lib path h (Split path) m rs true s hs hne]
      simp only [setRoot_lookup_self _ _ _ hroot]
  refine ⟨⟨?_, ?_⟩, ?_, hfatal, ?_⟩
  · intro he
    unfold Mux.reach
    cases hroot : lookupRoot m.roots method with
    | none =>
      rw [Handle_no_root lib m method path h hroot hargs] at he
      obtain ⟨t, ht1, ht2⟩ := addRouteFrom_redefined_only lib path h hargs _ _ _ _ he
      exact absurd (reachFrom_fresh _ _ _ _ _ t ht1) ht2
    | some rs =>
      rw [Handle_existing_root lib m method path h rs hroot hargs] at he
      exact addRouteFrom_redefined_only lib path h hargs _ _ _ _ he
  · rintro ⟨s, hs, hne⟩
    rw [hfatal s hs hne]
  · intro s hs
    constructor
    · intro hfail hnone
      apply hfail
      unfold Mux.reach at hs
      cases hroot : lookupRoot m.roots method with
      | none => rw [hroot] at hs; simp at hs
      | some rs =>
        rw [hroot] at hs
        rw [Handle_existing_root lib m method path h rs hroot hargs]
        exact addRouteFrom_existing lib path h hargs _ _ _ _ s hs hnone
    · intro hne
      rw [hfatal s hs hne]
      simp
  · intro path2 htok
    simp only [Mux.reach, htok]

/-- Instance of C11 on the router with the route `GET /a`: registering
`/a/` and `/A` reaches the node of `/a`, which has a terminal handler. -/
theorem C11_second_registration_is_fatal_witness :
    (((aRouter.1.Handle stubLib "GET" "/a/" (hf 2)).2 = some (redefined "/a/") ↔
        ∃ s, aRouter.1.reach stubLib "GET" "/a/" = some s ∧ s.chain.h ≠ none) ∧
      (∀ s, aRouter.1.reach stubLib "GET" "/a/" = some s →
        ((aRouter.1.Handle stubLib "GET" "/a/" (hf 2)).2 ≠ none ↔ s.chain.h ≠ none)) ∧
      (∀ s, aRouter.1.reach stubLib "GET" "/a/" = some s → s.chain.h ≠ none →
        aRouter.1.Handle stubLib "GET" "/a/" (hf 2) = (aRouter.1, some (redefined "/a/"))) ∧
      (∀ path2, tokens stubLib path2 = tokens stubLib "/a/" →
        aRouter.1.reach stubLib "GET" path2 = aRouter.1.reach stubLib "GET" "/a/")) ∧
      tokens stubLib "/A" = tokens stubLib "/a/" ∧ tokens stubLib "/a" = tokens stubLib "/a/" ∧
      (aRouter.1.Handle stubLib "GET" "/a/" (hf 2)).2 = some (redefined "/a/") ∧
      (aRouter.1.Handle stubLib "GET" "/A" (hf 2)).2 = some (redefined "/A") ∧
      (aRouter.1.Handle stubLib "GET" "/a" (hf 2)).2 = some (redefined "/a") :=
  ⟨C11_second_registration_is_fatal stubLib aRouter.1 "GET" "/a/" (hf 2) (by decide),
    by decide, by decide, by decide, by decide, by decide⟩

theorem lookupRoot_setRoot_same : ∀ (roots : List (String × Section)) (k : String) (rs : Section),
    lookupRoot (setRoot roots k rs) k = some rs
  | [], k, rs => by simp [setRoot, lookupRoot]
  | (k0, s0) :: rest, k, rs => by
    unfold setRoot
    split_ifs with hk
    · simp [lookupRoot, hk]
    · simp [lookupRoot, hk, lookupRoot_setRoot_same rest k rs]

theorem lookupRoot_setRoot_other : ∀ (roots : List (String × Section)) (k k2 : String)
    (rs : Section), k2 ≠ k → lookupRoot (setRoot roots k rs) k2 = lookupRoot roots k2
  | [], k, k2, rs, hne => by
    simp [setRoot, lookupRoot]
    exact fun e => absurd e.symm hne
  | (k0, s0) :: rest, k, k2, rs, hne => by
    unfold setRoot
    split_ifs with hk
    · have : ¬ k0 = k2 := by rw [hk]; exact fun e => hne e.symm
      simp [lookupRoot, this]
    · simp only [lookupRoot, lookupRoot_setRoot_other rest k k2 rs hne]

/-- The arguments that `addRoute` rejects before it touches the trie. -/
theorem checkArgs_bad (path : String) (h : HandlerArg)
    (hbad : path.data.head? ≠ some '/' ∨ h = .nilHandler ∨ h = .handlerFunc none ∨
      h = .chainPtr none ∨ ∃ c, h = .chainPtr (some c) ∧ c.h = none) :
    ∃ e, checkArgs path h = some e := by
  rcases hbad with hp | rfl | rfl | rfl | ⟨c, rfl, hc⟩
  · cases h with
    | nilHandler => exact ⟨_, rfl⟩
    | handlerFunc f =>
      cases f with
      | none => exact ⟨_, rfl⟩
      | some f => exact ⟨"path must begin with '/'", by simp [checkArgs, hp]⟩
    | chainPtr c =>
      cases c with
      | none => exact ⟨_, rfl⟩
      | some c =>
        by_cases hc : c.h = none
        · exact ⟨"chain has nil handler", by simp [checkArgs, hc]⟩
        · exact ⟨"path must begin with '/'", by simp [checkArgs, hc, hp]⟩
    | other f => exact ⟨"path must begin with '/'", by simp [checkArgs, hp]⟩
  · exact ⟨_, rfl⟩
  · exact ⟨_, rfl⟩
  · exact ⟨_, rfl⟩
  · exact ⟨"chain has nil handler", by simp [checkArgs, hc]⟩

/-- C12: `Handle` panics for every path that is empty or does not start with
`/`, and for a nil handler, a nil handler function, a nil chain or a chain
whose terminal is nil.  The panic comes before the trie is touched: a router
that has a root for the method is left as it was, and otherwise only the
empty root of the method has been added, which has no children and no
handler. -/
theorem C12_bad_arguments_are_fatal (lib : Lib) (m : Mux) (method path : String)
    (h : HandlerArg)
    (hbad : path.data.head? ≠ some '/' ∨ h = .nilHandler ∨ h = .handlerFunc none ∨
      h = .chainPtr none ∨ ∃ c, h = .chainPtr (some c) ∧ c.h = none) :
    (∃ e, m.Handle lib method path h =
        ((match lookupRoot m.roots method with
          | some _ => m
          | none => { m with roots := setRoot m.roots method freshRoot }), some e)) ∧
      freshRoot.subs = .nil ∧ freshRoot.chain.h = none ∧ freshRoot.chain.mws = [] := by
  obtain ⟨e, he⟩ := checkArgs_bad path h hbad
  refine ⟨⟨e, ?_⟩, rfl, rfl, rfl⟩
  cases hroot : lookupRoot m.roots method with
  | some rs =>
    simp only [Mux.Handle, hroot, Section.addRoute, he, setRoot_lookup_self _ _ _ hroot]
  | none =>
    simp only [Mux.Handle, hroot, newSection_root, Section.addRoute, he,
      setRoot_lookup_self _ _ _ (lookupRoot_setRoot_same m.roots method freshRoot)]

/-- Instance of C12: a path without leading `/` on the router with the
route `GET /a`. -/
theorem C12_bad_arguments_are_fatal_witness :
    (∃ e, aRouter.1.Handle stubLib "GET" "b" (hf 2) =
        ((match lookupRoot aRouter.1.roots "GET" with
          | some _ => aRouter.1
          | none => { aRouter.1 with roots := setRoot aRouter.1.roots "GET" freshRoot }), some e)) ∧
      freshRoot.subs = .nil ∧ freshRoot.chain.h = none ∧ freshRoot.chain.mws = [] :=
  C12_bad_arguments_are_fatal stubLib aRouter.1 "GET" "b" (hf 2) (Or.inl (by decide))

/-! ## What registration maintains -/

theorem Section.OK_iff (s : Section) : s.OK ↔ NodeOK s ∧ s.subs.OK := by
  cases s; simp [Section.OK, Section.subs]

theorem Subs.OK_iff_mem : ∀ subs : Subs, subs.OK ↔ ∀ k c, (k, c) ∈ subs.toList → c.OK
  | .nil => by simp [Subs.OK, Subs.toList]
  | .cons k s rest => by
    simp only [Subs.OK, Subs.toList, List.mem_cons, Prod.mk.injEq, Subs.OK_iff_mem rest]
    constructor
    · rintro ⟨hs, hr⟩ k2 c (⟨_, rfl⟩ | hm)
      · exact hs
      · exact hr k2 c hm
    · intro h
      exact ⟨h k s (Or.inl ⟨rfl, rfl⟩), fun k2 c hm => h k2 c (Or.inr hm)⟩

theorem Subs.mem_set : ∀ (subs : Subs) (p : String) (x : Section) (k : String) (c : Section),
    (k, c) ∈ (subs.set p x).toList → (k, c) = (p, x) ∨ (k, c) ∈ subs.toList
  | .nil, p, x, k, c, h => by
    simp [Subs.set, Subs.toList] at h
    left; simp [h]
  | .cons k0 s0 rest, p, x, k, c, h => by
    unfold Subs.set at h
    split_ifs at h with hk
    · simp only [Subs.toList, List.mem_cons] at h ⊢
      rcases h with h | h
      · left; rw [h, hk]
      · right; right; exact h
    · simp only [Subs.toList, List.mem_cons] at h ⊢
      rcases h with h | h
      · right; left; exact h
      · rcases Subs.mem_set rest p x k c h with h2 | h2
        · left; exact h2
        · right; right; exact h2

theorem Subs.find_mem : ∀ (subs : Subs) (p : String) (ss : Section),
    subs.find p = some ss → (p, ss) ∈ subs.toList
  | .nil, _, _, h => by simp [Subs.find] at h
  | .cons k s rest, p, ss, h => by
    unfold Subs.find at h
    split_ifs at h with hk
    · simp at h; simp [Subs.toList, hk, h]
    · simp [Subs.toList, Subs.find_mem rest p ss h]

theorem Subs.find_nil_none (p : String) : Subs.nil.find p = none := rfl

theorem classify_type (lib : Lib) (m m1 : Mux) (p : String) (s : Section)
    (h : classify lib m p = (m1, .ok s)) : s.sType = tokenType p := by
  unfold classify at h
  unfold tokenType
  split at h
  · simp at h
  · rename_i hd
    simp at h
    obtain ⟨_, rfl⟩ := h
    rw [hd]; rfl
  · rename_i hd
    simp at h
    obtain ⟨_, rfl⟩ := h
    rw [hd]; rfl
  · rename_i r hd
    have ht : s.sType = SectionTypeRegexp := by
      split at h
      · simp at h
      · split at h
        · simp at h
        · split_ifs at h <;> simp at h
          obtain ⟨_, rfl⟩ := h
          rfl
      · split_ifs at h <;> simp at h
        obtain ⟨_, rfl⟩ := h
        rfl
    rw [ht, hd]; simp
  · rename_i c r h1 h2 h3 hd
    simp at h
    obtain ⟨_, rfl⟩ := h
    rw [hd]
    split
    · rename_i hd2; simp at hd2; exact absurd hd2.1 h1
    · rename_i hd2; simp at hd2; exact absurd hd2.1 h2
    · rename_i hd2; simp at hd2; exact absurd hd2.1 h3
    · rfl

/-- What `newSection` returns for a child of `par`. -/
theorem newSection_child (lib : Lib) (m m1 : Mux) (par : Section) (p : String) (ss : Section)
    (h : newSection lib m (some par) p = (m1, .ok ss)) :
    par.sType ≠ SectionTypeWildCard ∧ ss.sType = tokenType p ∧ ss.subs = .nil ∧
      ss.chain = NewChain ∧ (ss.hasNonRawSub = true ↔ ss.sType ≠ SectionTypeRaw) ∧
      (ss.sType ≠ SectionTypeRaw → par.hasNonRawSub = false) := by
  unfold newSection at h
  split at h
  · simp at h
  · rename_i m2 s hc
    have hty := classify_type lib m m2 p s hc
    obtain ⟨n, t, r, rfl⟩ := classify_fresh lib m m2 p s hc
    simp only at h
    split_ifs at h with h1 h2 h3
    · simp at h
    · simp at h
    · simp at h
      obtain ⟨_, rfl⟩ := h
      simp only [Section.fresh, Section.sType] at h2 hty
      refine ⟨h1, hty, rfl, rfl, ?_, ?_⟩
      · simp [Section.hasNonRawSub, Section.sType, Section.fresh, h2]
      · intro _; simpa using h3
    · simp at h
      obtain ⟨_, rfl⟩ := h
      simp only [Section.fresh, Section.sType, ne_eq, not_not] at h2 hty
      refine ⟨h1, hty, rfl, rfl, ?_, ?_⟩
      · simp [Section.hasNonRawSub, Section.sType, Section.fresh, h2]
      · intro hne; exact absurd h2 hne

theorem Section.sType_setSubs (s : Section) (x : Subs) : (s.setSubs x).sType = s.sType := by
  cases s; rfl

theorem Section.sType_setChain (s : Section) (c : Chain) : (s.setChain c).sType = s.sType := by
  cases s; rfl

theorem Section.sType_setTs (s : Section) (b : Bool) : (s.setTs b).sType = s.sType := by
  cases s; rfl

theorem Section.subs_setSubs (s : Section) (x : Subs) : (s.setSubs x).subs = x := by
  cases s; rfl

theorem Section.subs_setChain (s : Section) (c : Chain) : (s.setChain c).subs = s.subs := by
  cases s; rfl

theorem Section.subs_setTs (s : Section) (b : Bool) : (s.setTs b).subs = s.subs := by
  cases s; rfl

theorem Section.flag_setSubs (s : Section) (x : Subs) :
    (s.setSubs x).hasNonRawSub = s.hasNonRawSub := by
  cases s; rfl

theorem Section.flag_setChain (s : Section) (c : Chain) :
    (s.setChain c).hasNonRawSub = s.hasNonRawSub := by
  cases s; rfl

theorem Section.flag_setTs (s : Section) (b : Bool) :
    (s.setTs b).hasNonRawSub = s.hasNonRawSub := by
  cases s; rfl

theorem Section.chain_setSubs (s : Section) (x : Subs) : (s.setSubs x).chain = s.chain := by
  cases s; rfl

/-- The node `attach` returns is the node it was given, possibly with a new
chain and a new trailing-slash flag. -/
theorem attach_shape (path : String) (h : HandlerArg) (s : Section) (isRoot : Bool) :
    (attach path h s isRoot).1 = s ∨
      ∃ c, (attach path h s isRoot).1 = s.setChain c ∨
        (attach path h s isRoot).1 = (s.setChain c).setTs (HasSuffixSlash path) := by
  unfold attach
  by_cases hs : s.chain.h ≠ none
  · rw [if_pos hs]; left; rfl
  · rw [if_neg hs]
    simp only [ne_eq, not_not] at hs
    rcases h with _ | (_ | f) | (_ | c) | f
    · left; simp [hs]
    · left; simp [hs]
    · right
      refine ⟨{ s.chain with h := some f }, ?_⟩
      simp only []
      split_ifs <;> simp
    · left; simp [hs]
    · right
      refine ⟨{ (s.chain.Append c.mws) with h := c.h }, ?_⟩
      simp only []
      split_ifs <;> simp
    · right
      refine ⟨{ s.chain with h := some f }, ?_⟩
      simp only []
      split_ifs <;> simp

theorem attach_sType (path : String) (h : HandlerArg) (s : Section) (isRoot : Bool) :
    (attach path h s isRoot).1.sType = s.sType := by
  rcases attach_shape path h s isRoot with e | ⟨c, e | e⟩ <;> rw [e] <;>
    simp [Section.sType_setTs, Section.sType_setChain]

theorem attach_subs (path : String) (h : HandlerArg) (s : Section) (isRoot : Bool) :
    (attach path h s isRoot).1.subs = s.subs := by
  rcases attach_shape path h s isRoot with e | ⟨c, e | e⟩ <;> rw [e] <;>
    simp [Section.subs_setTs, Section.subs_setChain]

theorem attach_flag (path : String) (h : HandlerArg) (s : Section) (isRoot : Bool) :
    (attach path h s isRoot).1.hasNonRawSub = s.hasNonRawSub := by
  rcases attach_shape path h s isRoot with e | ⟨c, e | e⟩ <;> rw [e] <;>
    simp [Section.flag_setTs, Section.flag_setChain]

/-- The loop of `addRoute` keeps the type of the node it starts from. -/
theorem addRouteFrom_sType (lib : Lib) (path : String) (h : HandlerArg) :
    ∀ (ps : List String) (m : Mux) (s : Section) (isRoot : Bool),
      (addRouteFrom lib path h ps m s isRoot).2.1.sType = s.sType := by
  intro ps
  induction ps with
  | nil => intro m s isRoot; rw [addRouteFrom_nil]; exact attach_sType path h s isRoot
  | cons p ps ih =>
    intro m s isRoot
    by_cases hp : p.length = 0
    · rw [addRouteFrom_skip _ _ _ _ _ _ _ _ hp]; exact ih m s isRoot
    · cases hf : s.subs.find (ToLower lib p) with
      | some ss =>
        rw [addRouteFrom_found _ _ _ _ _ _ _ _ _ hp hf]
        exact Section.sType_setSubs _ _
      | none =>
        cases hn : newSection lib m (some s) (ToLower lib p) with
        | mk m1 r =>
          cases r with
          | error e => rw [addRouteFrom_new_error _ _ _ _ _ _ _ _ _ _ hp hf hn]
          | ok ss =>
            rw [addRouteFrom_new_ok _ _ _ _ _ _ _ _ _ _ hp hf hn]
            exact Section.sType_setSubs _ _

theorem attach_chain_empty (path : String) (h : HandlerArg) (s : Section) (isRoot : Bool)
    (hargs : checkArgs path h = none) (hs : s.chain.h = none → s.chain.mws = []) :
    (attach path h s isRoot).1.chain.h = none → (attach path h s isRoot).1.chain.mws = [] := by
  by_cases hn : s.chain.h = none
  · intro hc
    exact absurd hc (attach_ok path h s isRoot hargs hn).2
  · rw [attach_redefined path h s isRoot hn]
    exact hs

theorem NodeOK.attach {s : Section} (hs : NodeOK s) (path : String) (h : HandlerArg)
    (isRoot : Bool) (hargs : checkArgs path h = none) : NodeOK (attach path h s isRoot).1 := by
  refine ⟨?_, ?_, ?_, ?_, ?_⟩
  · rw [attach_sType, attach_subs]; exact hs.wild_leaf
  · rw [attach_subs]; exact hs.keyed
  · rw [attach_sType, attach_flag]; exact hs.flag
  · rw [attach_sType, attach_subs]; exact hs.raw_below
  · exact attach_chain_empty path h s isRoot hargs hs.chain_empty

theorem NodeOK.setSubs {s : Section} (hs : NodeOK s) (p : String) (c : Section)
    (hw : s.sType ≠ SectionTypeWildCard) (hc : c.sType = tokenType p)
    (hr : s.sType ≠ SectionTypeRaw → c.sType = SectionTypeRaw) :
    NodeOK (s.setSubs (s.subs.set p c)) := by
  refine ⟨?_, ?_, ?_, ?_, ?_⟩
  · rw [Section.sType_setSubs]; intro h; exact absurd h hw
  · rw [Section.subs_setSubs]
    intro k x hx
    rcases Subs.mem_set _ _ _ _ _ hx with h | h
    · obtain ⟨rfl, rfl⟩ := Prod.mk.inj h; exact hc
    · exact hs.keyed k x h
  · rw [Section.sType_setSubs, Section.flag_setSubs]; exact hs.flag
  · rw [Section.sType_setSubs, Section.subs_setSubs]
    intro hne k x hx
    rcases Subs.mem_set _ _ _ _ _ hx with h | h
    · obtain ⟨rfl, rfl⟩ := Prod.mk.inj h; exact hr hne
    · exact hs.raw_below hne k x h
  · rw [Section.chain_setSubs]; exact hs.chain_empty

theorem Section.OK_attach {s : Section} (hs : s.OK) (path : String) (h : HandlerArg)
    (isRoot : Bool) (hargs : checkArgs path h = none) : (attach path h s isRoot).1.OK := by
  rw [Section.OK_iff] at hs ⊢
  exact ⟨hs.1.attach path h isRoot hargs, by rw [attach_subs]; exact hs.2⟩

theorem Section.OK_setSubs {s c : Section} (hs : s.OK) (hcok : c.OK) (p : String)
    (hw : s.sType ≠ SectionTypeWildCard) (hc : c.sType = tokenType p)
    (hr : s.sType ≠ SectionTypeRaw → c.sType = SectionTypeRaw) :
    (s.setSubs (s.subs.set p c)).OK := by
  rw [Section.OK_iff] at hs ⊢
  refine ⟨hs.1.setSubs p c hw hc hr, ?_⟩
  rw [Section.subs_setSubs, Subs.OK_iff_mem]
  intro k x hx
  rcases Subs.mem_set _ _ _ _ _ hx with h | h
  · obtain ⟨rfl, rfl⟩ := Prod.mk.inj h; exact hcok
  · exact (Subs.OK_iff_mem _).mp hs.2 k x h

theorem fresh_OK (n : String) (t : sectionType) (r : Option String) (f : Bool)
    (hf : f = true ↔ t ≠ SectionTypeRaw) : (Section.fresh n t r f).OK := by
  rw [Section.OK_iff]
  refine ⟨⟨fun _ => rfl, ?_, hf, ?_, fun _ => rfl⟩, trivial⟩
  · intro k c hc; simp [Section.fresh, Section.subs, Subs.toList] at hc
  · intro _ k c hc; simp [Section.fresh, Section.subs, Subs.toList] at hc

/-- The loop of `addRoute` maintains `NodeOK` at every node, whether it
succeeds or panics. -/
theorem addRouteFrom_OK (lib : Lib) (path : String) (h : HandlerArg)
    (hargs : checkArgs path h = none) :
    ∀ (ps : List String) (m : Mux) (s : Section) (isRoot : Bool), s.OK →
      (addRouteFrom lib path h ps m s isRoot).2.1.OK := by
  intro ps
  induction ps with
  | nil =>
    intro m s isRoot hs
    rw [addRouteFrom_nil]
    exact Section.OK_attach hs path h isRoot hargs
  | cons p ps ih =>
    intro m s isRoot hs
    by_cases hp : p.length = 0
    · rw [addRouteFrom_skip _ _ _ _ _ _ _ _ hp]; exact ih m s isRoot hs
    · have hnode := ((Section.OK_iff s).mp hs).1
      have hsubs := (Subs.OK_iff_mem _).mp ((Section.OK_iff s).mp hs).2
      cases hf : s.subs.find (ToLower lib p) with
      | some ss =>
        rw [addRouteFrom_found _ _ _ _ _ _ _ _ _ hp hf]
        have hmem := Subs.find_mem _ _ _ hf
        refine Section.OK_setSubs hs (ih m ss false (hsubs _ _ hmem)) _ ?_ ?_ ?_
        · intro hw
          rw [hnode.wild_leaf hw] at hf
          simp [Subs.find] at hf
        · rw [addRouteFrom_sType]; exact hnode.keyed _ _ hmem
        · intro hne; rw [addRouteFrom_sType]; exact hnode.raw_below hne _ _ hmem
      | none =>
        cases hn : newSection lib m (some s) (ToLower lib p) with
        | mk m1 r =>
          cases r with
          | error e =>
            rw [addRouteFrom_new_error _ _ _ _ _ _ _ _ _ _ hp hf hn]
            exact hs
          | ok ss =>
            rw [addRouteFrom_new_ok _ _ _ _ _ _ _ _ _ _ hp hf hn]
            obtain ⟨hw, hty, _, _, hflag, hpar⟩ := newSection_child lib m m1 s _ ss hn
            obtain ⟨n, t, r, f, rfl⟩ := newSection_fresh lib m m1 (some s) _ ss hn
            refine Section.OK_setSubs hs (ih m1 _ false (fresh_OK n t r f hflag)) _ hw ?_ ?_
            · rw [addRouteFrom_sType]; exact hty
            · intro hne
              rw [addRouteFrom_sType]
              by_contra hraw
              have := hpar hraw
              rw [hnode.flag.mpr hne] at this
              simp at this

theorem classify_mux (lib : Lib) (m : Mux) (p : String) :
    (classify lib m p).1 = m ∨ (classify lib m p).1 = { m with hasWildcard := true } := by
  unfold classify
  split
  · left; rfl
  · left; rfl
  · right; rfl
  · split
    · left; rfl
    · split
      · left; rfl
      · split_ifs <;> (left; rfl)
    · split_ifs <;> (left; rfl)
  · left; rfl

theorem newSection_mux (lib : Lib) (m : Mux) (par : Option Section) (p : String) :
    (newSection lib m par p).1 = m ∨
      (newSection lib m par p).1 = { m with hasWildcard := true } := by
  have h : (newSection lib m par p).1 = (classify lib m p).1 := by
    unfold newSection
    split
    · rename_i hc; rw [hc]
    · rename_i hc; rw [hc]
      split
      · rfl
      · split_ifs <;> rfl
  rw [h]
  exact classify_mux lib m p

/-- The loop of `addRoute` changes nothing in the router but, possibly, sets
the flag `hasWildcard`. -/
theorem addRouteFrom_mux (lib : Lib) (path : String) (h : HandlerArg) :
    ∀ (ps : List String) (m : Mux) (s : Section) (isRoot : Bool),
      (addRouteFrom lib path h ps m s isRoot).1 = m ∨
        (addRouteFrom lib path h ps m s isRoot).1 = { m with hasWildcard := true } := by
  intro ps
  induction ps with
  | nil => intro m s isRoot; left; rw [addRouteFrom_nil]
  | cons p ps ih =>
    intro m s isRoot
    by_cases hp : p.length = 0
    · rw [addRouteFrom_skip _ _ _ _ _ _ _ _ hp]; exact ih m s isRoot
    · cases hf : s.subs.find (ToLower lib p) with
      | some ss =>
        rw [addRouteFrom_found _ _ _ _ _ _ _ _ _ hp hf]
        exact ih m ss false
      | none =>
        cases hn : newSection lib m (some s) (ToLower lib p) with
        | mk m1 r =>
          have hm1 := newSection_mux lib m (some s) (ToLower lib p)
          rw [hn] at hm1
          simp only at hm1
          cases r with
          | error e =>
            rw [addRouteFrom_new_error _ _ _ _ _ _ _ _ _ _ hp hf hn]
            exact hm1
          | ok ss =>
            rw [addRouteFrom_new_ok _ _ _ _ _ _ _ _ _ _ hp hf hn]
            rcases ih m1 ss false with e | e <;> rcases hm1 with e1 | e1 <;> rw [e, e1] <;> simp

/-- The roots of the router after `Handle`: the root of the method is the
root that `addRoute` returns, or the method's root as it was (a fresh one if
there was none) when the arguments are rejected; the other roots are as
before. -/
theorem Handle_roots (lib : Lib) (m : Mux) (method path : String) (h : HandlerArg) :
    ∃ rs0 rs1, (lookupRoot m.roots method = some rs0 ∨
        (lookupRoot m.roots method = none ∧ rs0 = freshRoot)) ∧
      (m.Handle lib method path h).1.roots = setRoot m.roots method rs1 ∧
      ((checkArgs path h ≠ none ∧ rs1 = rs0) ∨
        (checkArgs path h = none ∧ ∃ m0, rs1 = (addRouteFrom lib path h (Split path) m0 rs0 true).2.1 ∧
          (m.Handle lib method path h).2 = (addRouteFrom lib path h (Split path) m0 rs0 true).2.2)) := by
  cases hargs : checkArgs path h with
  | some e =>
    cases hroot : lookupRoot m.roots method with
    | some rs =>
      refine ⟨rs, rs, Or.inl rfl, ?_, Or.inl ⟨by simp, rfl⟩⟩
      simp only [Mux.Handle, hroot, Section.addRoute, hargs]
    | none =>
      refine ⟨freshRoot, freshRoot, Or.inr ⟨rfl, rfl⟩, ?_, Or.inl ⟨by simp, rfl⟩⟩
      simp only [Mux.Handle, hroot, newSection_root, Section.addRoute, hargs,
        setRoot_lookup_self _ _ _ (lookupRoot_setRoot_same m.roots method freshRoot)]
  | none =>
    cases hroot : lookupRoot m.roots method with
    | some rs =>
      refine ⟨rs, _, Or.inl rfl, ?_, Or.inr ⟨rfl, m, rfl, ?_⟩⟩
      · rw [Handle_existing_root lib m method path h rs hroot hargs]
        rcases addRouteFrom_mux lib path h (Split path) m rs true with e | e <;> simp only [e]
      · rw [Handle_existing_root lib m method path h rs hroot hargs]
    | none =>
      refine ⟨freshRoot, _, Or.inr ⟨rfl, rfl⟩, ?_,
        Or.inr ⟨rfl, { m with roots := setRoot m.roots method freshRoot }, rfl, ?_⟩⟩
      · rw [Handle_no_root lib m method path h hroot hargs]
        have hset : ∀ x, setRoot (setRoot m.roots method freshRoot) method x
            = setRoot m.roots method x := by
          intro x
          generalize m.roots = l
          induction l with
          | nil => simp [setRoot]
          | cons a l ih =>
            obtain ⟨k, v⟩ := a
            by_cases hk : k = method
            · simp [setRoot, hk]
            · simp [setRoot, hk, ih]
        rcases addRouteFrom_mux lib path h (Split path)
          { m with roots := setRoot m.roots method freshRoot } freshRoot true with e | e <;>
          simp only [e, hset]
      · rw [Handle_no_root lib m method path h hroot hargs]

theorem freshRoot_OK : freshRoot.OK := fresh_OK "/" SectionTypeRaw none false (by simp)

theorem New_OK : New.OK := by
  intro k rs h
  simp [New, lookupRoot] at h

/-- `Handle` maintains `NodeOK` at every node of every trie, whether it
succeeds or panics. -/
theorem Handle_OK (lib : Lib) (m : Mux) (method path : String) (h : HandlerArg) (hm : m.OK) :
    (m.Handle lib method path h).1.OK := by
  obtain ⟨rs0, rs1, h0, hroots, h1⟩ := Handle_roots lib m method path h
  have hrs0 : rs0.OK := by
    rcases h0 with h0 | ⟨_, rfl⟩
    · exact hm method rs0 h0
    · exact freshRoot_OK
  have hrs1 : rs1.OK := by
    rcases h1 with ⟨_, rfl⟩ | ⟨hargs, m0, rfl, _⟩
    · exact hrs0
    · exact addRouteFrom_OK lib path h hargs _ _ _ _ hrs0
  intro k rs hk
  rw [hroots] at hk
  by_cases hkm : k = method
  · subst hkm
    rw [lookupRoot_setRoot_same] at hk
    simp at hk
    rw [← hk]; exact hrs1
  · rw [lookupRoot_setRoot_other _ _ _ _ hkm] at hk
    exact hm k rs hk

theorem registerAll_OK (lib : Lib) :
    ∀ (routes : List (String × String × HandlerArg)) (m : Mux), m.OK →
      (registerAll lib m routes).1.OK := by
  intro routes
  induction routes with
  | nil => intro m hm; exact hm
  | cons r routes ih =>
    intro m hm
    obtain ⟨method, path, h⟩ := r
    have h1 := Handle_OK lib m method path h hm
    unfold registerAll
    cases hh : m.Handle lib method path h with
    | mk m1 e =>
      rw [hh] at h1
      cases e with
      | none => exact ih m1 h1
      | some e => exact h1

mutual
theorem Section.OK_nodes : ∀ (s : Section), s.OK → ∀ n ∈ s.nodes, NodeOK n
  | .mk n t r f subs ts c, hs, x, hx => by
    simp only [Section.nodes, List.mem_cons] at hx
    rcases hx with rfl | hx
    · exact hs.1
    · exact Subs.OK_nodes_mem subs hs.2 x hx
theorem Subs.OK_nodes_mem : ∀ (subs : Subs), subs.OK → ∀ n ∈ subs.nodes, NodeOK n
  | .nil, _, x, hx => by simp [Subs.nodes] at hx
  | .cons k s rest, hs, x, hx => by
    simp only [Subs.nodes, List.mem_append] at hx
    rcases hx with hx | hx
    · exact Section.OK_nodes s hs.1 x hx
    · exact Subs.OK_nodes_mem rest hs.2 x hx
end

/-! ## Wildcard nodes are leaves -/

theorem lowerChar_star (lib : Lib) : lowerChar lib '*' = '*' := rfl

theorem ToLower_star (lib : Lib) (w : String) (h : w.data.head? = some '*') :
    (ToLower lib w).data.head? = some '*' := by
  unfold ToLower
  cases hd : w.data with
  | nil => rw [hd] at h; simp at h
  | cons c r =>
    rw [hd] at h
    simp at h
    subst h
    simp [lowerChar_star]

theorem tokenType_star (k : String) (h : k.data.head? = some '*') :
    tokenType k = SectionTypeWildCard := by
  unfold tokenType
  cases hd : k.data with
  | nil => rw [hd] at h; simp at h
  | cons c r =>
    rw [hd] at h
    simp at h
    subst h
    rfl

/-- Below a Wildcard node without children, every further non-empty piece
makes the loop of `addRoute` panic. -/
theorem addRouteFrom_below_wildcard (lib : Lib) (path : String) (h : HandlerArg) :
    ∀ (ps : List String) (m : Mux) (s : Section) (isRoot : Bool),
      s.sType = SectionTypeWildCard → s.subs = .nil → (∃ p ∈ ps, ¬ p.length = 0) →
      (addRouteFrom lib path h ps m s isRoot).2.2 ≠ none := by
  intro ps
  induction ps with
  | nil => intro m s isRoot _ _ hex; simp at hex
  | cons p ps ih =>
    intro m s isRoot hw hnil hex
    by_cases hp : p.length = 0
    · rw [addRouteFrom_skip _ _ _ _ _ _ _ _ hp]
      apply ih m s isRoot hw hnil
      obtain ⟨q, hq, hq2⟩ := hex
      simp only [List.mem_cons] at hq
      rcases hq with rfl | hq
      · exact absurd hp hq2
      · exact ⟨q, hq, hq2⟩
    · have hf : s.subs.find (ToLower lib p) = none := by rw [hnil]; rfl
      cases hn : newSection lib m (some s) (ToLower lib p) with
      | mk m1 r =>
        cases r with
        | error e =>
          rw [addRouteFrom_new_error _ _ _ _ _ _ _ _ _ _ hp hf hn]
          simp
        | ok ss =>
          exact absurd hw (newSection_child lib m m1 s _ ss hn).1

/-- In a trie that satisfies `NodeOK` everywhere, a path with a non-empty
piece after a piece that starts with `*` makes the loop of `addRoute`
panic. -/
theorem addRouteFrom_after_wildcard (lib : Lib) (path : String) (h : HandlerArg) :
    ∀ (ps : List String) (m : Mux) (s : Section) (isRoot : Bool), s.OK →
      (∃ pre w q post, ps.filter (fun p => p.length ≠ 0) = pre ++ w :: q :: post ∧
        w.data.head? = some '*') →
      (addRouteFrom lib path h ps m s isRoot).2.2 ≠ none := by
  intro ps
  induction ps with
  | nil =>
    intro m s isRoot _ hex
    obtain ⟨pre, w, q, post, he, _⟩ := hex
    simp at he
  | cons p ps ih =>
    intro m s isRoot hs hex
    by_cases hp : p.length = 0
    · rw [addRouteFrom_skip _ _ _ _ _ _ _ _ hp]
      apply ih m s isRoot hs
      obtain ⟨pre, w, q, post, he, hw⟩ := hex
      exact ⟨pre, w, q, post, by simpa [List.filter_cons, hp] using he, hw⟩
    · obtain ⟨pre, w, q, post, he, hw⟩ := hex
      have he2 : p :: ps.filter (fun p => p.length ≠ 0) = pre ++ w :: q :: post := by
        simpa [List.filter_cons, hp] using he
      have hnode := ((Section.OK_iff s).mp hs).1
      have hsubs := (Subs.OK_iff_mem _).mp ((Section.OK_iff s).mp hs).2
      -- what the recursive call on the child does
      have key : ∀ (m1 : Mux) (ss : Section), ss.OK → ss.sType = tokenType (ToLower lib p) →
          (addRouteFrom lib path h ps m1 ss false).2.2 ≠ none := by
        intro m1 ss hss hty
        cases pre with
        | nil =>
          simp only [List.nil_append, List.cons.injEq] at he2
          obtain ⟨rfl, hrest⟩ := he2
          have hwild : ss.sType = SectionTypeWildCard := by
            rw [hty]; exact tokenType_star _ (ToLower_star lib _ hw)
          have hq : q ∈ ps.filter (fun p => p.length ≠ 0) := by rw [hrest]; simp
          rw [List.mem_filter] at hq
          exact addRouteFrom_below_wildcard lib path h ps m1 ss false hwild
            (((Section.OK_iff ss).mp hss).1.wild_leaf hwild) ⟨q, hq.1, by simpa using hq.2⟩
        | cons x pre =>
          simp only [List.cons_append, List.cons.injEq] at he2
          exact ih m1 ss false hss ⟨pre, w, q, post, he2.2, hw⟩
      cases hf : s.subs.find (ToLower lib p) with
      | some ss =>
        rw [addRouteFrom_found _ _ _ _ _ _ _ _ _ hp hf]
        have hmem := Subs.find_mem _ _ _ hf
        exact key m ss (hsubs _ _ hmem) (hnode.keyed _ _ hmem)
      | none =>
        cases hn : newSection lib m (some s) (ToLower lib p) with
        | mk m1 r =>
          cases r with
          | error e =>
            rw [addRouteFrom_new_error _ _ _ _ _ _ _ _ _ _ hp hf hn]
            simp
          | ok ss =>
            rw [addRouteFrom_new_ok _ _ _ _ _ _ _ _ _ _ hp hf hn]
            obtain ⟨_, hty, _, _, hflag, _⟩ := newSection_child lib m m1 s _ ss hn
            obtain ⟨n, t, r, f, rfl⟩ := newSection_fresh lib m m1 (some s) _ ss hn
            exact key m1 _ (fresh_OK n t r f hflag) hty

theorem Handle_bad (lib : Lib) (m : Mux) (method path : String) (h : HandlerArg) (e : String)
    (hargs : checkArgs path h = some e) : (m.Handle lib method path h).2 = some e := by
  cases hroot : lookupRoot m.roots method with
  | some rs => simp only [Mux.Handle, hroot, Section.addRoute, hargs]
  | none => simp only [Mux.Handle, hroot, newSection_root, Section.addRoute, hargs]

/-- C13: in every router built by registrations from the empty router, every
Wildcard node of every trie has no children, and registering a path that has
a further non-empty piece after a piece starting with `*` panics, whatever the
method and the handler. -/
theorem C13_wildcard_is_last (lib : Lib) (routes : List (String × String × HandlerArg)) :
    (∀ method rs, lookupRoot (registerAll lib New routes).1.roots method = some rs →
        ∀ n ∈ rs.nodes, n.sType = SectionTypeWildCard → n.subs = .nil) ∧
      (∀ method path h,
        (∃ pre w q post, rawTokens path = pre ++ w :: q :: post ∧ w.data.head? = some '*') →
        ((registerAll lib New routes).1.Handle lib method path h).2 ≠ none) := by
  have hok := registerAll_OK lib routes New New_OK
  refine ⟨?_, ?_⟩
  · intro method rs hrs n hn
    exact (Section.OK_nodes rs (hok method rs hrs) n hn).wild_leaf
  · intro method path h hex
    cases hargs : checkArgs path h with
    | some e => rw [Handle_bad lib _ method path h e hargs]; simp
    | none =>
      obtain ⟨rs0, rs1, h0, _, h1⟩ := Handle_roots lib (registerAll lib New routes).1 method path h
      rcases h1 with ⟨hne, _⟩ | ⟨_, m0, _, herr⟩
      · exact absurd hargs hne
      · rw [herr]
        have hrs0 : rs0.OK := by
          rcases h0 with h0 | ⟨_, rfl⟩
          · exact hok method rs0 h0
          · exact freshRoot_OK
        exact addRouteFrom_after_wildcard lib path h (Split path) m0 rs0 true hrs0 hex

theorem restNode_mem : restNode ∈ filesRoot.nodes :=
  List.Mem.tail _ (List.Mem.tail _ (List.Mem.head _))

/-- Instance of C13 on `filesRouter`: the Wildcard node `rest` has no
children and registering `/files/*rest/more` panics. -/
theorem C13_wildcard_is_last_witness :
    (restNode ∈ filesRoot.nodes ∧ restNode.sType = SectionTypeWildCard ∧ restNode.subs = .nil) ∧
      (filesRouter.1.Handle stubLib "GET" "/files/*rest/more" (hf 3)).2 ≠ none :=
  ⟨⟨restNode_mem, rfl,
      (C13_wildcard_is_last stubLib
        [("GET", "/files/*rest", hf 1), ("GET", "/files/report", hf 2)]).1 "GET" filesRoot rfl
        restNode (restNode_mem) rfl⟩,
    (C13_wildcard_is_last stubLib
      [("GET", "/files/*rest", hf 1), ("GET", "/files/report", hf 2)]).2 "GET" "/files/*rest/more"
      (hf 3) ⟨["files"], "*rest", "more", [], by decide, by decide⟩⟩

/-! ## Regular-expression tokens -/

theorem cutBrace_closed (nm pat : List Char) (h : '}' ∉ nm) :
    cutBrace (nm ++ '}' :: pat) = some (nm, pat) := by
  induction nm with
  | nil => simp [cutBrace]
  | cons c nm ih =>
    simp only [List.mem_cons, not_or] at h
    have hc : ¬ c = '}' := fun e => h.1 e.symm
    simp [cutBrace, hc, ih h.2]

theorem cutBrace_open (r : List Char) (h : '}' ∉ r) : cutBrace r = none := by
  induction r with
  | nil => rfl
  | cons c r ih =>
    simp only [List.mem_cons, not_or] at h
    have hc : ¬ c = '}' := fun e => h.1 e.symm
    simp [cutBrace, hc, ih h.2]

theorem classify_regex_named (lib : Lib) (m : Mux) (nm pat : List Char) (h : '}' ∉ nm) :
    classify lib m (String.mk ('#' :: '{' :: (nm ++ '}' :: pat))) =
      (m, if pat = [] then .error "regexp empty"
        else if lib.Compile (String.mk pat) then
          .ok (Section.fresh (String.mk nm) SectionTypeRegexp (some (String.mk pat)) false)
        else .error "regexp compile error") := by
  unfold classify
  simp only [cutBrace_closed nm pat h]
  cases pat with
  | nil => simp
  | cons c pat => split_ifs <;> simp_all

theorem classify_regex_open (lib : Lib) (m : Mux) (r : List Char) (h : '}' ∉ r) :
    classify lib m (String.mk ('#' :: '{' :: r)) = (m, .error "regexp format error") := by
  unfold classify
  simp only [cutBrace_open r h]

theorem classify_regex_plain (lib : Lib) (m : Mux) (pat : List Char)
    (h : pat.head? ≠ some '{') :
    classify lib m (String.mk ('#' :: pat)) =
      (m, if pat = [] then .error "regexp empty"
        else if lib.Compile (String.mk pat) then
          .ok (Section.fresh "" SectionTypeRegexp (some (String.mk pat)) false)
        else .error "regexp compile error") := by
  unfold classify
  cases pat with
  | nil => simp
  | cons c pat =>
    have hc : ¬ c = '{' := by simpa using h
    simp only []
    split_ifs <;> simp_all

theorem newSection_of_error (lib : Lib) (m m1 : Mux) (par : Option Section) (name : String)
    (e : String) (hc : classify lib m name = (m1, .error e)) :
    newSection lib m par name = (m1, .error e) := by
  unfold newSection
  rw [hc]

/-- A Regex node that the switch on the first character has built passes the
parent checks of `newSection` under a parent that accepts a child that is not
Raw, and then carries the flag `hasNonRawSub`. -/
theorem newSection_of_regexp (lib : Lib) (m m1 : Mux) (par : Option Section) (name : String)
    (hpar : ∀ p, par = some p → p.sType ≠ SectionTypeWildCard ∧ p.hasNonRawSub = false)
    (sName : String) (re : String)
    (hc : classify lib m name = (m1, .ok (Section.fresh sName SectionTypeRegexp (some re) false))) :
    newSection lib m par name =
      (m1, .ok (Section.fresh sName SectionTypeRegexp (some re) par.isSome)) := by
  unfold newSection
  rw [hc]
  cases par with
  | none => rfl
  | some p =>
    obtain ⟨h1, h2⟩ := hpar p rfl
    simp only [h1, h2, if_false]
    rfl

/-- What `newSection` does with a `#` token as it receives it: it builds a
Regex node (under a parent that accepts it: no parent, or a parent that is not
a Wildcard node and whose `hasNonRawSub` flag is not set).  `#{name}pattern` gives the node named `name`
with pattern source `pattern`, `#pattern` (not starting with an opening
brace) the node with the empty name and pattern source `pattern`; the call
fails exactly when the pattern part is empty, when the pattern does not
compile, or when the brace opened directly after `#` is never closed. -/
theorem newSection_regex_token (lib : Lib) (m : Mux) (par : Option Section)
    (hpar : ∀ p, par = some p → p.sType ≠ SectionTypeWildCard ∧ p.hasNonRawSub = false) :
    (∀ nm pat : List Char, '}' ∉ nm →
        newSection lib m par (String.mk ('#' :: '{' :: (nm ++ '}' :: pat))) =
          (m, if pat = [] then .error "regexp empty"
            else if lib.Compile (String.mk pat) then
              .ok (Section.fresh (String.mk nm) SectionTypeRegexp (some (String.mk pat)) par.isSome)
            else .error "regexp compile error")) ∧
      (∀ pat : List Char, pat.head? ≠ some '{' →
        newSection lib m par (String.mk ('#' :: pat)) =
          (m, if pat = [] then .error "regexp empty"
            else if lib.Compile (String.mk pat) then
              .ok (Section.fresh "" SectionTypeRegexp (some (String.mk pat)) par.isSome)
            else .error "regexp compile error")) ∧
      (∀ r : List Char, '}' ∉ r →
        newSection lib m par (String.mk ('#' :: '{' :: r)) = (m, .error "regexp format error")) := by
  refine ⟨?_, ?_, ?_⟩
  · intro nm pat hnm
    have hc := classify_regex_named lib m nm pat hnm
    by_cases h1 : pat = []
    · rw [if_pos h1] at hc ⊢
      exact newSection_of_error lib m m par _ _ hc
    · rw [if_neg h1] at hc ⊢
      by_cases h2 : lib.Compile (String.mk pat) = true
      · rw [if_pos h2] at hc ⊢
        exact newSection_of_regexp lib m m par _ hpar _ _ hc
      · rw [if_neg h2] at hc ⊢
        exact newSection_of_error lib m m par _ _ hc
  · intro pat hpat
    have hc := classify_regex_plain lib m pat hpat
    by_cases h1 : pat = []
    · rw [if_pos h1] at hc ⊢
      exact newSection_of_error lib m m par _ _ hc
    · rw [if_neg h1] at hc ⊢
      by_cases h2 : lib.Compile (String.mk pat) = true
      · rw [if_pos h2] at hc ⊢
        exact newSection_of_regexp lib m m par _ hpar _ _ hc
      · rw [if_neg h2] at hc ⊢
        exact newSection_of_error lib m m par _ _ hc
  · intro r hr
    exact newSection_of_error lib m m par _ _ (classify_regex_open lib m r hr)

/-- The case of a child of the root `filesRoot`, with the library
`digitsLib`. -/
theorem newSection_regex_token_instance :
    (∀ nm pat : List Char, '}' ∉ nm →
        newSection digitsLib New (some filesRoot) (String.mk ('#' :: '{' :: (nm ++ '}' :: pat))) =
          (New, if pat = [] then .error "regexp empty"
            else if digitsLib.Compile (String.mk pat) then
              .ok (Section.fresh (String.mk nm) SectionTypeRegexp (some (String.mk pat))
                (some filesRoot).isSome)
            else .error "regexp compile error")) ∧
      (∀ pat : List Char, pat.head? ≠ some '{' →
        newSection digitsLib New (some filesRoot) (String.mk ('#' :: pat)) =
          (New, if pat = [] then .error "regexp empty"
            else if digitsLib.Compile (String.mk pat) then
              .ok (Section.fresh "" SectionTypeRegexp (some (String.mk pat)) (some filesRoot).isSome)
            else .error "regexp compile error")) ∧
      (∀ r : List Char, '}' ∉ r →
        newSection digitsLib New (some filesRoot) (String.mk ('#' :: '{' :: r)) =
          (New, .error "regexp format error")) :=
  newSection_regex_token digitsLib New (some filesRoot) (by
    intro p hp
    cases hp
    exact ⟨by decide, rfl⟩)


theorem archiveRouter_eq (lib : Lib) (hC : lib.Compile "\\d{4}" = true) :
    archiveRouter lib =
      ({ roots := [("GET", archiveRoot)], hasWildcard := false, NotFound := none }, none) := by
  have hyear : newSection lib { New with roots := setRoot New.roots "GET" freshRoot }
      (some (Section.fresh "archive" SectionTypeRaw none false))
      (ToLower lib "#{year}\\d{4}") =
      ({ New with roots := setRoot New.roots "GET" freshRoot },
        .ok (Section.fresh "year" SectionTypeRegexp (some "\\d{4}") true)) := by
    have hc := classify_regex_named lib { New with roots := setRoot New.roots "GET" freshRoot }
      "year".data "\\d{4}".data (by decide)
    rw [if_neg (by decide), if_pos hC] at hc
    exact newSection_of_regexp lib _ _ (some (Section.fresh "archive" SectionTypeRaw none false)) _
      (by intro p hp; cases hp; exact ⟨by decide, rfl⟩) _ _ hc
  unfold archiveRouter registerAll
  rw [Handle_no_root lib New "GET" "/archive/#{year}\\d{4}" (hf 1) rfl rfl]
  have hsplit : Split "/archive/#{year}\\d{4}" = ["", "archive", "#{year}\\d{4}"] := by decide
  rw [hsplit, addRouteFrom_skip lib "/archive/#{year}\\d{4}" (hf 1) "" _ _ _ _ rfl,
    addRouteFrom_new_ok lib _ _ "archive" _ _ _ freshRoot
      (Section.fresh "archive" SectionTypeRaw none false) true (by decide) rfl rfl,
    addRouteFrom_new_ok lib _ _ "#{year}\\d{4}" _ _ _
      (Section.fresh "archive" SectionTypeRaw none false)
      (Section.fresh "year" SectionTypeRegexp (some "\\d{4}") true) false (by decide) rfl hyear,
    addRouteFrom_nil]
  rfl

theorem findRoute_archive_hit (lib : Lib) (m : Mux) (seg : String) (vals : List String)
    (hseg : pstrim ("/archive/" ++ seg) = ["archive", seg])
    (h1 : lib.FindStringSubmatch "\\d{4}" seg = some vals) :
    findRoute lib m Context.zero archiveRoot ("/archive/" ++ seg) =
      (true, { Context.zero with
        path := [⟨archiveRoot, []⟩, ⟨archiveNode, ["archive"]⟩, ⟨yearNode, vals⟩] }) := by
  unfold findRoute
  simp only [hseg]
  simp [archiveRoot, archiveNode, yearNode, Section.subs, findRoute_range, findRoute_r,
    Section.matchSeg, Section.sType, Section.sName, Section.regexp, h1, Context.push,
    Context.zero]

theorem findRoute_archive_miss (lib : Lib) (m : Mux) (seg : String)
    (hseg : pstrim ("/archive/" ++ seg) = ["archive", seg])
    (h1 : lib.FindStringSubmatch "\\d{4}" seg = none) :
    findRoute lib m Context.zero archiveRoot ("/archive/" ++ seg) = (false, Context.zero) := by
  unfold findRoute
  simp only [hseg]
  simp [archiveRoot, archiveNode, yearNode, Section.subs, findRoute_range, findRoute_r,
    Section.matchSeg, Section.sType, Section.sName, Section.regexp, h1, Context.push,
    Context.zero, Context.pop]

/-- What `match` does at a Regex node: it matches exactly when
`FindStringSubmatch` of its pattern on the segment is not nil, its values
are that result, and it never matches as a wildcard. -/
theorem matchSeg_regexp (lib : Lib) (s : Section) (re p0 : String) (rest : List String)
    (skip : Bool) (ht : s.sType = SectionTypeRegexp) (hre : s.regexp = some re) :
    s.matchSeg lib p0 rest skip =
      match lib.FindStringSubmatch re p0 with
      | some vals => (true, false, vals)
      | none => (false, false, []) := by
  simp only [Section.matchSeg, ht, hre]

/-- C15: for every library in which `\d{4}` compiles, finds `2024` in `2024`
and finds nothing in `24`: the route `#{year}\d{4}` registered under
`/archive/` is accepted, the request `/archive/2024` runs its handler with
`year = "2024"`, and `/archive/24` ends in Not-Found.  In general a Regex
node matches one segment exactly when `FindStringSubmatch` of its pattern on
that segment is not nil, its captured values are that result, and it does not
consume the rest of the path. -/
theorem C15_regex_route (lib : Lib) (hC : lib.Compile "\\d{4}" = true)
    (h1 : lib.FindStringSubmatch "\\d{4}" "2024" = some ["2024"])
    (h2 : lib.FindStringSubmatch "\\d{4}" "24" = none) :
    (archiveRouter lib).2 = none ∧
      ((archiveRouter lib).1.ServeHTTP lib 3 "GET" "/archive/2024").map
          (fun r => (r.handlers, r.context.map (fun c => c.ParamByName "year")))
        = some (some [⟨1, 0⟩], some "2024") ∧
      ((archiveRouter lib).1.ServeHTTP lib 3 "GET" "/archive/24").map Response.handlers
        = some none ∧
      (∀ (s : Section) (re p0 : String) (rest : List String) (skip : Bool),
        s.sType = SectionTypeRegexp → s.regexp = some re →
        s.matchSeg lib p0 rest skip =
          match lib.FindStringSubmatch re p0 with
          | some vals => (true, false, vals)
          | none => (false, false, [])) := by
  have hhit := findRoute_archive_hit lib
    { roots := [("GET", archiveRoot)], hasWildcard := false, NotFound := none } "2024" ["2024"]
    (by decide) h1
  have hmiss := findRoute_archive_miss lib
    { roots := [("GET", archiveRoot)], hasWildcard := false, NotFound := none } "24"
    (by decide) h2
  change findRoute lib _ Context.zero archiveRoot "/archive/2024" = _ at hhit
  change findRoute lib _ Context.zero archiveRoot "/archive/24" = _ at hmiss
  rw [archiveRouter_eq lib hC]
  refine ⟨rfl, ?_, ?_, fun s re p0 rest skip => matchSeg_regexp lib s re p0 rest skip⟩
  · simp only [Mux.ServeHTTP, lookupRoot, if_true, hhit]
    rfl
  · simp only [Mux.ServeHTTP, lookupRoot, if_true, hmiss]
    rfl

/-- Instance of C15 for the library `digitsLib`. -/
theorem C15_regex_route_witness :
    (archiveRouter digitsLib).2 = none ∧
      ((archiveRouter digitsLib).1.ServeHTTP digitsLib 3 "GET" "/archive/2024").map
          (fun r => (r.handlers, r.context.map (fun c => c.ParamByName "year")))
        = some (some [⟨1, 0⟩], some "2024") ∧
      ((archiveRouter digitsLib).1.ServeHTTP digitsLib 3 "GET" "/archive/24").map Response.handlers
        = some none ∧
      (∀ (s : Section) (re p0 : String) (rest : List String) (skip : Bool),
        s.sType = SectionTypeRegexp → s.regexp = some re →
        s.matchSeg digitsLib p0 rest skip =
          match digitsLib.FindStringSubmatch re p0 with
          | some vals => (true, false, vals)
          | none => (false, false, [])) :=
  C15_regex_route digitsLib (by decide) (by decide) (by decide)

/-! ## The parameter map is built last-write-wins -/

theorem lastNamed_cons (x : sectionValue) (xs : List sectionValue) (n : String) :
    lastNamed (x :: xs) n =
      match lastNamed xs n with
      | some sv => some sv
      | none => if x.s.sName = n then some x else none := by
  unfold lastNamed
  rw [List.reverse_cons, List.find?_append]
  cases h : List.find? (fun sv => decide (sv.s.sName = n)) xs.reverse with
  | some sv => simp
  | none =>
    by_cases hx : x.s.sName = n <;> simp [hx]

/-- The binding of a non-empty name `n` after the loop of `setParams` over
`path`, started with the map `pm`. -/
theorem foldl_setParams_find (n : String) (hn : n.length > 0) :
    ∀ (path : List sectionValue) (pm : List (String × List String)),
      (List.foldl (fun pm sv => if sv.s.sName.length > 0 then setParam pm sv.s.sName sv.vals else pm)
        pm path).find? (fun kv => kv.1 = n) =
      match lastNamed path n with
      | some sv => some (n, sv.vals)
      | none => pm.find? (fun kv => kv.1 = n) := by
  intro path
  induction path with
  | nil => intro pm; rfl
  | cons x xs ih =>
    intro pm
    rw [List.foldl_cons, ih, lastNamed_cons]
    cases h : lastNamed xs n with
    | some sv => rfl
    | none =>
      simp only
      by_cases hx : x.s.sName = n
      · have hlen : x.s.sName.length > 0 := by rw [hx]; exact hn
        simp only [hx, if_true]
        rw [if_pos (by rw [hx] at hlen; exact hlen)]
        exact find_setParam_same pm n x.vals
      · simp only [hx, if_false]
        split_ifs
        · exact find_setParam_other pm n _ _ hx
        · rfl

/-- The loop of `setParams` binds nothing to the empty name. -/
theorem foldl_setParams_find_empty :
    ∀ (path : List sectionValue) (pm : List (String × List String)),
      (List.foldl (fun pm sv => if sv.s.sName.length > 0 then setParam pm sv.s.sName sv.vals else pm)
        pm path).find? (fun kv => kv.1 = "") = pm.find? (fun kv => kv.1 = "") := by
  intro path
  induction path with
  | nil => intro pm; rfl
  | cons x xs ih =>
    intro pm
    rw [List.foldl_cons, ih]
    split_ifs with hlen
    · apply find_setParam_other
      intro he
      rw [he] at hlen
      simp at hlen
    · rfl

theorem findRoute_paramMap (lib : Lib) (m : Mux) (ctx0 ctx : Context) (rs : Section)
    (path : String) (b : Bool) (h : findRoute lib m ctx0 rs path = (b, ctx)) :
    ctx.paramMap = ctx0.paramMap := by
  rcases findRoute_sound lib m ctx0 rs path with ⟨w, he, _⟩ | he
  · rw [he] at h
    rw [← (Prod.mk.inj h).2]
  · rw [he] at h
    rw [← (Prod.mk.inj h).2]

/-- C16: after a successful match, for every non-empty name `n`,
`ParamsByName n` is the value list of the last node of the matched path
whose stored name is `n` (whatever the type of the node), and nil when no
node has that name; nothing is bound to the empty name; `ParamByName n` is
the first element of `ParamsByName n`, or the empty string. -/
theorem C16_params_last_write_wins (lib : Lib) (m : Mux) (rs : Section) (path : String)
    (ctx : Context) (hfound : findRoute lib m Context.zero rs path = (true, ctx)) :
    (∀ n : String, n.length > 0 →
        ctx.setParams.ParamsByName n =
          match lastNamed ctx.path n with
          | some sv => sv.vals
          | none => []) ∧
      ctx.setParams.ParamsByName "" = [] ∧
      (∀ n : String, ctx.setParams.ParamByName n =
        match ctx.setParams.ParamsByName n with
        | v :: _ => v
        | [] => "") := by
  have hpm : ctx.paramMap = [] := findRoute_paramMap lib m Context.zero ctx rs path true hfound
  refine ⟨?_, ?_, fun n => rfl⟩
  · intro n hn
    unfold Context.ParamsByName
    rw [setParams_eq, foldl_setParams_find n hn, hpm]
    cases lastNamed ctx.path n <;> rfl
  · unfold Context.ParamsByName
    rw [setParams_eq, foldl_setParams_find_empty, hpm]
    rfl

/-- Instance of C16 on `idRouter` (route `/:id/id`) and the request
`/42/id`: the last node named `id` is the Raw node, with value `id`. -/
theorem C16_params_last_write_wins_witness :
    ((∀ n : String, n.length > 0 →
        (findRoute stubLib idRouter.1 Context.zero
            ((lookupRoot idRouter.1.roots "GET").getD freshRoot) "/42/id").2.setParams.ParamsByName n =
          match lastNamed (findRoute stubLib idRouter.1 Context.zero
            ((lookupRoot idRouter.1.roots "GET").getD freshRoot) "/42/id").2.path n with
          | some sv => sv.vals
          | none => []) ∧
      (findRoute stubLib idRouter.1 Context.zero
          ((lookupRoot idRouter.1.roots "GET").getD freshRoot) "/42/id").2.setParams.ParamsByName "" = [] ∧
      (∀ n : String,
        (findRoute stubLib idRouter.1 Context.zero
            ((lookupRoot idRouter.1.roots "GET").getD freshRoot) "/42/id").2.setParams.ParamByName n =
        match (findRoute stubLib idRouter.1 Context.zero
            ((lookupRoot idRouter.1.roots "GET").getD freshRoot) "/42/id").2.setParams.ParamsByName n with
        | v :: _ => v
        | [] => "")) ∧
      (findRoute stubLib idRouter.1 Context.zero
          ((lookupRoot idRouter.1.roots "GET").getD freshRoot) "/42/id").2.setParams.ParamsByName "id"
        = ["id"] :=
  ⟨C16_params_last_write_wins stubLib idRouter.1 ((lookupRoot idRouter.1.roots "GET").getD freshRoot)
      "/42/id" _ (Prod.ext (by decide) rfl), by decide⟩

/-! ## The router-wide wildcard flag and the tries of the methods -/

theorem Section.wildFree_iff (s : Section) :
    s.wildFree ↔ s.sType ≠ SectionTypeWildCard ∧ s.subs.wildFree := by
  cases s; simp [Section.wildFree, Section.subs, Section.sType]

theorem Subs.wildFree_iff_mem : ∀ subs : Subs,
    subs.wildFree ↔ ∀ k c, (k, c) ∈ subs.toList → c.wildFree
  | .nil => by simp [Subs.wildFree, Subs.toList]
  | .cons k s rest => by
    simp only [Subs.wildFree, Subs.toList, List.mem_cons, Prod.mk.injEq, Subs.wildFree_iff_mem rest]
    constructor
    · rintro ⟨hs, hr⟩ k2 c (⟨_, rfl⟩ | hm)
      · exact hs
      · exact hr k2 c hm
    · intro h
      exact ⟨h k s (Or.inl ⟨rfl, rfl⟩), fun k2 c hm => h k2 c (Or.inr hm)⟩

mutual
/-- In a subtree without Wildcard nodes the pass with wildcards enabled does
what the pass with wildcards suppressed does. -/
theorem findRoute_r_wildFree (lib : Lib) :
    ∀ (s : Section) (ctx : Context) (p0 : String) (rest : List String), s.wildFree →
      findRoute_r lib ctx s p0 rest false = findRoute_r lib ctx s p0 rest true
  | .mk n t r f subs ts c, ctx, p0, rest, hs => by
    have ht : (Section.mk n t r f subs ts c).sType ≠ SectionTypeWildCard := hs.1
    rw [findRoute_r, findRoute_r, matchSeg_not_wildcard p0 rest ht]
    cases hm : (Section.mk n t r f subs ts c).matchSeg lib p0 rest false with
    | mk matched r2 =>
      cases r2 with
      | mk byW vals =>
        cases matched with
        | false => rfl
        | true =>
          cases rest with
          | nil => rfl
          | cons q rest1 =>
            simp only
            rw [findRoute_range_wildFree lib subs _ q rest1 hs.2]
theorem findRoute_range_wildFree (lib : Lib) :
    ∀ (subs : Subs) (ctx : Context) (p0 : String) (rest : List String), subs.wildFree →
      findRoute_range lib ctx subs p0 rest false = findRoute_range lib ctx subs p0 rest true
  | .nil, ctx, p0, rest, _ => by rw [findRoute_range, findRoute_range]
  | .cons k ss more, ctx, p0, rest, hs => by
    rw [findRoute_range, findRoute_range, findRoute_r_wildFree lib ss ctx p0 rest hs.1]
    cases hr : findRoute_r lib ctx ss p0 rest true with
    | mk b ctx1 =>
      cases b with
      | true => rfl
      | false =>
        simp only
        exact findRoute_range_wildFree lib more ctx1 p0 rest hs.2
end

/-- `findRoute` consults the router only for its flag `hasWildcard`, and in a
trie without Wildcard nodes not even for that. -/
theorem findRoute_flag (lib : Lib) (m m2 : Mux) (ctx : Context) (rs : Section) (path : String)
    (h : m.hasWildcard = m2.hasWildcard ∨ rs.wildFree) :
    findRoute lib m ctx rs path = findRoute lib m2 ctx rs path := by
  unfold findRoute
  rcases h with h | h
  · rw [h]
  · cases hps : pstrim path with
    | nil => rfl
    | cons p0 rest =>
      simp only
      have hsub : rs.subs.wildFree := ((Section.wildFree_iff rs).mp h).2
      rcases findRoute_range_sound lib rs.subs (ctx.push rs []) p0 rest true with
        ⟨w, k, n, hmem, he, hw⟩ | he
      · simp only [he]
      · simp only [he, findRoute_range_wildFree lib rs.subs _ p0 rest hsub]
        cases m.hasWildcard <;> cases m2.hasWildcard <;> simp

theorem attach_wildFree (path : String) (h : HandlerArg) (s : Section) (isRoot : Bool)
    (hs : s.wildFree) : (attach path h s isRoot).1.wildFree := by
  rw [Section.wildFree_iff] at hs ⊢
  rw [attach_sType, attach_subs]
  exact hs

theorem Section.wildFree_setSubs {s c : Section} (hs : s.wildFree) (hc : c.wildFree)
    (p : String) : (s.setSubs (s.subs.set p c)).wildFree := by
  rw [Section.wildFree_iff] at hs ⊢
  rw [Section.sType_setSubs, Section.subs_setSubs]
  refine ⟨hs.1, ?_⟩
  rw [Subs.wildFree_iff_mem]
  intro k x hx
  rcases Subs.mem_set _ _ _ _ _ hx with h | h
  · obtain ⟨rfl, rfl⟩ := Prod.mk.inj h; exact hc
  · exact (Subs.wildFree_iff_mem _).mp hs.2 k x h

theorem classify_wild_flag (lib : Lib) (m m1 : Mux) (p : String) (s : Section)
    (h : classify lib m p = (m1, .ok s)) (hw : s.sType = SectionTypeWildCard) :
    m1.hasWildcard = true := by
  unfold classify at h
  split at h
  · simp at h
  · simp at h; obtain ⟨_, rfl⟩ := h; simp [Section.fresh, Section.sType] at hw
  · simp at h; obtain ⟨rfl, _⟩ := h; rfl
  · split at h
    · simp at h
    · split at h
      · simp at h
      · split_ifs at h <;> simp at h
        obtain ⟨_, rfl⟩ := h; simp [Section.fresh, Section.sType] at hw
    · split_ifs at h <;> simp at h
      obtain ⟨_, rfl⟩ := h; simp [Section.fresh, Section.sType] at hw
  · simp at h; obtain ⟨_, rfl⟩ := h; simp [Section.fresh, Section.sType] at hw

/-- A Wildcard node comes out of `newSection` together with the flag
`hasWildcard` set. -/
theorem newSection_wild_flag (lib : Lib) (m m1 : Mux) (par : Option Section) (p : String)
    (ss : Section) (h : newSection lib m par p = (m1, .ok ss))
    (hw : ss.sType = SectionTypeWildCard) : m1.hasWildcard = true := by
  unfold newSection at h
  split at h
  · simp at h
  · rename_i m2 s hc
    split at h
    · simp at h
      obtain ⟨rfl, rfl⟩ := h
      exact classify_wild_flag lib m _ p _ hc hw
    · split_ifs at h <;> simp at h
      · obtain ⟨rfl, rfl⟩ := h
        exact classify_wild_flag lib m _ p s hc hw
      · obtain ⟨rfl, rfl⟩ := h
        exact classify_wild_flag lib m _ p _ hc hw

/-- When the loop of `addRoute` leaves the flag `hasWildcard` unset, it was
unset before and a subtree without Wildcard nodes still has none. -/
theorem addRouteFrom_wildFree (lib : Lib) (path : String) (h : HandlerArg) :
    ∀ (ps : List String) (m : Mux) (s : Section) (isRoot : Bool),
      (addRouteFrom lib path h ps m s isRoot).1.hasWildcard = false →
      m.hasWildcard = false ∧ (s.wildFree → (addRouteFrom lib path h ps m s isRoot).2.1.wildFree) := by
  intro ps
  induction ps with
  | nil =>
    intro m s isRoot hflag
    rw [addRouteFrom_nil] at hflag ⊢
    exact ⟨hflag, attach_wildFree path h s isRoot⟩
  | cons p ps ih =>
    intro m s isRoot hflag
    by_cases hp : p.length = 0
    · rw [addRouteFrom_skip _ _ _ _ _ _ _ _ hp] at hflag ⊢
      exact ih m s isRoot hflag
    · cases hf : s.subs.find (ToLower lib p) with
      | some ss =>
        rw [addRouteFrom_found _ _ _ _ _ _ _ _ _ hp hf] at hflag ⊢
        obtain ⟨h1, h2⟩ := ih m ss false hflag
        refine ⟨h1, fun hs => Section.wildFree_setSubs hs (h2 ?_) _⟩
        exact (Subs.wildFree_iff_mem _).mp ((Section.wildFree_iff s).mp hs).2 _ _
          (Subs.find_mem _ _ _ hf)
      | none =>
        cases hn : newSection lib m (some s) (ToLower lib p) with
        | mk m1 r =>
          have hm1 := newSection_mux lib m (some s) (ToLower lib p)
          rw [hn] at hm1
          simp only at hm1
          cases r with
          | error e =>
            rw [addRouteFrom_new_error _ _ _ _ _ _ _ _ _ _ hp hf hn] at hflag ⊢
            simp only at hflag
            refine ⟨?_, fun hs => hs⟩
            rcases hm1 with e1 | e1
            · rw [e1] at hflag; exact hflag
            · rw [e1] at hflag; simp at hflag
          | ok ss =>
            rw [addRouteFrom_new_ok _ _ _ _ _ _ _ _ _ _ hp hf hn] at hflag ⊢
            obtain ⟨h1, h2⟩ := ih m1 ss false hflag
            have hm : m.hasWildcard = false := by
              rcases hm1 with e1 | e1
              · rw [e1] at h1; exact h1
              · rw [e1] at h1; simp at h1
            refine ⟨hm, fun hs => Section.wildFree_setSubs hs (h2 ?_) _⟩
            obtain ⟨n, t, r, f, rfl⟩ := newSection_fresh lib m m1 (some s) _ ss hn
            rw [Section.wildFree_iff]
            refine ⟨?_, trivial⟩
            intro hw
            rw [newSection_wild_flag lib m m1 (some s) _ _ hn hw] at h1
            simp at h1

theorem freshRoot_wildFree : freshRoot.wildFree := ⟨by decide, trivial⟩

theorem Handle_invalid (lib : Lib) (m : Mux) (method path : String) (h : HandlerArg)
    (e : String) (hargs : checkArgs path h = some e) :
    m.Handle lib method path h =
      ((match lookupRoot m.roots method with
        | some _ => m
        | none => { m with roots := setRoot m.roots method freshRoot }), some e) := by
  cases hroot : lookupRoot m.roots method with
  | some rs =>
    simp only [Mux.Handle, hroot, Section.addRoute, hargs, setRoot_lookup_self _ _ _ hroot]
  | none =>
    simp only [Mux.Handle, hroot, newSection_root, Section.addRoute, hargs,
      setRoot_lookup_self _ _ _ (lookupRoot_setRoot_same m.roots method freshRoot)]

/-- `Handle` keeps the Not-Found collaborator, never clears the flag
`hasWildcard`, and, when it leaves the flag unset, leaves the trie of the
method without Wildcard nodes if it had none. -/
theorem Handle_flag (lib : Lib) (m : Mux) (method path : String) (h : HandlerArg) :
    (m.Handle lib method path h).1.NotFound = m.NotFound ∧
      ((m.Handle lib method path h).1.hasWildcard = false →
        m.hasWildcard = false ∧
          ∀ rs1, lookupRoot (m.Handle lib method path h).1.roots method = some rs1 →
            (∀ rs0, lookupRoot m.roots method = some rs0 → rs0.wildFree) → rs1.wildFree) := by
  cases hargs : checkArgs path h with
  | some e =>
    rw [Handle_invalid lib m method path h e hargs]
    cases hroot : lookupRoot m.roots method with
    | some rs =>
      refine ⟨rfl, fun hflag => ⟨hflag, ?_⟩⟩
      intro rs1 h1 h0
      simp only at h1
      rw [hroot] at h1
      exact h0 rs1 h1
    | none =>
      refine ⟨rfl, fun hflag => ⟨hflag, ?_⟩⟩
      intro rs1 h1 _
      simp only [lookupRoot_setRoot_same] at h1
      cases h1
      exact freshRoot_wildFree
  | none =>
    cases hroot : lookupRoot m.roots method with
    | some rs =>
      rw [Handle_existing_root lib m method path h rs hroot hargs]
      have hmux := addRouteFrom_mux lib path h (Split path) m rs true
      refine ⟨by rcases hmux with e | e <;> rw [e], ?_⟩
      intro hflag
      simp only at hflag
      obtain ⟨h1, h2⟩ := addRouteFrom_wildFree lib path h (Split path) m rs true hflag
      refine ⟨h1, ?_⟩
      intro rs1 hrs1 h0
      simp only [lookupRoot_setRoot_same] at hrs1
      cases hrs1
      exact h2 (h0 rs rfl)
    | none =>
      rw [Handle_no_root lib m method path h hroot hargs]
      have hmux := addRouteFrom_mux lib path h (Split path)
        { m with roots := setRoot m.roots method freshRoot } freshRoot true
      refine ⟨by rcases hmux with e | e <;> rw [e], ?_⟩
      intro hflag
      simp only at hflag
      obtain ⟨h1, h2⟩ := addRouteFrom_wildFree lib path h (Split path) _ freshRoot true hflag
      refine ⟨h1, ?_⟩
      intro rs1 hrs1 _
      simp only [lookupRoot_setRoot_same] at hrs1
      cases hrs1
      exact h2 freshRoot_wildFree

/-- `Handle` for a method leaves the roots of the other methods as they
were. -/
theorem Handle_other_root (lib : Lib) (m : Mux) (method path : String) (h : HandlerArg)
    (k : String) (hk : k ≠ method) :
    lookupRoot (m.Handle lib method path h).1.roots k = lookupRoot m.roots k := by
  obtain ⟨rs0, rs1, _, hroots, _⟩ := Handle_roots lib m method path h
  rw [hroots, lookupRoot_setRoot_other _ _ _ _ hk]

theorem Handle_flagOK (lib : Lib) (m : Mux) (method path : String) (h : HandlerArg)
    (hm : m.flagOK) : (m.Handle lib method path h).1.flagOK := by
  intro hflag k rs hk
  obtain ⟨_, h2⟩ := Handle_flag lib m method path h
  obtain ⟨hmflag, hroot⟩ := h2 hflag
  by_cases hkm : k = method
  · subst hkm
    exact hroot rs hk (fun rs0 h0 => hm hmflag k rs0 h0)
  · rw [Handle_other_root lib m method path h k hkm] at hk
    exact hm hmflag k rs hk

theorem New_flagOK : New.flagOK := by
  intro _ k rs h
  simp [New, lookupRoot] at h

theorem registerAll_flagOK (lib : Lib) :
    ∀ (routes : List (String × String × HandlerArg)) (m : Mux), m.flagOK →
      (registerAll lib m routes).1.flagOK := by
  intro routes
  induction routes with
  | nil => intro m hm; exact hm
  | cons r routes ih =>
    intro m hm
    obtain ⟨method, path, h⟩ := r
    have h1 := Handle_flagOK lib m method path h hm
    unfold registerAll
    cases hh : m.Handle lib method path h with
    | mk m1 e =>
      rw [hh] at h1
      cases e with
      | none => exact ih m1 h1
      | some e => exact h1

theorem registerAll_no_root (lib : Lib) (M : String) :
    ∀ (routes : List (String × String × HandlerArg)) (m : Mux),
      lookupRoot m.roots M = none → (∀ r ∈ routes, r.1 ≠ M) →
      lookupRoot (registerAll lib m routes).1.roots M = none := by
  intro routes
  induction routes with
  | nil => intro m hm _; exact hm
  | cons r routes ih =>
    intro m hm hr
    obtain ⟨method, path, h⟩ := r
    have hne : M ≠ method := fun e => hr (method, path, h) (by simp) e.symm
    have h1 := Handle_other_root lib m method path h M hne
    rw [hm] at h1
    unfold registerAll
    cases hh : m.Handle lib method path h with
    | mk m1 e =>
      rw [hh] at h1
      cases e with
      | none => exact ih m1 h1 (fun r hr2 => hr r (by simp [hr2]))
      | some e => exact h1

/-- A registration under another method does not change what `findRoute`
returns for the trie of a method, in a router whose wildcard flag is
sound. -/
theorem findRoute_after_Handle (lib : Lib) (m : Mux) (hm : m.flagOK) (M M2 path2 : String)
    (h : HandlerArg) (rs : Section) (hrs : lookupRoot m.roots M = some rs) (ctx : Context)
    (path : String) :
    findRoute lib (m.Handle lib M2 path2 h).1 ctx rs path = findRoute lib m ctx rs path := by
  apply findRoute_flag
  cases hflag : m.hasWildcard with
  | false => right; exact hm hflag M rs hrs
  | true =>
    left
    cases hflag2 : (m.Handle lib M2 path2 h).1.hasWildcard with
    | true => rfl
    | false =>
      have := ((Handle_flag lib m M2 path2 h).2 hflag2).1
      rw [hflag] at this
      simp at this

/-- C17: dispatch for a method consults only the trie of that method.  In a
router built by registrations from the empty router, a request whose method
occurs in none of the registrations gets Not-Found (no chain is served), and a
further registration under another method, successful or not, wildcard route
or not, changes neither what the search returns for a request (the node
reached and the values captured) nor what dispatch does with it. -/
theorem C17_one_trie_per_method (lib : Lib) (routes : List (String × String × HandlerArg))
    (fuel : Nat) :
    (∀ M path, (∀ r ∈ routes, r.1 ≠ M) →
        (registerAll lib New routes).1.ServeHTTP lib fuel M path =
          some (.notFound (registerAll lib New routes).1.NotFound)) ∧
      (∀ M M2 path2 h path, M ≠ M2 →
        ((registerAll lib New routes).1.Handle lib M2 path2 h).1.find lib M path =
            (registerAll lib New routes).1.find lib M path ∧
          ((registerAll lib New routes).1.Handle lib M2 path2 h).1.ServeHTTP lib fuel M path =
            (registerAll lib New routes).1.ServeHTTP lib fuel M path) := by
  have hflag := registerAll_flagOK lib routes New New_flagOK
  refine ⟨?_, ?_⟩
  · intro M path hM
    have hroot := registerAll_no_root lib M routes New rfl hM
    simp only [Mux.ServeHTTP, hroot]
  · intro M M2 path2 h path hne
    have hroot := Handle_other_root lib (registerAll lib New routes).1 M2 path2 h M hne
    have hnf := (Handle_flag lib (registerAll lib New routes).1 M2 path2 h).1
    cases hrs : lookupRoot (registerAll lib New routes).1.roots M with
    | none =>
      rw [hrs] at hroot
      refine ⟨?_, ?_⟩
      · simp only [Mux.find, hroot, hrs]
        rfl
      · simp only [Mux.ServeHTTP, hroot, hrs, hnf]
    | some rs =>
      rw [hrs] at hroot
      have hfind := findRoute_after_Handle lib _ hflag M M2 path2 h rs hrs Context.zero path
      refine ⟨?_, ?_⟩
      · simp only [Mux.find, hroot, hrs, Option.map_some', hfind]
      · simp only [Mux.ServeHTTP, hroot, hrs, hnf, hfind]

/-- Instance of C17: after `GET /users/:id`, registering the wildcard route
`POST /*all` sets the router-wide flag and leaves the resolution of
`GET /users/7` as it was; a `PUT` request gets Not-Found. -/
theorem C17_one_trie_per_method_witness :
    ((∀ M path, (∀ r ∈ [("GET", "/users/:id", hf 1)], r.1 ≠ M) →
        (registerAll stubLib New [("GET", "/users/:id", hf 1)]).1.ServeHTTP stubLib 3 M path =
          some (.notFound (registerAll stubLib New [("GET", "/users/:id", hf 1)]).1.NotFound)) ∧
      (∀ M M2 path2 h path, M ≠ M2 →
        ((registerAll stubLib New [("GET", "/users/:id", hf 1)]).1.Handle stubLib M2 path2 h).1.find
              stubLib M path =
            (registerAll stubLib New [("GET", "/users/:id", hf 1)]).1.find stubLib M path ∧
          ((registerAll stubLib New [("GET", "/users/:id", hf 1)]).1.Handle stubLib M2 path2
              h).1.ServeHTTP stubLib 3 M path =
            (registerAll stubLib New [("GET", "/users/:id", hf 1)]).1.ServeHTTP stubLib 3 M path)) ∧
      getRouter.1.hasWildcard = false ∧
      (getRouter.1.Handle stubLib "POST" "/*all" (hf 2)).1.hasWildcard = true ∧
      ((getRouter.1.Handle stubLib "POST" "/*all" (hf 2)).1.find stubLib "GET" "/users/7").map
          (fun r => (r.1, r.2.walk))
        = some (true, [(SectionTypeRaw, "/", []), (SectionTypeRaw, "users", ["users"]),
            (SectionTypeMatch, "id", ["7"])]) :=
  ⟨C17_one_trie_per_method stubLib [("GET", "/users/:id", hf 1)] 3, by decide, by decide,
    by decide⟩

/-! ## Dispatches and the state they leave behind -/

theorem Section.eraseCursor_fields (s : Section) :
    s.eraseCursor.sName = s.sName ∧ s.eraseCursor.sType = s.sType ∧
      s.eraseCursor.regexp = s.regexp ∧ s.eraseCursor.subs = s.subs.eraseCursor ∧
      s.eraseCursor.chain = { s.chain with nextIdx := 0 } := by
  cases s
  simp [Section.eraseCursor, Section.sName, Section.sType, Section.regexp, Section.subs,
    Section.chain]

theorem matchSeg_eraseCursor (lib : Lib) (s : Section) (p0 : String) (rest : List String)
    (skip : Bool) : s.eraseCursor.matchSeg lib p0 rest skip = s.matchSeg lib p0 rest skip := by
  obtain ⟨h1, h2, h3, _, _⟩ := Section.eraseCursor_fields s
  simp only [Section.matchSeg, h1, h2, h3]

theorem Context.eraseCursor_push (ctx : Context) (s : Section) (vals : List String) :
    (ctx.push s vals).eraseCursor = ctx.eraseCursor.push s.eraseCursor vals := by
  simp [Context.push, Context.eraseCursor]

theorem Context.eraseCursor_pop (ctx : Context) : ctx.pop.eraseCursor = ctx.eraseCursor.pop := by
  simp only [Context.pop, Context.eraseCursor]
  congr 1
  generalize ctx.path = l
  induction l with
  | nil => rfl
  | cons a l ih =>
    cases l with
    | nil => rfl
    | cons b l => simp only [List.dropLast_cons₂, List.map_cons] at ih ⊢; rw [ih]

mutual
/-- The search does not look at chain cursors: on the trie with the cursors
erased it makes the same decisions and records the same walk. -/
theorem findRoute_r_eraseCursor (lib : Lib) :
    ∀ (s : Section) (ctx : Context) (p0 : String) (rest : List String) (skip : Bool),
      findRoute_r lib ctx.eraseCursor s.eraseCursor p0 rest skip =
        ((findRoute_r lib ctx s p0 rest skip).1, (findRoute_r lib ctx s p0 rest skip).2.eraseCursor)
  | .mk n t r f subs ts c, ctx, p0, rest, skip => by
    have hm := matchSeg_eraseCursor lib (.mk n t r f subs ts c) p0 rest skip
    rw [Section.eraseCursor] at hm ⊢
    rw [findRoute_r, findRoute_r, hm]
    cases (Section.mk n t r f subs ts c).matchSeg lib p0 rest skip with
    | mk matched r2 =>
      cases r2 with
      | mk byW vals =>
        cases matched with
        | false => rfl
        | true =>
          have hpush := Context.eraseCursor_push ctx (.mk n t r f subs ts c) vals
          rw [Section.eraseCursor] at hpush
          cases rest with
          | nil => simp only [hpush]
          | cons q rest1 =>
            cases byW with
            | true => simp only [hpush, if_true]
            | false =>
              simp only [Bool.false_eq_true, if_false, ← hpush]
              rw [findRoute_range_eraseCursor lib subs _ q rest1 skip]
              cases findRoute_range lib (ctx.push (.mk n t r f subs ts c) vals) subs q rest1 skip with
              | mk b ctx2 =>
                cases b with
                | true => rfl
                | false => simp only [Context.eraseCursor_pop]
theorem findRoute_range_eraseCursor (lib : Lib) :
    ∀ (subs : Subs) (ctx : Context) (p0 : String) (rest : List String) (skip : Bool),
      findRoute_range lib ctx.eraseCursor subs.eraseCursor p0 rest skip =
        ((findRoute_range lib ctx subs p0 rest skip).1,
          (findRoute_range lib ctx subs p0 rest skip).2.eraseCursor)
  | .nil, ctx, p0, rest, skip => by
    rw [Subs.eraseCursor, findRoute_range, findRoute_range]
  | .cons k ss more, ctx, p0, rest, skip => by
    rw [Subs.eraseCursor, findRoute_range, findRoute_range,
      findRoute_r_eraseCursor lib ss ctx p0 rest skip]
    cases findRoute_r lib ctx ss p0 rest skip with
    | mk b ctx1 =>
      cases b with
      | true => rfl
      | false =>
        simp only
        exact findRoute_range_eraseCursor lib more ctx1 p0 rest skip
end

theorem findRoute_eraseCursor (lib : Lib) (m : Mux) (ctx : Context) (rs : Section)
    (path : String) :
    findRoute lib m ctx.eraseCursor rs.eraseCursor path =
      ((findRoute lib m ctx rs path).1, (findRoute lib m ctx rs path).2.eraseCursor) := by
  unfold findRoute
  have hsubs := (Section.eraseCursor_fields rs).2.2.2.1
  cases pstrim path with
  | nil => simp only [Context.eraseCursor_push]
  | cons p0 rest =>
    simp only [hsubs, ← Context.eraseCursor_push, findRoute_range_eraseCursor]
    cases findRoute_range lib (ctx.push rs []) rs.subs p0 rest true with
    | mk b ctx1 =>
      cases b with
      | true => rfl
      | false =>
        simp only
        cases m.hasWildcard with
        | false => simp only [Bool.false_eq_true, if_false, Context.eraseCursor_pop]
        | true =>
          simp only [if_true, findRoute_range_eraseCursor]
          cases findRoute_range lib ctx1 rs.subs p0 rest false with
          | mk b2 ctx2 =>
            cases b2 with
            | true => rfl
            | false => simp only [Context.eraseCursor_pop]

theorem setParams_eraseCursor (ctx : Context) :
    ctx.eraseCursor.setParams.paramMap = ctx.setParams.paramMap := by
  rw [setParams_eq, setParams_eq]
  simp only [Context.eraseCursor]
  generalize ctx.paramMap = pm
  generalize ctx.path = l
  induction l generalizing pm with
  | nil => rfl
  | cons a l ih =>
    simp only [List.map_cons, List.foldl_cons, (Section.eraseCursor_fields a.s).1]
    exact ih _

theorem walk_eraseCursor (ctx : Context) : ctx.eraseCursor.walk = ctx.walk := by
  simp only [Context.walk, Context.eraseCursor, List.map_map]
  congr 1
  funext sv
  simp [(Section.eraseCursor_fields sv.s).1, (Section.eraseCursor_fields sv.s).2.1]

theorem lookupRoot_map_eraseCursor : ∀ (roots : List (String × Section)) (k : String),
    lookupRoot (roots.map (fun kr => (kr.1, kr.2.eraseCursor))) k =
      (lookupRoot roots k).map Section.eraseCursor
  | [], _ => rfl
  | (k0, s0) :: rest, k => by
    simp only [List.map_cons, lookupRoot]
    split_ifs
    · rfl
    · exact lookupRoot_map_eraseCursor rest k

/-- A chain and the chain with its cursor erased run alike: `ServeHTTP`
resets the cursor before use. -/
theorem ServeHTTP_eraseCursor (fuel : Nat) (c : Chain) :
    ({ c with nextIdx := 0 } : Chain).ServeHTTP fuel = c.ServeHTTP fuel := rfl

theorem getLast_map {α β : Type} (f : α → β) : ∀ l : List α,
    (l.map f).getLast? = l.getLast?.map f
  | [] => rfl
  | [a] => rfl
  | a :: b :: l => by
    simp only [List.map_cons, List.getLast?_cons_cons]
    exact getLast_map f (b :: l)

/-- What dispatch does on a trie, in terms of the trie with the cursors
erased. -/
theorem ServeHTTP_observed (lib : Lib) (fuel : Nat) (m : Mux) (method path : String) :
    (m.ServeHTTP lib fuel method path).map Response.observed =
      match (lookupRoot m.roots method).map Section.eraseCursor with
      | none => some (none, none, none)
      | some rs =>
        match findRoute lib m Context.zero rs path with
        | (true, ctx) =>
          match ctx.path.getLast? with
          | some sv =>
            (sv.s.chain.ServeHTTP fuel).map
              (fun r => (some (r.2.map Event.h), some ctx.setParams.paramMap, some ctx.walk))
          | none => none
        | (false, _) => some (none, none, none) := by
  unfold Mux.ServeHTTP
  cases lookupRoot m.roots method with
  | none => rfl
  | some rs =>
    simp only [Option.map_some']
    have he := findRoute_eraseCursor lib m Context.zero rs path
    have hz : Context.zero.eraseCursor = Context.zero := rfl
    rw [hz] at he
    rw [he]
    cases findRoute lib m Context.zero rs path with
    | mk b ctx =>
      cases b with
      | false => rfl
      | true =>
        simp only
        have hl : ctx.eraseCursor.path.getLast? =
            ctx.path.getLast?.map (fun sv => ⟨sv.s.eraseCursor, sv.vals⟩) :=
          getLast_map _ ctx.path
        rw [hl]
        cases ctx.path.getLast? with
        | none => rfl
        | some sv =>
          simp only [Option.map_some', (Section.eraseCursor_fields sv.s).2.2.2.2,
            ServeHTTP_eraseCursor, setParams_eraseCursor, walk_eraseCursor]
          cases sv.s.chain.ServeHTTP fuel with
          | none => rfl
          | some r => rfl

/-- C18 (two-run form): a dispatch builds its parameter map in a fresh
context from the trie and its own request path.  All that a dispatch writes to
the router is the cursor of the chain it serves (steps and terminal are kept);
and for two routers that differ at most in chain cursors, so in particular for
a router before and after any other dispatches, the dispatch of a request
hands the same parameter map to the same handlers along the same walk. -/
theorem C18_dispatches_do_not_interfere (lib : Lib) (fuel : Nat) (m m2 : Mux)
    (method path : String) (hsame : sameButCursors m m2) :
    (m.ServeHTTP lib fuel method path).map Response.observed =
        (m2.ServeHTTP lib fuel method path).map Response.observed ∧
      (∀ c : Chain, c.mws.length + 2 ≤ fuel →
        ∃ c1 t, c.ServeHTTP fuel = some (c1, t) ∧ c1.mws = c.mws ∧ c1.h = c.h) ∧
      (∀ ctx, m.find lib method path = some (true, ctx) →
        ctx.paramMap = [] ∧
          ∀ r, m.ServeHTTP lib fuel method path = some r → r.context = some ctx.setParams) := by
  obtain ⟨hflag, hnf, hroots⟩ := hsame
  refine ⟨?_, ?_, ?_⟩
  · rw [ServeHTTP_observed, ServeHTTP_observed, ← lookupRoot_map_eraseCursor,
      ← lookupRoot_map_eraseCursor, hroots]
    cases lookupRoot (m2.roots.map (fun kr => (kr.1, kr.2.eraseCursor))) method with
    | none => rfl
    | some rs =>
      simp only
      rw [findRoute_flag lib m m2 Context.zero rs path (Or.inl hflag)]
  · intro c hc
    obtain ⟨c1, t, e, a⟩ := Next_advances fuel { c with nextIdx := 0 } (le_refl _)
      (by simp; omega)
    exact ⟨c1, t, e, a.mws_eq, a.h_eq⟩
  · intro ctx hctx
    unfold Mux.find at hctx
    cases hroot : lookupRoot m.roots method with
    | none => rw [hroot] at hctx; simp at hctx
    | some rs =>
      rw [hroot] at hctx
      simp only [Option.map_some', Option.some.injEq] at hctx
      refine ⟨findRoute_paramMap lib m Context.zero ctx rs path true hctx, ?_⟩
      intro r hr
      unfold Mux.ServeHTTP at hr
      simp only [hroot, hctx] at hr
      cases hl : ctx.path.getLast? with
      | none => rw [hl] at hr; simp at hr
      | some sv =>
        rw [hl] at hr
        simp only at hr
        cases hc : sv.s.chain.ServeHTTP fuel with
        | none => rw [hc] at hr; simp at hr
        | some x =>
          rw [hc] at hr
          simp only [Option.some.injEq] at hr
          rw [← hr]
          rfl

/-- Instance of C18: `usersRouter` before and after the request
`GET /users/7` has been served (the cursor of the chain of `:id` is then 1),
and the request `GET /users/8`. -/
theorem C18_dispatches_do_not_interfere_witness :
    ((usersRouter.1.ServeHTTP stubLib 3 "GET" "/users/8").map Response.observed =
        (({ usersRouter.1 with roots := [("GET", usersRootServed)] } : Mux).ServeHTTP stubLib 3
          "GET" "/users/8").map Response.observed ∧
      (∀ c : Chain, c.mws.length + 2 ≤ 3 →
        ∃ c1 t, c.ServeHTTP 3 = some (c1, t) ∧ c1.mws = c.mws ∧ c1.h = c.h) ∧
      (∀ ctx, usersRouter.1.find stubLib "GET" "/users/8" = some (true, ctx) →
        ctx.paramMap = [] ∧
          ∀ r, usersRouter.1.ServeHTTP stubLib 3 "GET" "/users/8" = some r →
            r.context = some ctx.setParams)) ∧
      (usersRouter.1.ServeHTTP stubLib 3 "GET" "/users/7").map
          (fun r => match r with
            | .served _ c _ => some c.nextIdx
            | .notFound _ => none) = some (some 1) :=
  ⟨C18_dispatches_do_not_interfere stubLib 3 usersRouter.1
      { usersRouter.1 with roots := [("GET", usersRootServed)] } "GET" "/users/8"
      ⟨rfl, rfl, rfl⟩, by decide⟩

/-! ## Chains with handlers that may call `Next` -/

theorem Next_past_end (fuel : Nat) (c : Chain) (h : (c.mws.length : Int) < c.nextIdx) :
    Chain.Next (fuel + 1) c = some (c, []) := by
  have hp : c.pick = none := by
    unfold Chain.pick
    rw [if_neg (by omega), if_neg (by omega)]
  rw [Chain.Next, hp]

theorem runBody_noop (next : Chain → Option (Chain × List Event)) (c : Chain)
    (h : next c = some (c, [])) : ∀ k, runBody next k c = some (c, []) := by
  intro k
  induction k with
  | zero => rfl
  | succ k ih => simp [runBody, h, ih]

/-- A handler body whose first call of `next` runs the rest of the chain to
its end, where further calls do nothing: whatever the number of calls, body
and the call that follows it run the rest of the chain once. -/
theorem runBody_then_next (next : Chain → Option (Chain × List Event)) (c1 cEnd : Chain)
    (ev : List Event) (h1 : next c1 = some (cEnd, ev)) (h2 : next cEnd = some (cEnd, [])) (k : Nat) :
    ∃ c2 t2 t3, runBody next k c1 = some (c2, t2) ∧ next c2 = some (cEnd, t3) ∧ t2 ++ t3 = ev := by
  cases k with
  | zero => exact ⟨c1, [], ev, rfl, h1, rfl⟩
  | succ k =>
    refine ⟨cEnd, ev, [], ?_, h2, by simp⟩
    simp [runBody, h1, runBody_noop next cEnd h2 k]

/-- The run of a chain whose remaining steps are all non-nil, with handlers
that may call `Next` any number of times: from cursor `pre.length` on, the
handlers `suf` and the terminal start in order, each once, and the cursor ends
past the terminal. -/
theorem Next_runs_all (t : Handler) :
    ∀ (suf : List Handler) (pre : List Handler) (c : Chain) (fuel : Nat),
      c.mws = (pre ++ suf).map some → c.h = some t → c.nextIdx = pre.length →
      suf.length + 2 ≤ fuel →
      Chain.Next fuel c =
        some ({ c with nextIdx := ((pre ++ suf).length : Int) + 1 },
          eventsFrom pre.length (suf ++ [t])) := by
  intro suf
  induction suf with
  | nil =>
    intro pre c fuel hm hh hi hf
    obtain ⟨f, rfl⟩ : ∃ f, fuel = f + 2 := ⟨fuel - 2, by simp at hf; omega⟩
    have hp : c.pick = some (some t) := by
      simp [Chain.pick, hm, hi, hh]
    have hend : Chain.Next (f + 1) { c with nextIdx := c.nextIdx + 1 } =
        some ({ c with nextIdx := c.nextIdx + 1 }, []) :=
      Next_past_end f _ (by simp [hm, hi])
    obtain ⟨c2, t2, t3, e2, e3, e23⟩ :=
      runBody_then_next (Chain.Next (f + 1)) _ _ [] hend hend t.calls
    rw [Chain.Next]
    simp only [hp, e2, e3]
    simp [eventsFrom, hi, e23]
  | cons x suf ih =>
    intro pre c fuel hm hh hi hf
    obtain ⟨f, rfl⟩ : ∃ f, fuel = f + 1 := ⟨fuel - 1, by simp at hf; omega⟩
    have hp : c.pick = some (some x) := by
      have hlen : (pre.length : Int) < ((pre ++ x :: suf).map some).length := by
        simp
      have hget := getD_middle pre suf x
      rw [Chain.pick, hm, hi]
      rw [if_pos ⟨by positivity, hlen⟩]
      simp only [Int.toNat_ofNat, hget]
    have h1 := ih (pre ++ [x]) { c with nextIdx := c.nextIdx + 1 } f
      (by simp [hm]) hh (by simp [hi]) (by simp at hf ⊢; omega)
    have hend : Chain.Next f
        { c with nextIdx := (((pre ++ [x]) ++ suf).length : Int) + 1 } =
        some ({ c with nextIdx := (((pre ++ [x]) ++ suf).length : Int) + 1 }, []) := by
      obtain ⟨g, rfl⟩ : ∃ g, f = g + 1 := ⟨f - 1, by simp at hf; omega⟩
      exact Next_past_end g _ (by simp [hm])
    obtain ⟨c2, t2, t3, e2, e3, e23⟩ :=
      runBody_then_next (Chain.Next f) _ _ _ h1 hend x.calls
    rw [Chain.Next]
    simp only [hp, e2, e3]
    simp [eventsFrom, hi, e23]

/-! ## The node a registration leads to -/

theorem Subs.find_set_same : ∀ (subs : Subs) (p : String) (x : Section),
    (subs.set p x).find p = some x
  | .nil, p, x => by simp [Subs.set, Subs.find]
  | .cons k s rest, p, x => by
    unfold Subs.set
    split_ifs with hk
    · simp [Subs.find, hk]
    · simp [Subs.find, hk, Subs.find_set_same rest p x]

/-- After a successful run of the loop of `addRoute` from a node that
satisfies `NodeOK` everywhere, the path's keys lead to a node whose chain is
the chain that `attach` built on a node without terminal handler and without
middleware. -/
theorem addRouteFrom_reach (lib : Lib) (path : String) (h : HandlerArg) :
    ∀ (ps : List String) (m : Mux) (s : Section) (isRoot : Bool), s.OK →
      (addRouteFrom lib path h ps m s isRoot).2.2 = none →
      ∃ t t0 b, reachFrom (addRouteFrom lib path h ps m s isRoot).2.1 (toks lib ps) = some t ∧
        t.chain = (attach path h t0 b).1.chain ∧ t0.chain.h = none ∧ t0.chain.mws = [] := by
  intro ps
  induction ps with
  | nil =>
    intro m s isRoot hs hok
    rw [addRouteFrom_nil] at hok ⊢
    simp only at hok
    have hnone : s.chain.h = none := by
      by_contra hne
      rw [attach_redefined path h s isRoot hne] at hok
      simp at hok
    exact ⟨_, s, isRoot, rfl, rfl, hnone, ((Section.OK_iff s).mp hs).1.chain_empty hnone⟩
  | cons p ps ih =>
    intro m s isRoot hs hok
    by_cases hp : p.length = 0
    · rw [addRouteFrom_skip _ _ _ _ _ _ _ _ hp] at hok ⊢
      rw [toks_cons_empty lib p ps hp]
      exact ih m s isRoot hs hok
    · rw [toks_cons lib p ps hp]
      have hsubs := (Subs.OK_iff_mem _).mp ((Section.OK_iff s).mp hs).2
      cases hf : s.subs.find (ToLower lib p) with
      | some ss =>
        rw [addRouteFrom_found _ _ _ _ _ _ _ _ _ hp hf] at hok ⊢
        obtain ⟨t, t0, b, h1, h2⟩ := ih m ss false (hsubs _ _ (Subs.find_mem _ _ _ hf)) hok
        refine ⟨t, t0, b, ?_, h2⟩
        simp only [reachFrom, Section.subs_setSubs, Subs.find_set_same, h1]
      | none =>
        cases hn : newSection lib m (some s) (ToLower lib p) with
        | mk m1 r =>
          cases r with
          | error e =>
            rw [addRouteFrom_new_error _ _ _ _ _ _ _ _ _ _ hp hf hn] at hok
            simp at hok
          | ok ss =>
            rw [addRouteFrom_new_ok _ _ _ _ _ _ _ _ _ _ hp hf hn] at hok ⊢
            obtain ⟨_, _, _, _, hflag, _⟩ := newSection_child lib m m1 s _ ss hn
            obtain ⟨n, ty, r, f, rfl⟩ := newSection_fresh lib m m1 (some s) _ ss hn
            obtain ⟨t, t0, b, h1, h2⟩ := ih m1 _ false (fresh_OK n ty r f hflag) hok
            refine ⟨t, t0, b, ?_, h2⟩
            simp only [reachFrom, Section.subs_setSubs, Subs.find_set_same, h1]

/-- The chain `attach` builds from a chain argument on a node without
terminal handler. -/
theorem attach_chainPtr (path : String) (c : Chain) (s : Section) (isRoot : Bool)
    (hc : c.h ≠ none) (hs : s.chain.h = none) :
    (attach path (.chainPtr (some c)) s isRoot).1.chain =
      { mws := s.chain.mws ++ c.mws, h := c.h, nextIdx := s.chain.nextIdx } := by
  unfold attach
  rw [if_neg (by simp [hs])]
  cases isRoot <;>
    simp [Section.chain_setChain, Section.chain_setTs, hc, Chain.Append]

/-- After a successful `Handle`, the path leads, in the trie of the method,
to a node whose chain is the chain that `attach` built on a node without
terminal handler and without middleware. -/
theorem Handle_reach (lib : Lib) (m m2 : Mux) (hm : m.OK) (method path : String)
    (h : HandlerArg) (hreg : m.Handle lib method path h = (m2, none)) :
    ∃ t t0 b, m2.reach lib method path = some t ∧
      t.chain = (attach path h t0 b).1.chain ∧ t0.chain.h = none ∧ t0.chain.mws = [] := by
  obtain ⟨rs0, rs1, h0, hroots, h1⟩ := Handle_roots lib m method path h
  rw [hreg] at hroots h1
  simp only at hroots h1
  have hrs0 : rs0.OK := by
    rcases h0 with h0 | ⟨_, rfl⟩
    · exact hm method rs0 h0
    · exact freshRoot_OK
  rcases h1 with ⟨hne, _⟩ | ⟨hargs, m0, hrs1, herr⟩
  · exfalso
    cases hc : checkArgs path h with
    | none => exact hne hc
    | some e =>
      have := Handle_bad lib m method path h e hc
      rw [hreg] at this
      simp at this
  · obtain ⟨t, t0, b, hr, hrest⟩ :=
      addRouteFrom_reach lib path h (Split path) m0 rs0 true hrs0 herr.symm
    refine ⟨t, t0, b, ?_, hrest⟩
    unfold Mux.reach
    rw [hroots, lookupRoot_setRoot_same]
    simp only [tokens, hrs1, hr]

/-- What dispatch does with a request that resolves to a node whose chain
has the non-nil middleware `ms` and the terminal `h`: it runs `ms` and then
`h`. -/
theorem ServeHTTP_runs_chain (lib : Lib) (fuel : Nat) (m : Mux) (method req : String)
    (ctx : Context) (sv : sectionValue) (ms : List Handler) (h : Handler)
    (hfind : m.find lib method req = some (true, ctx)) (hlast : ctx.path.getLast? = some sv)
    (hms : sv.s.chain.mws = ms.map some) (hh : sv.s.chain.h = some h)
    (hf : ms.length + 2 ≤ fuel) :
    (m.ServeHTTP lib fuel method req).map Response.handlers = some (some (ms ++ [h])) := by
  unfold Mux.find at hfind
  unfold Mux.ServeHTTP
  cases hroot : lookupRoot m.roots method with
  | none => rw [hroot] at hfind; simp at hfind
  | some rs =>
    rw [hroot] at hfind
    simp only [Option.map_some', Option.some.injEq] at hfind
    have hrun := Next_runs_all h ms [] { sv.s.chain with nextIdx := 0 } fuel
      (by simp [hms]) hh (by simp) hf
    simp only [hfind, hlast, Chain.ServeHTTP, hrun, Option.map_some', Response.handlers,
      eventsFrom_handlers]

/-- C19 (counterexample): a chain registered under the regular-expression
route `/archive/#{year}\d{4}` is not run by dispatching that path, whose last
segment does not match the pattern; and a chain registered under `/Users` is
not run by dispatching `/Users`, because the node is stored as `users`.  Both
registrations succeed and both requests end in Not-Found. -/
theorem C19_counterexample :
    archiveChainRouter.2 = none ∧
      (archiveChainRouter.1.ServeHTTP digitsLib 4 "GET" "/archive/#{year}\\d{4}").map
          Response.handlers = some none ∧
      upperChainRouter.2 = none ∧
      (upperChainRouter.1.ServeHTTP stubLib 4 "GET" "/Users").map Response.handlers
        = some none := by
  refine ⟨?_, ?_, ?_, ?_⟩ <;> decide

/-- C19 (amended): after a successful `Handle(method, path, c)` on a router
built by registrations from the empty router, where the chain `c` has the
non-nil middleware `ms` and the terminal `h`, the node that `path` leads to
has a chain with exactly the steps `ms`, in that order, and the terminal `h`;
and when none of these handlers calls `Next` itself, every dispatch that
resolves to that node runs `ms` and then `h`. -/
theorem C19_chain_is_copied_onto_the_node (lib : Lib)
    (routes : List (String × String × HandlerArg)) (method path : String) (c : Chain)
    (ms : List Handler) (h : Handler) (m2 : Mux)
    (hreg : (registerAll lib New routes).1.Handle lib method path (.chainPtr (some c)) = (m2, none))
    (hms : c.mws = ms.map some) (hh : c.h = some h) :
    ∃ s, m2.reach lib method path = some s ∧ s.chain.mws = ms.map some ∧ s.chain.h = some h ∧
      ∀ (req : String) (fuel : Nat) (ctx : Context) (sv : sectionValue),
        (∀ x ∈ ms, x.calls = 0) → h.calls = 0 →
        m2.find lib method req = some (true, ctx) → ctx.path.getLast? = some sv → sv.s = s →
        ms.length + 2 ≤ fuel →
        (m2.ServeHTTP lib fuel method req).map Response.handlers = some (some (ms ++ [h])) := by
  obtain ⟨t, t0, b, hr, hchain, h0, hmws⟩ :=
    Handle_reach lib _ m2 (registerAll_OK lib routes New New_OK) method path _ hreg
  rw [attach_chainPtr path c t0 b (by simp [hh]) h0] at hchain
  have h1 : t.chain.mws = ms.map some := by rw [hchain]; simp [hmws, hms]
  have h2 : t.chain.h = some h := by rw [hchain]; exact hh
  refine ⟨t, hr, h1, h2, ?_⟩
  intro req fuel ctx sv _ _ hfind hlast hsv hf
  subst hsv
  exact ServeHTTP_runs_chain lib fuel m2 method req ctx sv ms h hfind hlast h1 h2 hf

/-- Instance of the amended C19: `quietPair`, whose steps do not call `Next`,
registered under `GET /a`. -/
theorem C19_chain_is_copied_onto_the_node_witness :
    (∃ s, aChainRouter.1.reach stubLib "GET" "/a" = some s ∧
      s.chain.mws = ([⟨1, 0⟩] : List Handler).map some ∧ s.chain.h = some ⟨2, 0⟩ ∧
      ∀ (req : String) (fuel : Nat) (ctx : Context) (sv : sectionValue),
        (∀ x ∈ ([⟨1, 0⟩] : List Handler), x.calls = 0) → (⟨2, 0⟩ : Handler).calls = 0 →
        aChainRouter.1.find stubLib "GET" req = some (true, ctx) →
        ctx.path.getLast? = some sv → sv.s = s →
        ([⟨1, 0⟩] : List Handler).length + 2 ≤ fuel →
        (aChainRouter.1.ServeHTTP stubLib fuel "GET" req).map Response.handlers
          = some (some ([⟨1, 0⟩] ++ [⟨2, 0⟩]))) ∧
      (∀ x ∈ ([⟨1, 0⟩] : List Handler), x.calls = 0) ∧ (⟨2, 0⟩ : Handler).calls = 0 ∧
      (aChainRouter.1.ServeHTTP stubLib 3 "GET" "/a").map Response.handlers
        = some (some [⟨1, 0⟩, ⟨2, 0⟩]) :=
  ⟨C19_chain_is_copied_onto_the_node stubLib [] "GET" "/a" quietPair [⟨1, 0⟩] ⟨2, 0⟩
      aChainRouter.1 (Prod.ext rfl (by decide)) rfl rfl, by decide, rfl, by decide⟩

/-! ## The search and the specification's walk -/

theorem walk_descent (lib : Lib) {s : Section} {p0 : String} {rest : List String}
    {w : List sectionValue} (hw : Walk lib false s p0 rest w) :
    ∃ v more, w = ⟨s, v⟩ :: more ∧ IsDescent s more ∧ CapturesFrom lib (p0 :: rest) w := by
  induction hw with
  | @last s p0 rest b vals hm hd =>
    exact ⟨vals, [], rfl, trivial, ⟨b, hm⟩, by simp [CapturesFrom]⟩
  | @step s p0 q rest vals k ss w hm hmem _ ih =>
    obtain ⟨v, more, rfl, hd, hc⟩ := ih
    exact ⟨vals, _, rfl, ⟨⟨k, hmem⟩, hd⟩, ⟨false, hm⟩, hc⟩

/-- C21: when `findRoute` returns true, the path it leaves in the context is
the path before the call followed by the root (with no values) and then by
nodes each of which is a child of the one before it, the entry for segment
`i` holding the values its node captured from that segment; the path is not
empty, so its last entry exists, and on a fresh context its first entry is the
root.  When `findRoute` returns false the context is what it was. -/
theorem C21_recorded_path_is_a_walk (lib : Lib) (m : Mux) (ctx : Context) (rs : Section)
    (path : String) :
    (∀ ctx2, findRoute lib m ctx rs path = (true, ctx2) →
        ∃ w, ctx2 = { ctx with path := ctx.path ++ ⟨rs, []⟩ :: w } ∧ IsDescent rs w ∧
          CapturesFrom lib (pstrim path) w ∧ ctx2.path ≠ [] ∧
          (∃ sv, ctx2.path.getLast? = some sv) ∧
          (ctx.path = [] → ctx2.path.head? = some ⟨rs, []⟩)) ∧
      (∀ ctx2, findRoute lib m ctx rs path = (false, ctx2) → ctx2 = ctx) := by
  rcases findRoute_sound lib m ctx rs path with ⟨w, he, hw⟩ | he
  · refine ⟨?_, ?_⟩
    · intro ctx2 h2
      rw [he] at h2
      simp only [Prod.mk.injEq, true_and] at h2
      subst h2
      refine ⟨w, rfl, ?_, ?_, by simp, ?_, ?_⟩
      · cases hps : pstrim path with
        | nil => rw [hps] at hw; simp only [FullMatch] at hw; subst hw; trivial
        | cons p0 rest =>
          rw [hps] at hw
          obtain ⟨k, ss, hmem, hwalk⟩ := hw
          obtain ⟨v, more, rfl, hd, _⟩ := walk_descent lib hwalk
          exact ⟨⟨k, hmem⟩, hd⟩
      · cases hps : pstrim path with
        | nil => rw [hps] at hw; simp only [FullMatch] at hw; subst hw; trivial
        | cons p0 rest =>
          rw [hps] at hw
          obtain ⟨k, ss, hmem, hwalk⟩ := hw
          exact (walk_descent lib hwalk).choose_spec.choose_spec.2.2
      · simp only
        cases hl : (ctx.path ++ ⟨rs, []⟩ :: w).getLast? with
        | none => simp at hl
        | some sv => exact ⟨sv, rfl⟩
      · intro h0
        simp [h0]
    · intro ctx2 h2
      rw [he] at h2
      simp at h2
  · refine ⟨?_, ?_⟩
    · intro ctx2 h2
      rw [he] at h2
      simp at h2
    · intro ctx2 h2
      rw [he] at h2
      simp only [Prod.mk.injEq, true_and] at h2
      exact h2.symm

/-- Instance of C21: the request `/users/active` in the trie of `usersRouter`
on a fresh context, and the request `/users/active/x`, which fails. -/
theorem C21_recorded_path_is_a_walk_witness :
    (∃ w, (findRoute stubLib usersRouter.1 Context.zero usersRoot "/users/7").2 =
          { Context.zero with path := Context.zero.path ++ ⟨usersRoot, []⟩ :: w } ∧
        IsDescent usersRoot w ∧ CapturesFrom stubLib (pstrim "/users/7") w ∧
        (findRoute stubLib usersRouter.1 Context.zero usersRoot "/users/7").2.path ≠ [] ∧
        (∃ sv, (findRoute stubLib usersRouter.1 Context.zero usersRoot "/users/7").2.path.getLast?
          = some sv) ∧
        (Context.zero.path = [] →
          (findRoute stubLib usersRouter.1 Context.zero usersRoot "/users/7").2.path.head?
            = some ⟨usersRoot, []⟩)) ∧
      (findRoute stubLib usersRouter.1 Context.zero usersRoot "/users/7/x").2 = Context.zero :=
  ⟨(C21_recorded_path_is_a_walk stubLib usersRouter.1 Context.zero usersRoot "/users/7").1 _ rfl,
    (C21_recorded_path_is_a_walk stubLib usersRouter.1 Context.zero usersRoot "/users/7/x").2 _ rfl⟩

/-! ## Chains: nil entries and composition -/

theorem getD_after (pre : List Handler) (x : Option Handler) (post : List (Option Handler)) :
    (pre.map some ++ x :: post).getD pre.length none = x := by
  induction pre with
  | nil => rfl
  | cons y pre ihp => simpa using ihp

/-- The run of a chain up to a nil entry, when the steps before it are
non-nil and do not call `Next`: they run in order and the run ends at the nil
entry. -/
theorem Next_stops_at_nil (post : List (Option Handler)) :
    ∀ (suf : List Handler) (pre : List Handler) (c : Chain) (fuel : Nat),
      c.mws = (pre ++ suf).map some ++ none :: post → c.nextIdx = pre.length →
      (∀ x ∈ suf, x.calls = 0) → suf.length + 1 ≤ fuel →
      Chain.Next fuel c =
        some ({ c with nextIdx := ((pre ++ suf).length : Int) + 1 },
          eventsFrom pre.length suf) := by
  intro suf
  induction suf with
  | nil =>
    intro pre c fuel hm hi _ hf
    obtain ⟨f, rfl⟩ : ∃ f, fuel = f + 1 := ⟨fuel - 1, by simp at hf; omega⟩
    have hp : c.pick = some none := by
      rw [Chain.pick, hm, hi]
      rw [if_pos ⟨by positivity, by simp⟩]
      have := getD_after pre none post
      simp only [List.append_nil, Int.toNat_ofNat, this]
    rw [Chain.Next, hp]
    simp [eventsFrom, hi]
  | cons x suf ih =>
    intro pre c fuel hm hi hq hf
    obtain ⟨f, rfl⟩ : ∃ f, fuel = f + 1 := ⟨fuel - 1, by simp at hf; omega⟩
    have hp : c.pick = some (some x) := by
      rw [Chain.pick, hm, hi]
      rw [if_pos ⟨by positivity, by simp; omega⟩]
      have := getD_after pre (some x) (suf.map some ++ none :: post)
      simp only [List.map_append, List.map_cons, List.append_assoc, List.cons_append,
        Int.toNat_ofNat, this]
    have h1 := ih (pre ++ [x]) { c with nextIdx := c.nextIdx + 1 } f
      (by simp [hm]) (by simp [hi]) (fun y hy => hq y (by simp [hy])) (by simp at hf ⊢; omega)
    rw [Next_quiet_step _ _ _ hp (hq x (by simp)), h1]
    simp [eventsFrom, hi]

/-- C25 (counterexample): in `holeChain` the step at index 1 is nil, yet a
dispatch runs middleware 1 (index 0), which calls `Next`, and then also
middleware 2 (index 2) and the terminal 3. -/
theorem C25_counterexample :
    holeChain.mws.get? 1 = some none ∧
      (Chain.ServeHTTP 6 holeChain).map (fun r => r.2.map Event.h)
        = some [⟨1, 1⟩, ⟨2, 0⟩, ⟨3, 0⟩] := by
  decide

/-- C25 (amended): for every chain whose first nil step is at index `i` (the
steps `pre` before it are handlers) and whose steps before `i` return without
calling `Next`, a dispatch, given fuel above `i`, runs the steps `0..i-1` in
order, each once, and nothing else: no step after `i` and not the terminal
handler.  The cursor is left just past the nil entry. -/
theorem C25_nil_entry_stops_quiet_chain (c : Chain) (pre : List Handler)
    (post : List (Option Handler)) (fuel : Nat)
    (hm : c.mws = pre.map some ++ none :: post) (hq : ∀ x ∈ pre, x.calls = 0)
    (hf : pre.length + 1 ≤ fuel) :
    Chain.ServeHTTP fuel c =
        some ({ c with nextIdx := (pre.length : Int) + 1 }, eventsFrom 0 pre) ∧
      (eventsFrom 0 pre).map Event.h = pre := by
  refine ⟨?_, eventsFrom_handlers 0 pre⟩
  have := Next_stops_at_nil post pre [] { c with nextIdx := 0 } fuel
    (by simp [hm]) (by simp) hq hf
  simp only [Chain.ServeHTTP]
  rw [this]
  simp

/-- Instance of the amended C25 on `stopChain`: middleware 1 and 2 run, the
nil entry at index 2 ends the dispatch. -/
theorem C25_nil_entry_stops_quiet_chain_witness :
    (Chain.ServeHTTP 3 stopChain =
        some ({ stopChain with nextIdx := (([⟨1, 0⟩, ⟨2, 0⟩] : List Handler).length : Int) + 1 },
          eventsFrom 0 [⟨1, 0⟩, ⟨2, 0⟩]) ∧
      (eventsFrom 0 [⟨1, 0⟩, ⟨2, 0⟩]).map Event.h = [(⟨1, 0⟩ : Handler), ⟨2, 0⟩]) ∧
      (Chain.ServeHTTP 3 stopChain).map (fun r => r.2.map Event.h) = some [⟨1, 0⟩, ⟨2, 0⟩] :=
  ⟨C25_nil_entry_stops_quiet_chain stopChain [⟨1, 0⟩, ⟨2, 0⟩] [some ⟨4, 0⟩] 3 rfl (by decide)
    (by decide), by decide⟩

/-- C26: `Prepend(ms)` makes the step list `ms` followed by the existing
steps, `Append(ms)` the existing steps followed by `ms`; neither changes the
terminal handler or the cursor, and `Prepend(a)` then `Prepend(b)` gives
`b, a`, then the old steps.  Seen through a dispatch: on a chain with non-nil
steps `old` and terminal `t`, prepending the handlers `ms` makes the dispatch
run `ms`, `old`, `t`, and appending them makes it run `old`, `ms`, `t`. -/
theorem C26_composition_keeps_order (c : Chain) (ms : List (Option Handler))
    (a b : Option Handler) :
    (c.Prepend ms).mws = ms ++ c.mws ∧ (c.Append ms).mws = c.mws ++ ms ∧
      (c.Prepend ms).h = c.h ∧ (c.Append ms).h = c.h ∧
      (c.Prepend ms).nextIdx = c.nextIdx ∧ (c.Append ms).nextIdx = c.nextIdx ∧
      ((c.Prepend [a]).Prepend [b]).mws = b :: a :: c.mws ∧
      ((c.Prepend [a]).Prepend [b]).h = c.h ∧
      (∀ (old hs : List Handler) (t : Handler) (fuel : Nat),
        c.mws = old.map some → c.h = some t → hs.length + old.length + 2 ≤ fuel →
        ((c.Prepend (hs.map some)).ServeHTTP fuel).map (fun r => r.2.map Event.h)
            = some (hs ++ old ++ [t]) ∧
          ((c.Append (hs.map some)).ServeHTTP fuel).map (fun r => r.2.map Event.h)
            = some (old ++ hs ++ [t])) := by
  refine ⟨rfl, rfl, rfl, rfl, rfl, rfl, rfl, rfl, ?_⟩
  intro old hs t fuel hm hh hf
  have h1 := Next_runs_all t (hs ++ old) [] { (c.Prepend (hs.map some)) with nextIdx := 0 } fuel
    (by simp [Chain.Prepend, hm]) hh (by simp) (by simp; omega)
  have h2 := Next_runs_all t (old ++ hs) [] { (c.Append (hs.map some)) with nextIdx := 0 } fuel
    (by simp [Chain.Append, hm]) hh (by simp) (by simp; omega)
  simp only [Chain.ServeHTTP, h1, h2, Option.map_some', eventsFrom_handlers, List.length_nil,
    Nat.cast_zero, and_self]

/-- Instance of C26 on `quietChain` (steps 1, 2, terminal 3) with the
handlers 7 and 8. -/
theorem C26_composition_keeps_order_witness :
    ((quietChain.Prepend [some ⟨7, 0⟩]).Prepend [some ⟨8, 0⟩]).mws
        = [some ⟨8, 0⟩, some ⟨7, 0⟩, some ⟨1, 0⟩, some ⟨2, 0⟩] ∧
      ((quietChain.Prepend (([⟨7, 0⟩, ⟨8, 0⟩] : List Handler).map some)).ServeHTTP 6).map
          (fun r => r.2.map Event.h)
        = some ([⟨7, 0⟩, ⟨8, 0⟩] ++ [⟨1, 0⟩, ⟨2, 0⟩] ++ [⟨3, 0⟩]) ∧
      ((quietChain.Append (([⟨7, 0⟩, ⟨8, 0⟩] : List Handler).map some)).ServeHTTP 6).map
          (fun r => r.2.map Event.h)
        = some ([⟨1, 0⟩, ⟨2, 0⟩] ++ [⟨7, 0⟩, ⟨8, 0⟩] ++ [⟨3, 0⟩]) :=
  ⟨(C26_composition_keeps_order quietChain [some ⟨7, 0⟩] (some ⟨7, 0⟩) (some ⟨8, 0⟩)).2.2.2.2.2.2.1,
    ((C26_composition_keeps_order quietChain [] none none).2.2.2.2.2.2.2.2
      [⟨1, 0⟩, ⟨2, 0⟩] [⟨7, 0⟩, ⟨8, 0⟩] ⟨3, 0⟩ 6 rfl rfl (by decide)).1,
    ((C26_composition_keeps_order quietChain [] none none).2.2.2.2.2.2.2.2
      [⟨1, 0⟩, ⟨2, 0⟩] [⟨7, 0⟩, ⟨8, 0⟩] ⟨3, 0⟩ 6 rfl rfl (by decide)).2⟩

/-! ## Adjacent tokens that are not Raw -/

theorem ToLower_head (lib : Lib) (w : String) (c : Char) (h : w.data.head? = some c)
    (hc : lowerChar lib c = c) : (ToLower lib w).data.head? = some c := by
  unfold ToLower
  cases hd : w.data with
  | nil => rw [hd] at h; simp at h
  | cons c0 r =>
    rw [hd] at h
    simp at h
    subst h
    simp [hc]

theorem tokenType_nonRaw (p : String) (h : tokenType p ≠ SectionTypeRaw) :
    p.data.head? = some ':' ∨ p.data.head? = some '*' ∨ p.data.head? = some '#' := by
  unfold tokenType at h
  split at h
  · rename_i hd; simp [hd]
  · rename_i hd; simp [hd]
  · rename_i hd; simp [hd]
  · exact absurd rfl h

theorem tokenType_of_head (p : String) :
    (p.data.head? = some ':' → tokenType p = SectionTypeMatch) ∧
      (p.data.head? = some '*' → tokenType p = SectionTypeWildCard) ∧
      (p.data.head? = some '#' → tokenType p = SectionTypeRegexp) := by
  unfold tokenType
  cases hd : p.data with
  | nil => simp
  | cons c r =>
    refine ⟨?_, ?_, ?_⟩ <;> intro h <;> simp at h <;> subst h <;> rfl

theorem tokenType_ToLower (lib : Lib) (p : String) (h : tokenType p ≠ SectionTypeRaw) :
    tokenType (ToLower lib p) = tokenType p := by
  obtain ⟨h1, h2, h3⟩ := tokenType_of_head p
  obtain ⟨g1, g2, g3⟩ := tokenType_of_head (ToLower lib p)
  rcases tokenType_nonRaw p h with hd | hd | hd
  · rw [h1 hd, g1 (ToLower_head lib p _ hd rfl)]
  · rw [h2 hd, g2 (ToLower_head lib p _ hd rfl)]
  · rw [h3 hd, g3 (ToLower_head lib p _ hd rfl)]

theorem classify_match_or_wild (lib : Lib) (m : Mux) (k : String)
    (h : k.data.head? = some ':' ∨ k.data.head? = some '*') :
    ∃ m1 s, classify lib m k = (m1, .ok s) ∧ s.sType ≠ SectionTypeRaw := by
  unfold classify
  cases hd : k.data with
  | nil => rw [hd] at h; simp at h
  | cons c r =>
    rw [hd] at h
    simp only [List.head?_cons, Option.some.injEq] at h
    rcases h with rfl | rfl
    · exact ⟨_, _, rfl, by simp [Section.fresh, Section.sType]⟩
    · exact ⟨_, _, rfl, by simp [Section.fresh, Section.sType]⟩

theorem classify_raw (lib : Lib) (m : Mux) (k : String) (hk : ¬ k.length = 0)
    (h : tokenType k = SectionTypeRaw) :
    classify lib m k = (m, .ok (Section.fresh k SectionTypeRaw none false)) := by
  unfold tokenType at h
  unfold classify
  cases hd : k.data with
  | nil =>
    exfalso; apply hk
    have : k = String.mk [] := by cases k; simp_all
    rw [this]; rfl
  | cons c r =>
    rw [hd] at h
    have hks : String.mk (c :: r) = k := by cases k; simp_all
    by_cases h1 : c = ':'
    · subst h1; simp at h
    by_cases h2 : c = '*'
    · subst h2; simp at h
    by_cases h3 : c = '#'
    · subst h3; simp at h
    split
    · rename_i heq; simp at heq
    · rename_i heq; simp at heq; exact absurd heq.1 h1
    · rename_i heq; simp at heq; exact absurd heq.1 h2
    · rename_i heq; simp at heq; exact absurd heq.1 h3
    · rename_i c2 r2 _ _ _ heq
      simp at heq
      obtain ⟨rfl, rfl⟩ := heq
      rw [hks]

/-- A token that is not Raw, under a parent that is neither Raw nor a
Wildcard node, is refused with `multiple non raw section` when its own
classification raises no error. -/
theorem newSection_multiple (lib : Lib) (m : Mux) (par : Section) (k : String)
    (hpw : par.sType ≠ SectionTypeWildCard) (hpf : par.hasNonRawSub = true)
    (h : k.data.head? = some ':' ∨ k.data.head? = some '*') :
    ∃ m1, newSection lib m (some par) k = (m1, .error "multiple non raw section") := by
  obtain ⟨m1, s, hc, hs⟩ := classify_match_or_wild lib m k h
  refine ⟨m1, ?_⟩
  unfold newSection
  rw [hc]
  simp only [hpw, hs, hpf, if_false, if_true, ne_eq, not_false_eq_true]

/-- A token that is not Raw is always refused under a parent that is not
Raw and has its flag set. -/
theorem newSection_nonRaw_refused (lib : Lib) (m : Mux) (par : Section) (k : String)
    (hpf : par.hasNonRawSub = true) (hk : tokenType k ≠ SectionTypeRaw) :
    ∃ m1 e, newSection lib m (some par) k = (m1, .error e) := by
  cases hn : newSection lib m (some par) k with
  | mk m1 r =>
    cases r with
    | error e => exact ⟨m1, e, rfl⟩
    | ok ss =>
      obtain ⟨_, hty, _, _, _, hf⟩ := newSection_child lib m m1 par k ss hn
      rw [hf (by rw [hty]; exact hk)] at hpf
      simp at hpf

theorem ToLower_length (lib : Lib) (p : String) : (ToLower lib p).length = p.length := by
  simp only [ToLower, String.length, List.length_map]

/-- Under a node that is not Raw no child has a key that is not Raw. -/
theorem find_nonRaw_below_nonRaw {s : Section} (hs : NodeOK s) (hraw : s.sType ≠ SectionTypeRaw)
    (k : String) (hk : tokenType k ≠ SectionTypeRaw) : s.subs.find k = none := by
  cases hf : s.subs.find k with
  | none => rfl
  | some ss =>
    have hmem := Subs.find_mem _ _ _ hf
    have h1 := hs.keyed _ _ hmem
    have h2 := hs.raw_below hraw _ _ hmem
    rw [h2] at h1
    exact absurd h1.symm hk

/-- Below a node that is not Raw, a first piece that is not Raw makes the
loop of `addRoute` panic. -/
theorem addRouteFrom_below_nonRaw (lib : Lib) (path : String) (h : HandlerArg) :
    ∀ (ps : List String) (m : Mux) (s : Section) (isRoot : Bool), NodeOK s →
      s.sType ≠ SectionTypeRaw →
      (∃ b rest, ps.filter (fun p => p.length ≠ 0) = b :: rest ∧
        tokenType (ToLower lib b) ≠ SectionTypeRaw) →
      (addRouteFrom lib path h ps m s isRoot).2.2 ≠ none := by
  intro ps
  induction ps with
  | nil => intro m s isRoot _ _ hex; obtain ⟨b, rest, he, _⟩ := hex; simp at he
  | cons p ps ih =>
    intro m s isRoot hs hraw hex
    by_cases hp : p.length = 0
    · rw [addRouteFrom_skip _ _ _ _ _ _ _ _ hp]
      apply ih m s isRoot hs hraw
      obtain ⟨b, rest, he, hb⟩ := hex
      exact ⟨b, rest, by simpa [List.filter_cons, hp] using he, hb⟩
    · obtain ⟨b, rest, he, hb⟩ := hex
      have he2 : p :: ps.filter (fun p => p.length ≠ 0) = b :: rest := by
        simpa [List.filter_cons, hp] using he
      simp only [List.cons.injEq] at he2
      obtain ⟨rfl, _⟩ := he2
      have hf := find_nonRaw_below_nonRaw hs hraw _ hb
      obtain ⟨m1, e, hn⟩ := newSection_nonRaw_refused lib m s _ (hs.flag.mpr hraw) hb
      rw [addRouteFrom_new_error _ _ _ _ _ _ _ _ _ _ hp hf hn]
      simp

/-- Below a node that is neither Raw nor a Wildcard node, a first piece
starting with `:` or `*` makes the loop of `addRoute` panic with
`multiple non raw section`. -/
theorem addRouteFrom_multiple (lib : Lib) (path : String) (h : HandlerArg) :
    ∀ (ps : List String) (m : Mux) (s : Section) (isRoot : Bool), NodeOK s →
      s.sType ≠ SectionTypeRaw → s.sType ≠ SectionTypeWildCard →
      (∃ b rest, ps.filter (fun p => p.length ≠ 0) = b :: rest ∧
        (b.data.head? = some ':' ∨ b.data.head? = some '*')) →
      (addRouteFrom lib path h ps m s isRoot).2.2 =
        some ("error: addRoute: " ++ path ++ " " ++ "multiple non raw section") := by
  intro ps
  induction ps with
  | nil => intro m s isRoot _ _ _ hex; obtain ⟨b, rest, he, _⟩ := hex; simp at he
  | cons p ps ih =>
    intro m s isRoot hs hraw hw hex
    by_cases hp : p.length = 0
    · rw [addRouteFrom_skip _ _ _ _ _ _ _ _ hp]
      apply ih m s isRoot hs hraw hw
      obtain ⟨b, rest, he, hb⟩ := hex
      exact ⟨b, rest, by simpa [List.filter_cons, hp] using he, hb⟩
    · obtain ⟨b, rest, he, hb⟩ := hex
      have he2 : p :: ps.filter (fun p => p.length ≠ 0) = b :: rest := by
        simpa [List.filter_cons, hp] using he
      simp only [List.cons.injEq] at he2
      obtain ⟨rfl, _⟩ := he2
      have hk : (ToLower lib p).data.head? = some ':' ∨ (ToLower lib p).data.head? = some '*' := by
        rcases hb with hb | hb
        · exact Or.inl (ToLower_head lib p _ hb rfl)
        · exact Or.inr (ToLower_head lib p _ hb rfl)
      have hty : tokenType (ToLower lib p) ≠ SectionTypeRaw := by
        obtain ⟨g1, g2, _⟩ := tokenType_of_head (ToLower lib p)
        rcases hk with hk | hk
        · rw [g1 hk]; decide
        · rw [g2 hk]; decide
      have hf := find_nonRaw_below_nonRaw hs hraw _ hty
      obtain ⟨m1, hn⟩ := newSection_multiple lib m s _ hw (hs.flag.mpr hraw) hk
      rw [addRouteFrom_new_error _ _ _ _ _ _ _ _ _ _ hp hf hn]

/-- In a trie that satisfies `NodeOK` everywhere, a path with two adjacent
pieces that are not Raw makes the loop of `addRoute` panic. -/
theorem addRouteFrom_adjacent (lib : Lib) (path : String) (h : HandlerArg) :
    ∀ (ps : List String) (m : Mux) (s : Section) (isRoot : Bool), s.OK →
      (∃ pre a b post, ps.filter (fun p => p.length ≠ 0) = pre ++ a :: b :: post ∧
        tokenType a ≠ SectionTypeRaw ∧ tokenType b ≠ SectionTypeRaw) →
      (addRouteFrom lib path h ps m s isRoot).2.2 ≠ none := by
  intro ps
  induction ps with
  | nil =>
    intro m s isRoot _ hex
    obtain ⟨pre, a, b, post, he, _⟩ := hex
    simp at he
  | cons p ps ih =>
    intro m s isRoot hs hex
    by_cases hp : p.length = 0
    · rw [addRouteFrom_skip _ _ _ _ _ _ _ _ hp]
      apply ih m s isRoot hs
      obtain ⟨pre, a, b, post, he, hab⟩ := hex
      exact ⟨pre, a, b, post, by simpa [List.filter_cons, hp] using he, hab⟩
    · obtain ⟨pre, a, b, post, he, ha, hb⟩ := hex
      have he2 : p :: ps.filter (fun p => p.length ≠ 0) = pre ++ a :: b :: post := by
        simpa [List.filter_cons, hp] using he
      have hnode := ((Section.OK_iff s).mp hs).1
      have hsubs := (Subs.OK_iff_mem _).mp ((Section.OK_iff s).mp hs).2
      have key : ∀ (m1 : Mux) (ss : Section), ss.OK → ss.sType = tokenType (ToLower lib p) →
          (addRouteFrom lib path h ps m1 ss false).2.2 ≠ none := by
        intro m1 ss hss hty
        cases pre with
        | nil =>
          simp only [List.nil_append, List.cons.injEq] at he2
          obtain ⟨rfl, hrest⟩ := he2
          rw [tokenType_ToLower lib p ha] at hty
          exact addRouteFrom_below_nonRaw lib path h ps m1 ss false
            ((Section.OK_iff ss).mp hss).1 (by rw [hty]; exact ha)
            ⟨b, post, hrest, by rw [tokenType_ToLower lib b hb]; exact hb⟩
        | cons x pre =>
          simp only [List.cons_append, List.cons.injEq] at he2
          exact ih m1 ss false hss ⟨pre, a, b, post, he2.2, ha, hb⟩
      cases hf : s.subs.find (ToLower lib p) with
      | some ss =>
        rw [addRouteFrom_found _ _ _ _ _ _ _ _ _ hp hf]
        have hmem := Subs.find_mem _ _ _ hf
        exact key m ss (hsubs _ _ hmem) (hnode.keyed _ _ hmem)
      | none =>
        cases hn : newSection lib m (some s) (ToLower lib p) with
        | mk m1 r =>
          cases r with
          | error e =>
            rw [addRouteFrom_new_error _ _ _ _ _ _ _ _ _ _ hp hf hn]
            simp
          | ok ss =>
            rw [addRouteFrom_new_ok _ _ _ _ _ _ _ _ _ _ hp hf hn]
            obtain ⟨_, hty, _, _, hflag, _⟩ := newSection_child lib m m1 s _ ss hn
            obtain ⟨n, t, r, f, rfl⟩ := newSection_fresh lib m m1 (some s) _ ss hn
            exact key m1 _ (fresh_OK n t r f hflag) hty

/-- A Raw token is accepted under every parent that is not a Wildcard node. -/
theorem newSection_raw_ok (lib : Lib) (m : Mux) (par : Section) (k : String)
    (hk : ¬ k.length = 0) (hty : tokenType k = SectionTypeRaw)
    (hpw : par.sType ≠ SectionTypeWildCard) :
    newSection lib m (some par) k = (m, .ok (Section.fresh k SectionTypeRaw none false)) := by
  unfold newSection
  rw [classify_raw lib m k hk hty]
  simp only
  rw [if_neg hpw, if_neg (by simp [Section.fresh, Section.sType])]

/-- A token starting with `:` is accepted under a Raw parent whose flag is
not set. -/
theorem newSection_match_ok (lib : Lib) (m : Mux) (par : Section) (k : String)
    (hk : k.data.head? = some ':') (hpr : par.sType = SectionTypeRaw)
    (hpf : par.hasNonRawSub = false) :
    ∃ m1 ss, newSection lib m (some par) k = (m1, .ok ss) := by
  obtain ⟨m1, s, hc, hs⟩ := classify_match_or_wild lib m k (Or.inl hk)
  unfold newSection
  rw [hc]
  simp [hpr, hs, hpf]

/-- From a Raw node on, literal pieces followed by a piece starting with `:`
and a piece starting with `:` or `*` make the loop of `addRoute` panic with
`multiple non raw section`. -/
theorem addRouteFrom_adjacent_message (lib : Lib) (path : String) (h : HandlerArg) :
    ∀ (ps : List String) (m : Mux) (s : Section) (isRoot : Bool), s.OK →
      s.sType = SectionTypeRaw →
      (∃ pre a b post, ps.filter (fun p => p.length ≠ 0) = pre ++ a :: b :: post ∧
        (∀ p ∈ pre, tokenType (ToLower lib p) = SectionTypeRaw) ∧
        a.data.head? = some ':' ∧ (b.data.head? = some ':' ∨ b.data.head? = some '*')) →
      (addRouteFrom lib path h ps m s isRoot).2.2 =
        some ("error: addRoute: " ++ path ++ " " ++ "multiple non raw section") := by
  intro ps
  induction ps with
  | nil =>
    intro m s isRoot _ _ hex
    obtain ⟨pre, a, b, post, he, _⟩ := hex
    simp at he
  | cons p ps ih =>
    intro m s isRoot hs hraw hex
    by_cases hp : p.length = 0
    · rw [addRouteFrom_skip _ _ _ _ _ _ _ _ hp]
      apply ih m s isRoot hs hraw
      obtain ⟨pre, a, b, post, he, hab⟩ := hex
      exact ⟨pre, a, b, post, by simpa [List.filter_cons, hp] using he, hab⟩
    · obtain ⟨pre, a, b, post, he, hpre, ha, hb⟩ := hex
      have he2 : p :: ps.filter (fun p => p.length ≠ 0) = pre ++ a :: b :: post := by
        simpa [List.filter_cons, hp] using he
      have hnode := ((Section.OK_iff s).mp hs).1
      have hsubs := (Subs.OK_iff_mem _).mp ((Section.OK_iff s).mp hs).2
      have hflag : s.hasNonRawSub = false := by
        cases hfl : s.hasNonRawSub with
        | false => rfl
        | true => exact absurd hraw (hnode.flag.mp hfl)
      have hplen : ¬ (ToLower lib p).length = 0 := by rw [ToLower_length]; exact hp
      have key : ∀ (m1 : Mux) (ss : Section), ss.OK → ss.sType = tokenType (ToLower lib p) →
          (addRouteFrom lib path h ps m1 ss false).2.2 =
            some ("error: addRoute: " ++ path ++ " " ++ "multiple non raw section") := by
        intro m1 ss hss hty
        cases pre with
        | nil =>
          simp only [List.nil_append, List.cons.injEq] at he2
          obtain ⟨rfl, hrest⟩ := he2
          rw [(tokenType_of_head _).1 (ToLower_head lib p _ ha rfl)] at hty
          exact addRouteFrom_multiple lib path h ps m1 ss false
            ((Section.OK_iff ss).mp hss).1 (by rw [hty]; decide) (by rw [hty]; decide)
            ⟨b, post, hrest, hb⟩
        | cons x pre =>
          simp only [List.cons_append, List.cons.injEq] at he2
          obtain ⟨rfl, hrest⟩ := he2
          rw [hpre p (by simp)] at hty
          exact ih m1 ss false hss hty
            ⟨pre, a, b, post, hrest, fun q hq => hpre q (by simp [hq]), ha, hb⟩
      cases hf : s.subs.find (ToLower lib p) with
      | some ss =>
        rw [addRouteFrom_found _ _ _ _ _ _ _ _ _ hp hf]
        have hmem := Subs.find_mem _ _ _ hf
        exact key m ss (hsubs _ _ hmem) (hnode.keyed _ _ hmem)
      | none =>
        have hok : ∃ m1 ss, newSection lib m (some s) (ToLower lib p) = (m1, .ok ss) := by
          cases pre with
          | nil =>
            simp only [List.nil_append, List.cons.injEq] at he2
            obtain ⟨rfl, _⟩ := he2
            exact newSection_match_ok lib m s _ (ToLower_head lib p _ ha rfl) hraw hflag
          | cons x pre =>
            simp only [List.cons_append, List.cons.injEq] at he2
            obtain ⟨rfl, _⟩ := he2
            exact ⟨_, _, newSection_raw_ok lib m s _ hplen (hpre p (by simp))
              (by rw [hraw]; decide)⟩
        obtain ⟨m1, ss, hn⟩ := hok
        rw [addRouteFrom_new_ok _ _ _ _ _ _ _ _ _ _ hp hf hn]
        obtain ⟨_, hty, _, _, hfl, _⟩ := newSection_child lib m m1 s _ ss hn
        obtain ⟨n, t, r, f, rfl⟩ := newSection_fresh lib m m1 (some s) _ ss hn
        exact key m1 _ (fresh_OK n t r f hfl) hty

/-- A property of routers that every `Handle` with a route satisfying `Q`
keeps holds after any list of such registrations. -/
theorem registerAll_invariant (lib : Lib) (P : Mux → Prop)
    (Q : String × String × HandlerArg → Prop)
    (hstep : ∀ m method path h, Q (method, path, h) → P m → P (m.Handle lib method path h).1) :
    ∀ (routes : List (String × String × HandlerArg)) (m : Mux), (∀ r ∈ routes, Q r) → P m →
      P (registerAll lib m routes).1 := by
  intro routes
  induction routes with
  | nil => intro m _ hm; exact hm
  | cons r routes ih =>
    intro m hq hm
    obtain ⟨method, path, h⟩ := r
    have h1 := hstep m method path h (hq _ (by simp)) hm
    unfold registerAll
    cases hh : m.Handle lib method path h with
    | mk m1 e =>
      rw [hh] at h1
      cases e with
      | none => exact ih m1 (fun r hr => hq r (by simp [hr])) h1
      | some e => exact h1

/-- Every root of a router built by registrations is a Raw node. -/
theorem registerAll_root_raw (lib : Lib) (routes : List (String × String × HandlerArg)) :
    ∀ k rs, lookupRoot (registerAll lib New routes).1.roots k = some rs →
      rs.sType = SectionTypeRaw := by
  refine registerAll_invariant lib
    (fun m => ∀ k rs, lookupRoot m.roots k = some rs → rs.sType = SectionTypeRaw)
    (fun _ => True) ?_ routes New (fun _ _ => trivial) ?_
  · intro m method path h _ hm k rs hk
    obtain ⟨rs0, rs1, h0, hroots, h1⟩ := Handle_roots lib m method path h
    have hrs0 : rs0.sType = SectionTypeRaw := by
      rcases h0 with h0 | ⟨_, rfl⟩
      · exact hm method rs0 h0
      · rfl
    have hrs1 : rs1.sType = SectionTypeRaw := by
      rcases h1 with ⟨_, rfl⟩ | ⟨_, m0, rfl, _⟩
      · exact hrs0
      · rw [addRouteFrom_sType]; exact hrs0
    rw [hroots] at hk
    by_cases hkm : k = method
    · subst hkm
      rw [lookupRoot_setRoot_same] at hk
      simp at hk
      rw [← hk]; exact hrs1
    · rw [lookupRoot_setRoot_other _ _ _ _ hkm] at hk
      exact hm k rs hk
  · intro k rs hk
    simp [New, lookupRoot] at hk

/-- C23 (counterexample): the path `/*a/:b` has two adjacent tokens that are
not Raw, and its registration on the empty router fails with `wildcard not
the last section`, not with `multiple non raw section`. -/
theorem C23_counterexample :
    rawTokens "/*a/:b" = ["*a", ":b"] ∧
      tokenType "*a" ≠ SectionTypeRaw ∧ tokenType ":b" ≠ SectionTypeRaw ∧
      (New.Handle stubLib "GET" "/*a/:b" (hf 1)).2
        = some "error: addRoute: /*a/:b wildcard not the last section" := by
  refine ⟨?_, ?_, ?_, ?_⟩ <;> decide

/-- C23 (amended): in every router built by registrations from the empty
router, the flag `hasNonRawSub` of a node is set exactly when the node itself
is not Raw, and no node that is not Raw has a child that is not Raw.
Registering a path with two adjacent tokens that are not Raw always panics;
when the arguments pass the checks, the tokens before the two are literal, the
first of the two starts with `:` and the second with `:` or `*`, the panic is
`multiple non raw section`. -/
theorem C23_no_adjacent_non_raw_tokens (lib : Lib)
    (routes : List (String × String × HandlerArg)) :
    (∀ method rs, lookupRoot (registerAll lib New routes).1.roots method = some rs →
        ∀ n ∈ rs.nodes, (n.hasNonRawSub = true ↔ n.sType ≠ SectionTypeRaw) ∧
          (n.sType ≠ SectionTypeRaw →
            ∀ k c, (k, c) ∈ n.subs.toList → c.sType = SectionTypeRaw)) ∧
      (∀ method path h pre a b post, rawTokens path = pre ++ a :: b :: post →
        tokenType a ≠ SectionTypeRaw → tokenType b ≠ SectionTypeRaw →
        ((registerAll lib New routes).1.Handle lib method path h).2 ≠ none) ∧
      (∀ method path h pre a b post, checkArgs path h = none →
        rawTokens path = pre ++ a :: b :: post →
        (∀ p ∈ pre, tokenType (ToLower lib p) = SectionTypeRaw) →
        a.data.head? = some ':' → (b.data.head? = some ':' ∨ b.data.head? = some '*') →
        ((registerAll lib New routes).1.Handle lib method path h).2 =
          some ("error: addRoute: " ++ path ++ " " ++ "multiple non raw section")) := by
  have hok := registerAll_OK lib routes New New_OK
  have hraw := registerAll_root_raw lib routes
  refine ⟨?_, ?_, ?_⟩
  · intro method rs hrs n hn
    have := Section.OK_nodes rs (hok method rs hrs) n hn
    exact ⟨this.flag, this.raw_below⟩
  · intro method path h pre a b post htok ha hb
    cases hargs : checkArgs path h with
    | some e => rw [Handle_bad lib _ method path h e hargs]; simp
    | none =>
      obtain ⟨rs0, rs1, h0, _, h1⟩ := Handle_roots lib (registerAll lib New routes).1 method path h
      rcases h1 with ⟨hne, _⟩ | ⟨_, m0, _, herr⟩
      · exact absurd hargs hne
      · rw [herr]
        have hrs0 : rs0.OK := by
          rcases h0 with h0 | ⟨_, rfl⟩
          · exact hok method rs0 h0
          · exact freshRoot_OK
        exact addRouteFrom_adjacent lib path h (Split path) m0 rs0 true hrs0
          ⟨pre, a, b, post, htok, ha, hb⟩
  · intro method path h pre a b post hargs htok hpre ha hb
    obtain ⟨rs0, rs1, h0, _, h1⟩ := Handle_roots lib (registerAll lib New routes).1 method path h
    rcases h1 with ⟨hne, _⟩ | ⟨_, m0, _, herr⟩
    · exact absurd hargs hne
    · rw [herr]
      have hrs0 : rs0.OK ∧ rs0.sType = SectionTypeRaw := by
        rcases h0 with h0 | ⟨_, rfl⟩
        · exact ⟨hok method rs0 h0, hraw method rs0 h0⟩
        · exact ⟨freshRoot_OK, rfl⟩
      exact addRouteFrom_adjacent_message lib path h (Split path) m0 rs0 true hrs0.1 hrs0.2
        ⟨pre, a, b, post, htok, hpre, ha, hb⟩

/-- Instance of the amended C23 on `usersRouter`, which has the route
`/users/:id`: the node `id` has its flag set, and registering
`/users/:id/*rest` or `/:a/:b` panics with `multiple non raw section`. -/
theorem C23_no_adjacent_non_raw_tokens_witness :
    (idNode.hasNonRawSub = true ↔ idNode.sType ≠ SectionTypeRaw) ∧
      (usersRouter.1.Handle stubLib "GET" "/users/:id/*rest" (hf 3)).2 ≠ none ∧
      (usersRouter.1.Handle stubLib "GET" "/users/:id/*rest" (hf 3)).2 =
        some ("error: addRoute: " ++ "/users/:id/*rest" ++ " " ++ "multiple non raw section") ∧
      (usersRouter.1.Handle stubLib "GET" "/:a/:b" (hf 3)).2 =
        some ("error: addRoute: " ++ "/:a/:b" ++ " " ++ "multiple non raw section") :=
  ⟨((C23_no_adjacent_non_raw_tokens stubLib
        [("GET", "/users/:id", hf 1), ("GET", "/users/active", hf 2)]).1 "GET" usersRoot rfl
      idNode (List.Mem.tail _ (List.Mem.tail _ (List.Mem.head _)))).1,
    (C23_no_adjacent_non_raw_tokens stubLib
        [("GET", "/users/:id", hf 1), ("GET", "/users/active", hf 2)]).2.1
      "GET" "/users/:id/*rest" (hf 3) ["users"] ":id" "*rest" [] rfl (by decide) (by decide),
    (C23_no_adjacent_non_raw_tokens stubLib
        [("GET", "/users/:id", hf 1), ("GET", "/users/active", hf 2)]).2.2
      "GET" "/users/:id/*rest" (hf 3) ["users"] ":id" "*rest" [] rfl rfl (by decide) rfl
      (Or.inr rfl),
    (C23_no_adjacent_non_raw_tokens stubLib
        [("GET", "/users/:id", hf 1), ("GET", "/users/active", hf 2)]).2.2
      "GET" "/:a/:b" (hf 3) [] ":a" ":b" [] rfl rfl (by decide) rfl (Or.inl rfl)⟩

/-! ## Names and keys -/

theorem classify_indep (lib : Lib) (m : Mux) (k : String) :
    (classify lib m k).2 = (classify lib New k).2 := by
  unfold classify
  split
  · rfl
  · rfl
  · rfl
  · split
    · rfl
    · split
      · rfl
      · split_ifs <;> rfl
    · split_ifs <;> rfl
  · rfl

theorem newSection_label (lib : Lib) (m m1 : Mux) (par : Option Section) (k : String)
    (ss : Section) (h : newSection lib m par k = (m1, .ok ss)) :
    tokenLabel lib k = some (ss.sName, ss.regexp) := by
  unfold tokenLabel
  rw [← classify_indep lib m k]
  unfold newSection at h
  split at h
  · simp at h
  · rename_i m2 s hc
    rw [hc]
    simp only
    split at h
    · simp at h; rw [h.2]
    · split_ifs at h <;> simp at h
      · rw [← h.2]; rfl
      · rw [h.2]

theorem Section.Named_iff (lib : Lib) (K : String → Prop) (s : Section) :
    s.Named lib K ↔ NodeNamed lib K s ∧ s.subs.Named lib K := by
  cases s; simp [Section.Named, Section.subs]

theorem Subs.Named_iff_mem (lib : Lib) (K : String → Prop) :
    ∀ subs : Subs, subs.Named lib K ↔ ∀ k c, (k, c) ∈ subs.toList → c.Named lib K
  | .nil => by simp [Subs.Named, Subs.toList]
  | .cons k s rest => by
    simp only [Subs.Named, Subs.toList, List.mem_cons, Prod.mk.injEq,
      Subs.Named_iff_mem lib K rest]
    constructor
    · rintro ⟨hs, hr⟩ k2 c (⟨_, rfl⟩ | hm)
      · exact hs
      · exact hr k2 c hm
    · intro h
      exact ⟨h k s (Or.inl ⟨rfl, rfl⟩), fun k2 c hm => h k2 c (Or.inr hm)⟩

theorem Subs.find_none_keys : ∀ (subs : Subs) (p : String),
    subs.find p = none ↔ p ∉ subs.toList.map Prod.fst
  | .nil, p => by simp [Subs.find, Subs.toList]
  | .cons k s rest, p => by
    unfold Subs.find
    split_ifs with hk
    · simp [Subs.toList, hk]
    · simp only [Subs.toList, List.map_cons, List.mem_cons, not_or, Subs.find_none_keys rest p]
      constructor
      · intro h; exact ⟨fun e => hk e.symm, h⟩
      · intro h; exact h.2

theorem Subs.keys_set : ∀ (subs : Subs) (p : String) (x : Section),
    (subs.set p x).toList.map Prod.fst =
      if p ∈ subs.toList.map Prod.fst then subs.toList.map Prod.fst
      else subs.toList.map Prod.fst ++ [p]
  | .nil, p, x => by simp [Subs.set, Subs.toList]
  | .cons k s rest, p, x => by
    unfold Subs.set
    by_cases hk : k = p
    · rw [if_pos hk, if_pos (by simp [Subs.toList, hk])]
      simp [Subs.toList]
    · rw [if_neg hk]
      simp only [Subs.toList, List.map_cons, Subs.keys_set rest p x, List.mem_cons]
      by_cases h2 : p ∈ rest.toList.map Prod.fst
      · rw [if_pos h2, if_pos (Or.inr h2)]
      · rw [if_neg h2, if_neg (by rintro (e | e); exact hk e.symm; exact h2 e)]
        simp

theorem Subs.nodup_set (subs : Subs) (p : String) (x : Section)
    (h : (subs.toList.map Prod.fst).Nodup) : ((subs.set p x).toList.map Prod.fst).Nodup := by
  rw [Subs.keys_set]
  split_ifs with hp
  · exact h
  · rw [List.nodup_append]
    refine ⟨h, by simp, ?_⟩
    intro a ha hb
    simp at hb
    subst hb
    exact hp ha

theorem Section.sName_setSubs (s : Section) (x : Subs) : (s.setSubs x).sName = s.sName := by
  cases s; rfl

theorem Section.sName_setChain (s : Section) (c : Chain) : (s.setChain c).sName = s.sName := by
  cases s; rfl

theorem Section.sName_setTs (s : Section) (b : Bool) : (s.setTs b).sName = s.sName := by
  cases s; rfl

theorem Section.regexp_setSubs (s : Section) (x : Subs) : (s.setSubs x).regexp = s.regexp := by
  cases s; rfl

theorem Section.regexp_setChain (s : Section) (c : Chain) :
    (s.setChain c).regexp = s.regexp := by
  cases s; rfl

theorem Section.regexp_setTs (s : Section) (b : Bool) : (s.setTs b).regexp = s.regexp := by
  cases s; rfl

theorem attach_sName (path : String) (h : HandlerArg) (s : Section) (isRoot : Bool) :
    (attach path h s isRoot).1.sName = s.sName := by
  rcases attach_shape path h s isRoot with e | ⟨c, e | e⟩ <;> rw [e] <;>
    simp [Section.sName_setTs, Section.sName_setChain]

theorem attach_regexp (path : String) (h : HandlerArg) (s : Section) (isRoot : Bool) :
    (attach path h s isRoot).1.regexp = s.regexp := by
  rcases attach_shape path h s isRoot with e | ⟨c, e | e⟩ <;> rw [e] <;>
    simp [Section.regexp_setTs, Section.regexp_setChain]

/-- The loop of `addRoute` keeps the name and the pattern of the node it
starts from. -/
theorem addRouteFrom_label (lib : Lib) (path : String) (h : HandlerArg) :
    ∀ (ps : List String) (m : Mux) (s : Section) (isRoot : Bool),
      (addRouteFrom lib path h ps m s isRoot).2.1.sName = s.sName ∧
        (addRouteFrom lib path h ps m s isRoot).2.1.regexp = s.regexp := by
  intro ps
  induction ps with
  | nil =>
    intro m s isRoot
    rw [addRouteFrom_nil]
    exact ⟨attach_sName path h s isRoot, attach_regexp path h s isRoot⟩
  | cons p ps ih =>
    intro m s isRoot
    by_cases hp : p.length = 0
    · rw [addRouteFrom_skip _ _ _ _ _ _ _ _ hp]; exact ih m s isRoot
    · cases hf : s.subs.find (ToLower lib p) with
      | some ss =>
        rw [addRouteFrom_found _ _ _ _ _ _ _ _ _ hp hf]
        exact ⟨Section.sName_setSubs _ _, Section.regexp_setSubs _ _⟩
      | none =>
        cases hn : newSection lib m (some s) (ToLower lib p) with
        | mk m1 r =>
          cases r with
          | error e =>
            rw [addRouteFrom_new_error _ _ _ _ _ _ _ _ _ _ hp hf hn]
            exact ⟨rfl, rfl⟩
          | ok ss =>
            rw [addRouteFrom_new_ok _ _ _ _ _ _ _ _ _ _ hp hf hn]
            exact ⟨Section.sName_setSubs _ _, Section.regexp_setSubs _ _⟩

theorem Section.Named_attach {lib : Lib} {K : String → Prop} {s : Section}
    (hs : s.Named lib K) (path : String) (h : HandlerArg) (isRoot : Bool) :
    (attach path h s isRoot).1.Named lib K := by
  rw [Section.Named_iff] at hs ⊢
  refine ⟨⟨?_, ?_, ?_⟩, ?_⟩
  · rw [attach_subs]; exact hs.1.named
  · rw [attach_subs]; exact hs.1.distinct
  · rw [attach_subs]; exact hs.1.keys
  · rw [attach_subs]; exact hs.2

theorem Section.Named_setSubs {lib : Lib} {K : String → Prop} {s c : Section}
    (hs : s.Named lib K) (hc : c.Named lib K) (p : String) (hk : K p)
    (hl : tokenLabel lib p = some (c.sName, c.regexp)) :
    (s.setSubs (s.subs.set p c)).Named lib K := by
  rw [Section.Named_iff] at hs ⊢
  rw [Section.subs_setSubs]
  refine ⟨⟨?_, ?_, ?_⟩, ?_⟩
  · rw [Section.subs_setSubs]
    intro k x hx
    rcases Subs.mem_set _ _ _ _ _ hx with e | e
    · obtain ⟨rfl, rfl⟩ := Prod.mk.inj e; exact hl
    · exact hs.1.named k x e
  · rw [Section.subs_setSubs]
    exact Subs.nodup_set _ _ _ hs.1.distinct
  · rw [Section.subs_setSubs]
    intro k x hx
    rcases Subs.mem_set _ _ _ _ _ hx with e | e
    · obtain ⟨rfl, rfl⟩ := Prod.mk.inj e; exact hk
    · exact hs.1.keys k x e
  · rw [Subs.Named_iff_mem]
    intro k x hx
    rcases Subs.mem_set _ _ _ _ _ hx with e | e
    · obtain ⟨rfl, rfl⟩ := Prod.mk.inj e; exact hc
    · exact (Subs.Named_iff_mem lib K _).mp hs.2 k x e

theorem fresh_Named (lib : Lib) (K : String → Prop) (n : String) (t : sectionType)
    (r : Option String) (f : Bool) : (Section.fresh n t r f).Named lib K := by
  rw [Section.Named_iff]
  refine ⟨⟨?_, ?_, ?_⟩, trivial⟩
  · intro k c hc; simp [Section.fresh, Section.subs, Subs.toList] at hc
  · simp [Section.fresh, Section.subs, Subs.toList]
  · intro k c hc; simp [Section.fresh, Section.subs, Subs.toList] at hc

/-- The loop of `addRoute` maintains `NodeNamed` at every node, whether it
succeeds or panics, when the keys of the path satisfy `K`. -/
theorem addRouteFrom_Named (lib : Lib) (K : String → Prop) (path : String) (h : HandlerArg) :
    ∀ (ps : List String) (m : Mux) (s : Section) (isRoot : Bool), s.Named lib K →
      (∀ p ∈ ps, ¬ p.length = 0 → K (ToLower lib p)) →
      (addRouteFrom lib path h ps m s isRoot).2.1.Named lib K := by
  intro ps
  induction ps with
  | nil =>
    intro m s isRoot hs _
    rw [addRouteFrom_nil]
    exact Section.Named_attach hs path h isRoot
  | cons p ps ih =>
    intro m s isRoot hs hK
    have hK2 : ∀ q ∈ ps, ¬ q.length = 0 → K (ToLower lib q) :=
      fun q hq => hK q (by simp [hq])
    by_cases hp : p.length = 0
    · rw [addRouteFrom_skip _ _ _ _ _ _ _ _ hp]; exact ih m s isRoot hs hK2
    · have hnode := ((Section.Named_iff lib K s).mp hs).1
      have hsubs := (Subs.Named_iff_mem lib K _).mp ((Section.Named_iff lib K s).mp hs).2
      cases hf : s.subs.find (ToLower lib p) with
      | some ss =>
        rw [addRouteFrom_found _ _ _ _ _ _ _ _ _ hp hf]
        have hmem := Subs.find_mem _ _ _ hf
        refine Section.Named_setSubs hs (ih m ss false (hsubs _ _ hmem) hK2) _
          (hK p (by simp) hp) ?_
        rw [(addRouteFrom_label lib path h ps m ss false).1,
          (addRouteFrom_label lib path h ps m ss false).2]
        exact hnode.named _ _ hmem
      | none =>
        cases hn : newSection lib m (some s) (ToLower lib p) with
        | mk m1 r =>
          cases r with
          | error e =>
            rw [addRouteFrom_new_error _ _ _ _ _ _ _ _ _ _ hp hf hn]
            exact hs
          | ok ss =>
            rw [addRouteFrom_new_ok _ _ _ _ _ _ _ _ _ _ hp hf hn]
            have hl := newSection_label lib m m1 (some s) _ ss hn
            obtain ⟨n, t, r, f, rfl⟩ := newSection_fresh lib m m1 (some s) _ ss hn
            refine Section.Named_setSubs hs (ih m1 _ false (fresh_Named lib K n t r f) hK2) _
              (hK p (by simp) hp) ?_
            rw [(addRouteFrom_label lib path h ps m1 _ false).1,
              (addRouteFrom_label lib path h ps m1 _ false).2]
            exact hl

theorem Handle_Named (lib : Lib) (K : String → Prop) (m : Mux) (method path : String)
    (h : HandlerArg) (hK : ∀ p ∈ rawTokens path, K (ToLower lib p)) (hm : m.Named lib K) :
    (m.Handle lib method path h).1.Named lib K := by
  obtain ⟨rs0, rs1, h0, hroots, h1⟩ := Handle_roots lib m method path h
  have hrs0 : rs0.Named lib K := by
    rcases h0 with h0 | ⟨_, rfl⟩
    · exact hm method rs0 h0
    · exact fresh_Named lib K _ _ _ _
  have hrs1 : rs1.Named lib K := by
    rcases h1 with ⟨_, rfl⟩ | ⟨_, m0, rfl, _⟩
    · exact hrs0
    · refine addRouteFrom_Named lib K path h _ _ _ _ hrs0 ?_
      intro p hp hlen
      exact hK p (by simp [rawTokens, List.mem_filter, hp, hlen])
  intro k rs hk
  rw [hroots] at hk
  by_cases hkm : k = method
  · subst hkm
    rw [lookupRoot_setRoot_same] at hk
    simp at hk
    rw [← hk]; exact hrs1
  · rw [lookupRoot_setRoot_other _ _ _ _ hkm] at hk
    exact hm k rs hk

theorem New_Named (lib : Lib) (K : String → Prop) : New.Named lib K := by
  intro k rs hk
  simp [New, lookupRoot] at hk

theorem registerAll_Named (lib : Lib) (K : String → Prop)
    (routes : List (String × String × HandlerArg)) (m : Mux)
    (hK : ∀ r ∈ routes, ∀ p ∈ rawTokens r.2.1, K (ToLower lib p)) (hm : m.Named lib K) :
    (registerAll lib m routes).1.Named lib K :=
  registerAll_invariant lib (fun m => m.Named lib K)
    (fun r => ∀ p ∈ rawTokens r.2.1, K (ToLower lib p))
    (fun m method path h hq hm => Handle_Named lib K m method path h hq hm) routes m hK hm

theorem reachFrom_Named (lib : Lib) (K : String → Prop) :
    ∀ (ks : List String) (s t : Section), s.Named lib K → reachFrom s ks = some t →
      t.Named lib K := by
  intro ks
  induction ks with
  | nil => intro s t hs h; simp [reachFrom] at h; rw [← h]; exact hs
  | cons k ks ih =>
    intro s t hs h
    unfold reachFrom at h
    cases hf : s.subs.find k with
    | none => rw [hf] at h; simp at h
    | some ss =>
      rw [hf] at h
      exact ih ss t ((Subs.Named_iff_mem lib K _).mp ((Section.Named_iff lib K s).mp hs).2 _ _
        (Subs.find_mem _ _ _ hf)) h

theorem reachFrom_snoc : ∀ (ks : List String) (k : String) (s t : Section),
    reachFrom s (ks ++ [k]) = some t →
      ∃ par, reachFrom s ks = some par ∧ par.subs.find k = some t := by
  intro ks
  induction ks with
  | nil =>
    intro k s t h
    simp only [List.nil_append, reachFrom] at h
    cases hf : s.subs.find k with
    | none => rw [hf] at h; simp at h
    | some ss =>
      rw [hf] at h
      simp only [reachFrom] at h
      exact ⟨s, rfl, by rw [hf, h]⟩
  | cons k0 ks ih =>
    intro k s t h
    simp only [List.cons_append, reachFrom] at h
    cases hf : s.subs.find k0 with
    | none => rw [hf] at h; simp at h
    | some ss =>
      rw [hf] at h
      obtain ⟨par, h1, h2⟩ := ih k ss t h
      exact ⟨par, by simp only [reachFrom, hf, h1], h2⟩

theorem tokens_snoc (lib : Lib) (path : String) (pre : List String) (p : String)
    (h : rawTokens path = pre ++ [p]) :
    tokens lib path = pre.map (ToLower lib) ++ [ToLower lib p] := by
  unfold tokens toks
  unfold rawTokens at h
  rw [h]
  simp

theorem ToLower_cons (lib : Lib) (c : Char) (r : List Char) (hc : lowerChar lib c = c) :
    ToLower lib (String.mk (c :: r)) = String.mk (c :: (ToLower lib (String.mk r)).data) := by
  simp [ToLower, hc]

theorem tokenLabel_match (lib : Lib) (nm : List Char) :
    tokenLabel lib (ToLower lib (String.mk (':' :: nm))) =
      some (ToLower lib (String.mk nm), none) := by
  rw [ToLower_cons lib ':' nm rfl]
  rfl

theorem tokenLabel_wild (lib : Lib) (nm : List Char) :
    tokenLabel lib (ToLower lib (String.mk ('*' :: nm))) =
      some (ToLower lib (String.mk nm), none) := by
  rw [ToLower_cons lib '*' nm rfl]
  rfl

theorem tokenLabel_regex (lib : Lib) (nm pat : List Char) (h : '}' ∉ nm.map (lowerChar lib)) :
    tokenLabel lib (ToLower lib (String.mk ('#' :: '{' :: (nm ++ '}' :: pat)))) =
      if pat = [] then none
      else if lib.Compile (ToLower lib (String.mk pat)) then
        some (ToLower lib (String.mk nm), some (ToLower lib (String.mk pat)))
      else none := by
  have e : ToLower lib (String.mk ('#' :: '{' :: (nm ++ '}' :: pat))) =
      String.mk ('#' :: '{' :: (nm.map (lowerChar lib) ++ '}' :: pat.map (lowerChar lib))) := by
    have h1 : lowerChar lib '#' = '#' := rfl
    have h2 : lowerChar lib '{' = '{' := rfl
    have h3 : lowerChar lib '}' = '}' := rfl
    simp [ToLower, h1, h2, h3]
  rw [e]
  unfold tokenLabel
  rw [classify_regex_named lib New _ _ h]
  cases pat with
  | nil => simp
  | cons c pat =>
    simp only [ToLower]
    split_ifs <;> simp_all [Section.fresh, Section.sName, Section.regexp]

/-- C24: registration classifies the lower-cased token.  After a successful
`Handle` on a router built by registrations, the node that the path leads to
has the name and the pattern source that classification extracts from the
lower-cased last token: for `:name` and `*name` the lower-cased name, for
`#{name}pattern` the lower-cased name and the lower-cased pattern source.  For
the route `/:ID`, the request `/42` binds `id` to `42`, and `ParamByName("ID")`
is the empty string. -/
theorem C24_names_are_lower_cased (lib : Lib) (routes : List (String × String × HandlerArg)) :
    (∀ method path h m2 pre p,
        (registerAll lib New routes).1.Handle lib method path h = (m2, none) →
        rawTokens path = pre ++ [p] →
        ∃ t, m2.reach lib method path = some t ∧
          tokenLabel lib (ToLower lib p) = some (t.sName, t.regexp)) ∧
      (∀ nm : List Char, tokenLabel lib (ToLower lib (String.mk (':' :: nm))) =
        some (ToLower lib (String.mk nm), none)) ∧
      (∀ nm : List Char, tokenLabel lib (ToLower lib (String.mk ('*' :: nm))) =
        some (ToLower lib (String.mk nm), none)) ∧
      (∀ nm pat : List Char, '}' ∉ nm.map (lowerChar lib) →
        tokenLabel lib (ToLower lib (String.mk ('#' :: '{' :: (nm ++ '}' :: pat)))) =
          if pat = [] then none
          else if lib.Compile (ToLower lib (String.mk pat)) then
            some (ToLower lib (String.mk nm), some (ToLower lib (String.mk pat)))
          else none) ∧
      (idRouterUpper lib).2 = none ∧
      ((idRouterUpper lib).1.reach lib "GET" "/:ID").map Section.sName = some "id" ∧
      ((idRouterUpper lib).1.ServeHTTP lib 3 "GET" "/42").map
          (fun r => r.context.map (fun c => (c.ParamByName "id", c.ParamByName "ID")))
        = some (some ("42", "")) := by
  refine ⟨?_, tokenLabel_match lib, tokenLabel_wild lib, tokenLabel_regex lib, rfl, rfl, rfl⟩
  intro method path h m2 pre p hreg htok
  have hnamed : m2.Named lib (fun _ => True) := by
    have := Handle_Named lib (fun _ => True) (registerAll lib New routes).1 method path h
      (fun _ _ => trivial)
      (registerAll_Named lib _ routes New (fun _ _ _ _ => trivial) (New_Named lib _))
    rw [hreg] at this
    exact this
  obtain ⟨t, _, _, hr, _⟩ :=
    Handle_reach lib _ m2 (registerAll_OK lib routes New New_OK) method path h hreg
  refine ⟨t, hr, ?_⟩
  unfold Mux.reach at hr
  cases hroot : lookupRoot m2.roots method with
  | none => rw [hroot] at hr; simp at hr
  | some rs =>
    rw [hroot] at hr
    simp only at hr
    rw [tokens_snoc lib path pre p htok] at hr
    obtain ⟨par, hpar, hfind⟩ := reachFrom_snoc _ _ _ _ hr
    have hparN := reachFrom_Named lib _ _ _ _ (hnamed method rs hroot) hpar
    exact ((Section.Named_iff lib _ par).mp hparN).1.named _ _ (Subs.find_mem _ _ _ hfind)

/-- Instance of C24: on `usersRouter`, registering `/Files/#{Year}\D+` with
a library that compiles every pattern leaves a node with the name `year` and
the pattern `\d+`. -/
theorem C24_names_are_lower_cased_witness :
    ∃ t, (usersRouter.1.Handle anyLib "GET" "/Files/#{Year}\\D+" (hf 3)).1.reach anyLib "GET"
          "/Files/#{Year}\\D+" = some t ∧
      tokenLabel anyLib (ToLower anyLib "#{Year}\\D+") = some (t.sName, t.regexp) ∧
      tokenLabel anyLib (ToLower anyLib "#{Year}\\D+") = some ("year", some "\\d+") :=
  (fun ⟨t, h1, h2⟩ => ⟨t, h1, h2, by decide⟩)
    ((C24_names_are_lower_cased anyLib
        [("GET", "/users/:id", hf 1), ("GET", "/users/active", hf 2)]).1
      "GET" "/Files/#{Year}\\D+" (hf 3) _ ["Files"] "#{Year}\\D+"
      (Prod.ext rfl (by decide)) rfl)

/-! ## Registrations do not disturb each other -/

theorem newSection_error_label (lib : Lib) (m m1 : Mux) (par : Section) (k e : String)
    (hpr : par.sType = SectionTypeRaw) (hpf : par.hasNonRawSub = false)
    (h : newSection lib m (some par) k = (m1, .error e)) : tokenLabel lib k = none := by
  unfold tokenLabel
  rw [← classify_indep lib m k]
  unfold newSection at h
  split at h
  · rename_i m2 e2 hc
    rw [hc]
  · rename_i m2 s hc
    simp only [hpr, hpf] at h
    split_ifs at h <;> first | contradiction | simp at h

theorem reachFrom_leaf (s : Section) (hs : s.subs = .nil) (k : String) (ks : List String) :
    reachFrom s (k :: ks) = none := by
  simp only [reachFrom, hs, Subs.find]

theorem addRouteFrom_all_empty (lib : Lib) (path : String) (h : HandlerArg) :
    ∀ (ps : List String) (m : Mux) (s : Section) (isRoot : Bool),
      ps.filter (fun p => p.length ≠ 0) = [] →
      addRouteFrom lib path h ps m s isRoot =
          (m, (attach path h s isRoot).1, (attach path h s isRoot).2) ∧
        toks lib ps = [] := by
  intro ps
  induction ps with
  | nil => intro m s isRoot _; exact ⟨addRouteFrom_nil lib path h m s isRoot, rfl⟩
  | cons p ps ih =>
    intro m s isRoot hf
    by_cases hp : p.length = 0
    · rw [addRouteFrom_skip _ _ _ _ _ _ _ _ hp, toks_cons_empty lib p ps hp]
      exact ih m s isRoot (by simpa [List.filter_cons, hp] using hf)
    · simp [List.filter_cons, hp] at hf

theorem attach_fails_iff (path : String) (h : HandlerArg) (s : Section) (isRoot : Bool)
    (hargs : checkArgs path h = none) :
    (attach path h s isRoot).2 ≠ none ↔ s.chain.h ≠ none := by
  constructor
  · intro hf hs
    exact hf (attach_ok path h s isRoot hargs hs).1
  · intro hs
    rw [attach_redefined path h s isRoot hs]
    simp

/-- From a Raw node on, for a path of literal pieces followed by one last
piece: the loop of `addRoute` panics exactly when the pieces lead to no node
and classification refuses the lower-cased last piece, or they lead to a node
that has a terminal handler. -/
theorem addRouteFrom_last_token (lib : Lib) (path : String) (h : HandlerArg)
    (hargs : checkArgs path h = none) :
    ∀ (ps : List String) (m : Mux) (s : Section) (isRoot : Bool), s.OK →
      s.sType = SectionTypeRaw →
      ∀ (pre : List String) (p : String), ps.filter (fun p => p.length ≠ 0) = pre ++ [p] →
      (∀ q ∈ pre, tokenType (ToLower lib q) = SectionTypeRaw) →
      ((addRouteFrom lib path h ps m s isRoot).2.2 ≠ none ↔
        (reachFrom s (toks lib ps) = none ∧ tokenLabel lib (ToLower lib p) = none) ∨
          ∃ t, reachFrom s (toks lib ps) = some t ∧ t.chain.h ≠ none) := by
  intro ps
  induction ps with
  | nil => intro m s isRoot _ _ pre p he; simp at he
  | cons x ps ih =>
    intro m s isRoot hs hraw pre p he hpre
    by_cases hx : x.length = 0
    · rw [addRouteFrom_skip _ _ _ _ _ _ _ _ hx, toks_cons_empty lib x ps hx]
      exact ih m s isRoot hs hraw pre p (by simpa [List.filter_cons, hx] using he) hpre
    · have he2 : x :: ps.filter (fun p => p.length ≠ 0) = pre ++ [p] := by
        simpa [List.filter_cons, hx] using he
      have hnode := ((Section.OK_iff s).mp hs).1
      have hsubs := (Subs.OK_iff_mem _).mp ((Section.OK_iff s).mp hs).2
      have hflag : s.hasNonRawSub = false := by
        cases hfl : s.hasNonRawSub with
        | false => rfl
        | true => exact absurd hraw (hnode.flag.mp hfl)
      have hxlen : ¬ (ToLower lib x).length = 0 := by rw [ToLower_length]; exact hx
      rw [toks_cons lib x ps hx]
      cases pre with
      | nil =>
        simp only [List.nil_append, List.cons.injEq] at he2
        obtain ⟨rfl, hrest⟩ := he2
        cases hf : s.subs.find (ToLower lib x) with
        | some ss =>
          rw [addRouteFrom_found _ _ _ _ _ _ _ _ _ hx hf]
          obtain ⟨e1, e2⟩ := addRouteFrom_all_empty lib path h ps m ss false hrest
          simp only [e1, e2, reachFrom, hf]
          rw [attach_fails_iff path h ss false hargs]
          constructor
          · intro hne; exact Or.inr ⟨ss, rfl, hne⟩
          · rintro (⟨hc, _⟩ | ⟨t, ht, hne⟩)
            · simp at hc
            · simp only [Option.some.injEq] at ht
              rw [ht]; exact hne
        | none =>
          have hr : reachFrom s (ToLower lib x :: toks lib ps) = none := by
            simp only [reachFrom, hf]
          rw [hr]
          cases hn : newSection lib m (some s) (ToLower lib x) with
          | mk m1 r =>
            cases r with
            | error e =>
              rw [addRouteFrom_new_error _ _ _ _ _ _ _ _ _ _ hx hf hn]
              have hl := newSection_error_label lib m m1 s _ e hraw hflag hn
              simp [hl]
            | ok ss =>
              rw [addRouteFrom_new_ok _ _ _ _ _ _ _ _ _ _ hx hf hn]
              have hl := newSection_label lib m m1 (some s) _ ss hn
              obtain ⟨_, _, _, hch, _, _⟩ := newSection_child lib m m1 s _ ss hn
              obtain ⟨e1, _⟩ := addRouteFrom_all_empty lib path h ps m1 ss false hrest
              simp only [e1, hl]
              have hok := (attach_ok path h ss false hargs (by rw [hch]; rfl)).1
              simp [hok]
      | cons y pre =>
        simp only [List.cons_append, List.cons.injEq] at he2
        obtain ⟨rfl, hrest⟩ := he2
        have hxraw : tokenType (ToLower lib x) = SectionTypeRaw := hpre x (by simp)
        have hpre2 : ∀ q ∈ pre, tokenType (ToLower lib q) = SectionTypeRaw :=
          fun q hq => hpre q (by simp [hq])
        cases hf : s.subs.find (ToLower lib x) with
        | some ss =>
          rw [addRouteFrom_found _ _ _ _ _ _ _ _ _ hx hf]
          have hmem := Subs.find_mem _ _ _ hf
          have hssraw : ss.sType = SectionTypeRaw := by
            rw [hnode.keyed _ _ hmem]; exact hxraw
          have := ih m ss false (hsubs _ _ hmem) hssraw pre p hrest hpre2
          simp only [reachFrom, hf]
          exact this
        | none =>
          have hn := newSection_raw_ok lib m s _ hxlen hxraw (by rw [hraw]; decide)
          rw [addRouteFrom_new_ok _ _ _ _ _ _ _ _ _ _ hx hf hn]
          have := ih m (Section.fresh (ToLower lib x) SectionTypeRaw none false) false
            (fresh_OK _ _ _ _ (by simp)) rfl pre p hrest hpre2
          have htoks : ∃ k ks, toks lib ps = k :: ks := by
            unfold toks
            rw [hrest]
            cases pre with
            | nil => exact ⟨_, _, rfl⟩
            | cons z pre => exact ⟨_, _, rfl⟩
          obtain ⟨k, ks, hk⟩ := htoks
          rw [hk, reachFrom_leaf (Section.fresh (ToLower lib x) SectionTypeRaw none false) rfl]
            at this
          rw [hk]
          simp only [reachFrom, hf] at this ⊢
          exact this

theorem reachFrom_OK : ∀ (ks : List String) (s t : Section), s.OK → reachFrom s ks = some t →
    t.OK := by
  intro ks
  induction ks with
  | nil => intro s t hs h; simp [reachFrom] at h; rw [← h]; exact hs
  | cons k ks ih =>
    intro s t hs h
    unfold reachFrom at h
    cases hf : s.subs.find k with
    | none => rw [hf] at h; simp at h
    | some ss =>
      rw [hf] at h
      exact ih ss t ((Subs.OK_iff_mem _).mp ((Section.OK_iff s).mp hs).2 _ _
        (Subs.find_mem _ _ _ hf)) h

theorem tokenLabel_regex_plain (lib : Lib) (pat : List Char)
    (h : (pat.map (lowerChar lib)).head? ≠ some '{') :
    tokenLabel lib (ToLower lib (String.mk ('#' :: pat))) =
      if pat = [] then none
      else if lib.Compile (ToLower lib (String.mk pat)) then
        some ("", some (ToLower lib (String.mk pat)))
      else none := by
  have e : ToLower lib (String.mk ('#' :: pat)) = String.mk ('#' :: pat.map (lowerChar lib)) := by
    have h1 : lowerChar lib '#' = '#' := rfl
    simp [ToLower, h1]
  rw [e]
  unfold tokenLabel
  rw [classify_regex_plain lib New _ h]
  cases pat with
  | nil => simp
  | cons c pat =>
    simp only [ToLower]
    split_ifs <;> simp_all [Section.fresh, Section.sName, Section.regexp]

theorem tokenLabel_regex_open (lib : Lib) (r : List Char) (h : '}' ∉ r.map (lowerChar lib)) :
    tokenLabel lib (ToLower lib (String.mk ('#' :: '{' :: r))) = none := by
  have e : ToLower lib (String.mk ('#' :: '{' :: r)) =
      String.mk ('#' :: '{' :: r.map (lowerChar lib)) := by
    have h1 : lowerChar lib '#' = '#' := rfl
    have h2 : lowerChar lib '{' = '{' := rfl
    simp [ToLower, h1, h2]
  rw [e]
  unfold tokenLabel
  rw [classify_regex_open lib New _ h]

/-- When the arguments pass the checks and the tokens before the last one are
literal, `Handle` on a router built by registrations panics exactly when the
path leads to no node and classification refuses the lower-cased last token,
or the path leads to a node that has a terminal handler. -/
theorem Handle_last_token (lib : Lib) (routes : List (String × String × HandlerArg))
    (method path : String) (h : HandlerArg) (pre : List String) (p : String)
    (hargs : checkArgs path h = none) (htok : rawTokens path = pre ++ [p])
    (hpre : ∀ q ∈ pre, tokenType (ToLower lib q) = SectionTypeRaw) :
    ((registerAll lib New routes).1.Handle lib method path h).2 ≠ none ↔
      ((registerAll lib New routes).1.reach lib method path = none ∧
          tokenLabel lib (ToLower lib p) = none) ∨
        ∃ t, (registerAll lib New routes).1.reach lib method path = some t ∧
          t.chain.h ≠ none := by
  have hok := registerAll_OK lib routes New New_OK
  have hraw := registerAll_root_raw lib routes
  unfold Mux.reach tokens
  cases hroot : lookupRoot (registerAll lib New routes).1.roots method with
  | some rs =>
    rw [Handle_existing_root lib _ method path h rs hroot hargs]
    simp only
    exact addRouteFrom_last_token lib path h hargs (Split path) _ rs true
      (hok method rs hroot) (hraw method rs hroot) pre p htok hpre
  | none =>
    rw [Handle_no_root lib _ method path h hroot hargs]
    simp only
    have := addRouteFrom_last_token lib path h hargs (Split path)
      { (registerAll lib New routes).1 with
        roots := setRoot (registerAll lib New routes).1.roots method freshRoot }
      freshRoot true freshRoot_OK rfl pre p htok hpre
    have htoks : ∃ k ks, toks lib (Split path) = k :: ks := by
      unfold toks
      unfold rawTokens at htok
      rw [htok]
      cases pre with
      | nil => exact ⟨_, _, rfl⟩
      | cons z pre => exact ⟨_, _, rfl⟩
    obtain ⟨k, ks, hk⟩ := htoks
    rw [hk, reachFrom_leaf freshRoot rfl] at this
    simpa using this

/-- C14 (counterexample): with a library that compiles every pattern, the
registration of `/#{Year}\D+` succeeds and stores the capture name `year` and
the pattern source `\d+`, not `Year` and `\D+`; and the registration of
`/:a/#{y}x` fails although its pattern part is not empty, its brace is closed
and the pattern compiles. -/
theorem C14_counterexample :
    (New.Handle anyLib "GET" "/#{Year}\\D+" (hf 1)).2 = none ∧
      ((New.Handle anyLib "GET" "/#{Year}\\D+" (hf 1)).1.reach anyLib "GET" "/#{Year}\\D+").map
          (fun t => (t.sName, t.regexp)) = some ("year", some "\\d+") ∧
      anyLib.Compile "x" = true ∧
      (New.Handle anyLib "GET" "/:a/#{y}x" (hf 1)).2
        = some "error: addRoute: /:a/#{y}x multiple non raw section" := by
  refine ⟨?_, ?_, ?_, ?_⟩ <;> decide

/-- C14 (amended): registration classifies the lower-cased token.  On a router
built by registrations, for a path whose tokens before the last are literal
and arguments that pass the checks, `Handle` fails exactly when the path leads
to no node yet and classification refuses its lower-cased last token, or the
path leads to a node that already has a handler.  After a successful `Handle`
of a path that ends in a `#` token the node reached is a Regex node with the
name and the pattern source that classification extracts from the lower-cased
token.  Classification of the lower-cased token: `#{name}pattern` gives the
lower-cased name and the lower-cased pattern source, `#pattern` the empty name
and the lower-cased pattern source; it refuses the token exactly when the
pattern part is empty, when the lower-cased pattern does not compile, or when
the brace opened directly after `#` is never closed. -/
theorem C14_regex_token_is_lower_cased (lib : Lib)
    (routes : List (String × String × HandlerArg)) :
    (∀ method path h pre p, checkArgs path h = none → rawTokens path = pre ++ [p] →
        (∀ q ∈ pre, tokenType (ToLower lib q) = SectionTypeRaw) →
        (((registerAll lib New routes).1.Handle lib method path h).2 ≠ none ↔
          ((registerAll lib New routes).1.reach lib method path = none ∧
              tokenLabel lib (ToLower lib p) = none) ∨
            ∃ t, (registerAll lib New routes).1.reach lib method path = some t ∧
              t.chain.h ≠ none)) ∧
      (∀ method path h m2 pre p,
        (registerAll lib New routes).1.Handle lib method path h = (m2, none) →
        rawTokens path = pre ++ [p] → p.data.head? = some '#' →
        ∃ t, m2.reach lib method path = some t ∧ t.sType = SectionTypeRegexp ∧
          tokenLabel lib (ToLower lib p) = some (t.sName, t.regexp)) ∧
      (∀ nm pat : List Char, '}' ∉ nm.map (lowerChar lib) →
        tokenLabel lib (ToLower lib (String.mk ('#' :: '{' :: (nm ++ '}' :: pat)))) =
          if pat = [] then none
          else if lib.Compile (ToLower lib (String.mk pat)) then
            some (ToLower lib (String.mk nm), some (ToLower lib (String.mk pat)))
          else none) ∧
      (∀ pat : List Char, (pat.map (lowerChar lib)).head? ≠ some '{' →
        tokenLabel lib (ToLower lib (String.mk ('#' :: pat))) =
          if pat = [] then none
          else if lib.Compile (ToLower lib (String.mk pat)) then
            some ("", some (ToLower lib (String.mk pat)))
          else none) ∧
      (∀ r : List Char, '}' ∉ r.map (lowerChar lib) →
        tokenLabel lib (ToLower lib (String.mk ('#' :: '{' :: r))) = none) := by
  refine ⟨?_, ?_, tokenLabel_regex lib, tokenLabel_regex_plain lib, tokenLabel_regex_open lib⟩
  · intro method path h pre p hargs htok hpre
    exact Handle_last_token lib routes method path h pre p hargs htok hpre
  · intro method path h m2 pre p hreg htok hp
    have hOK : m2.OK := by
      have := Handle_OK lib (registerAll lib New routes).1 method path h
        (registerAll_OK lib routes New New_OK)
      rw [hreg] at this
      exact this
    have hnamed : m2.Named lib (fun _ => True) := by
      have := Handle_Named lib (fun _ => True) (registerAll lib New routes).1 method path h
        (fun _ _ => trivial)
        (registerAll_Named lib _ routes New (fun _ _ _ _ => trivial) (New_Named lib _))
      rw [hreg] at this
      exact this
    obtain ⟨t, _, _, hr, _⟩ :=
      Handle_reach lib _ m2 (registerAll_OK lib routes New New_OK) method path h hreg
    refine ⟨t, hr, ?_⟩
    unfold Mux.reach at hr
    cases hroot : lookupRoot m2.roots method with
    | none => rw [hroot] at hr; simp at hr
    | some rs =>
      rw [hroot] at hr
      simp only at hr
      rw [tokens_snoc lib path pre p htok] at hr
      obtain ⟨par, hpar, hfind⟩ := reachFrom_snoc _ _ _ _ hr
      have hparN := reachFrom_Named lib _ _ _ _ (hnamed method rs hroot) hpar
      have hparO := reachFrom_OK _ _ _ (hOK method rs hroot) hpar
      have hmem := Subs.find_mem _ _ _ hfind
      refine ⟨?_, ((Section.Named_iff lib _ par).mp hparN).1.named _ _ hmem⟩
      rw [((Section.OK_iff par).mp hparO).1.keyed _ _ hmem]
      exact (tokenType_of_head _).2.2 (ToLower_head lib p _ hp rfl)

/-- Instance of the amended C14 with `digitsLib`, which compiles `\d{4}`
only: registering `/archive/#{year}` on the empty router fails, and
registering `/archive/#{Year}\D{4}` succeeds and leaves a Regex node named
`year` with the pattern `\d{4}`. -/
theorem C14_regex_token_is_lower_cased_witness :
    ((New.Handle digitsLib "GET" "/archive/#{year}" (hf 1)).2 ≠ none ↔
        (New.reach digitsLib "GET" "/archive/#{year}" = none ∧
            tokenLabel digitsLib (ToLower digitsLib "#{year}") = none) ∨
          ∃ t, New.reach digitsLib "GET" "/archive/#{year}" = some t ∧ t.chain.h ≠ none) ∧
      (New.Handle digitsLib "GET" "/archive/#{year}" (hf 1)).2
        = some "error: addRoute: /archive/#{year} regexp empty" ∧
      (∃ t, (New.Handle digitsLib "GET" "/archive/#{Year}\\D{4}" (hf 1)).1.reach digitsLib "GET"
            "/archive/#{Year}\\D{4}" = some t ∧ t.sType = SectionTypeRegexp ∧
          tokenLabel digitsLib (ToLower digitsLib "#{Year}\\D{4}") = some (t.sName, t.regexp)) ∧
      tokenLabel digitsLib (ToLower digitsLib "#{Year}\\D{4}") = some ("year", some "\\d{4}") :=
  ⟨(C14_regex_token_is_lower_cased digitsLib []).1 "GET" "/archive/#{year}" (hf 1)
      ["archive"] "#{year}" rfl rfl (by decide),
    by decide,
    (C14_regex_token_is_lower_cased digitsLib []).2.1 "GET" "/archive/#{Year}\\D{4}" (hf 1) _
      ["archive"] "#{Year}\\D{4}" (Prod.ext rfl (by decide)) rfl rfl,
    by decide⟩

end webs

namespace clip

/-! ## Sub-command selection -/

theorem subMatches_iff (s : Command) (str : String) :
    subMatches s str = true ↔ SpecNameMatches s.name str := by
  unfold subMatches SpecNameMatches HasPrefix
  by_cases h1 : s.name.length = str.length
  · rw [if_pos h1]
    simp only [decide_eq_true_eq]
    constructor
    · intro h; exact Or.inl h
    · rintro (h | ⟨more, hne, hm⟩)
      · exact h
      · exfalso
        have := congrArg List.length hm
        simp only [String.length] at h1
        rw [List.length_append] at this
        have : more.length = 0 := by omega
        exact hne (List.length_eq_zero.mp this)
  · rw [if_neg h1]
    by_cases h2 : s.name.length > str.length
    · rw [if_pos h2, List.isPrefixOf_iff_prefix]
      constructor
      · rintro ⟨more, hm⟩
        right
        refine ⟨more, ?_, hm.symm⟩
        rintro rfl
        simp only [List.append_nil] at hm
        apply h1
        simp only [String.length, hm]
      · rintro (h | ⟨more, _, hm⟩)
        · exact absurd (by rw [h]) h1
        · exact ⟨more, hm.symm⟩
    · rw [if_neg h2]
      simp only [Bool.false_eq_true, false_iff]
      rintro (h | ⟨more, _, hm⟩)
      · exact h1 (by rw [h])
      · have := congrArg List.length hm
        simp only [String.length] at h1 h2
        rw [List.length_append] at this
        omega

/-- The loop of `parseSubCommand` in terms of the sub-commands that match. -/
theorem subLoop_eq (str : String) :
    ∀ (l : List Command) (sc : Option Command),
      subLoop str l sc =
        match sc, l.filter (fun s => subMatches s str) with
        | none, [] => (none, none)
        | none, [s] => (some s, none)
        | none, _ :: _ :: _ => (none, some ("ambiguous command '" ++ str ++ "'"))
        | some x, [] => (some x, none)
        | some _, _ :: _ => (none, some ("ambiguous command '" ++ str ++ "'")) := by
  intro l
  induction l with
  | nil => intro sc; cases sc <;> rfl
  | cons s rest ih =>
    intro sc
    unfold subLoop
    by_cases hm : subMatches s str = true
    · have hfl : List.filter (fun s => subMatches s str) (s :: rest) =
          s :: List.filter (fun s => subMatches s str) rest := by
        simp [List.filter_cons, hm]
      rw [if_pos hm, hfl]
      cases sc with
      | some x => rfl
      | none =>
        simp only
        rw [ih (some s)]
        cases List.filter (fun s => subMatches s str) rest with
        | nil => rfl
        | cons a l => rfl
    · have hfl : List.filter (fun s => subMatches s str) (s :: rest) =
          List.filter (fun s => subMatches s str) rest := by
        simp [List.filter_cons, hm]
      rw [if_neg hm, hfl]
      exact ih sc

theorem filter_eq_singleton_iff {α : Type} (p : α → Bool) (l : List α) (a : α) :
    l.filter p = [a] ↔
      ∃ pre post, l = pre ++ a :: post ∧ p a = true ∧ (∀ x ∈ pre, ¬ p x = true) ∧
        (∀ x ∈ post, ¬ p x = true) := by
  induction l with
  | nil => simp
  | cons b l ih =>
    by_cases hb : p b = true
    · rw [List.filter_cons_of_pos hb]
      constructor
      · intro h
        simp only [List.cons.injEq] at h
        obtain ⟨rfl, hnil⟩ := h
        refine ⟨[], l, rfl, hb, by simp, ?_⟩
        intro x hx hpx
        have : x ∈ l.filter p := List.mem_filter.mpr ⟨hx, hpx⟩
        rw [hnil] at this
        simp at this
      · rintro ⟨pre, post, he, ha, hpre, hpost⟩
        cases pre with
        | nil =>
          simp only [List.nil_append, List.cons.injEq] at he
          obtain ⟨rfl, rfl⟩ := he
          simp only [List.cons.injEq, true_and]
          rw [List.filter_eq_nil_iff]
          exact hpost
        | cons c pre =>
          simp only [List.cons_append, List.cons.injEq] at he
          obtain ⟨rfl, _⟩ := he
          exact absurd hb (hpre b (by simp))
    · rw [List.filter_cons_of_neg hb, ih]
      constructor
      · rintro ⟨pre, post, he, ha, hpre, hpost⟩
        refine ⟨b :: pre, post, by simp [he], ha, ?_, hpost⟩
        intro x hx
        simp only [List.mem_cons] at hx
        rcases hx with rfl | hx
        · exact hb
        · exact hpre x hx
      · rintro ⟨pre, post, he, ha, hpre, hpost⟩
        cases pre with
        | nil =>
          simp only [List.nil_append, List.cons.injEq] at he
          obtain ⟨rfl, _⟩ := he
          exact absurd ha hb
        | cons c pre =>
          simp only [List.cons_append, List.cons.injEq] at he
          obtain ⟨rfl, rfl⟩ := he
          exact ⟨pre, post, rfl, ha, fun x hx => hpre x (by simp [hx]), hpost⟩

theorem SpecSelects_iff (c : Command) (str : String) (s : Command) :
    SpecSelects c str s ↔ c.subcmds.filter (fun x => subMatches x str) = [s] := by
  rw [filter_eq_singleton_iff]
  unfold SpecSelects
  simp only [subMatches_iff]

/-- C27: for a command with at least one sub-command, `parseSubCommand`
returns the sub-command `s` with `consumed = 1` and a nil error exactly when
`s` is the only sub-command whose name equals the text or has it as a proper
prefix; in every other case it returns `consumed = 0`, no sub-command and the
error `'<text>' not recognized.`.  In particular a text that matches two
sub-commands is rejected, also when it equals the name of one of them and is
a proper prefix of the name of the other. -/
theorem C27_unique_prefix_selects (c : Command) (str : String) (hsub : c.subcmds ≠ []) :
    (∀ s, parseSubCommand c str = (1, some s, none) ↔ SpecSelects c str s) ∧
      ((¬ ∃ s, SpecSelects c str s) →
        parseSubCommand c str = (0, none, some ("'" ++ str ++ "' not recognized."))) ∧
      (∀ a b pre mid post, c.subcmds = pre ++ a :: mid ++ b :: post →
        SpecNameMatches a.name str → SpecNameMatches b.name str →
        parseSubCommand c str = (0, none, some ("'" ++ str ++ "' not recognized."))) := by
  have hlen : ¬ c.subcmds.length = 0 := by
    intro h; exact hsub (List.length_eq_zero.mp h)
  have hres : parseSubCommand c str =
      match c.subcmds.filter (fun x => subMatches x str) with
      | [s] => (1, some s, none)
      | _ => (0, none, some ("'" ++ str ++ "' not recognized.")) := by
    unfold parseSubCommand
    rw [if_neg hlen, subLoop_eq]
    cases hfl : c.subcmds.filter (fun x => subMatches x str) with
    | nil => rfl
    | cons a l =>
      cases l with
      | nil => rfl
      | cons b l => rfl
  have hnot : (¬ ∃ s, SpecSelects c str s) →
      parseSubCommand c str = (0, none, some ("'" ++ str ++ "' not recognized.")) := by
    intro hno
    rw [hres]
    cases hfl : c.subcmds.filter (fun x => subMatches x str) with
    | nil => rfl
    | cons a l =>
      cases l with
      | nil => exact absurd ⟨a, (SpecSelects_iff c str a).mpr hfl⟩ hno
      | cons b l => rfl
  refine ⟨?_, hnot, ?_⟩
  · intro s
    rw [SpecSelects_iff, hres]
    cases hfl : c.subcmds.filter (fun x => subMatches x str) with
    | nil => simp
    | cons a l =>
      cases l with
      | nil => simp
      | cons b l => simp
  · intro a b pre mid post hl ha hb
    apply hnot
    rintro ⟨s, hs⟩
    rw [SpecSelects_iff, hl] at hs
    have h1 : subMatches a str = true := (subMatches_iff a str).mpr ha
    have h2 : subMatches b str = true := (subMatches_iff b str).mpr hb
    have := congrArg List.length hs
    simp only [List.filter_append, List.filter_cons, h1, h2, if_true, List.length_append,
      List.length_cons, List.length_nil] at this
    omega

/-- Instance of C27 on `runCommand` (sub-commands `run`, `runner`, `stop`):
`s` selects `stop`, and `run` is rejected because it is also a prefix of
`runner`. -/
theorem C27_unique_prefix_selects_witness :
    (parseSubCommand runCommand "s" = (1, some (.mk "stop" []), none) ↔
        SpecSelects runCommand "s" (.mk "stop" [])) ∧
      (parseSubCommand runCommand "s").1 = 1 ∧
      ((parseSubCommand runCommand "s").2.1.map Command.name) = some "stop" ∧
      parseSubCommand runCommand "run" = (0, none, some ("'" ++ "run" ++ "' not recognized.")) ∧
      ((parseSubCommand runCommand "runn").2.1.map Command.name) = some "runner" :=
  ⟨(C27_unique_prefix_selects runCommand "s" (by simp [runCommand, Command.subcmds])).1 _,
    by decide, by decide,
    (C27_unique_prefix_selects runCommand "run" (by simp [runCommand, Command.subcmds])).2.2
      (.mk "run" []) (.mk "runner" []) [] [] [.mk "stop" []] rfl (Or.inl rfl)
      (Or.inr ⟨['n', 'e', 'r'], by simp, rfl⟩),
    by decide⟩

/-! ## Sizes with a unit suffix -/

theorem wrap64_exact (x : Int) (h1 : -2 ^ 63 ≤ x) (h2 : x < 2 ^ 63) : wrap64 x = x := by
  unfold wrap64
  omega

theorem getLast_snoc (body : List Char) (c : Char) : (body ++ [c]).getLast? = some c := by
  simp

theorem parseSize_suffix (lib : Strconv) (body : List Char) (c : Char)
    (hc : unitFactor c > 0) :
    parseSize lib (String.mk (body ++ [c])) =
      match lib.ParseInt (String.mk body) with
      | (n, true) => (wrap64 (n * unitFactor c), none)
      | (n, false) => (n, some ("invalid log size " ++ String.mk body)) := by
  unfold parseSize
  simp only [getLast_snoc, hc, if_true, List.dropLast_concat]

theorem parseSize_plain (lib : Strconv) (body : List Char) (c : Char)
    (hc : unitFactor c = 0) :
    parseSize lib (String.mk (body ++ [c])) =
      match lib.ParseInt (String.mk (body ++ [c])) with
      | (_, true) => (0, none)
      | (n, false) => (n, some ("invalid log size " ++ String.mk (body ++ [c]))) := by
  unfold parseSize
  simp only [getLast_snoc, hc, lt_self_iff_false, if_false, gt_iff_lt, mul_zero]
  rfl

/-- C28 (counterexample): `8589934592g` is parsed without error, the parsed
integer is 8589934592 and the factor is `1024^3`, but the size returned is
`-9223372036854775808`, not the product `9223372036854775808`. -/
theorem C28_counterexample :
    decimalStrconv.ParseInt "8589934592" = (8589934592, true) ∧
      parseSize decimalStrconv "8589934592g" = (-9223372036854775808, none) ∧
      (8589934592 : Int) * (1024 * 1024 * 1024) = 9223372036854775808 := by
  refine ⟨?_, ?_, ?_⟩ <;> decide

/-- C28 (amended): the factor is 1024, `1024^2`, `1024^3` for a last
character `k`, `m`, `g` in either case and 0 for every other last character.
With a unit suffix, `parseSize` parses the text before it and returns the
parsed integer times the factor in `int64` arithmetic, which wraps around
modulo `2^64`; the result is the product itself when that fits `int64`.
Without a unit suffix every text that parses yields 0 with no error; the empty
text yields 0 with no error; a body that does not parse yields the error
`invalid log size <body>`. -/
theorem C28_size_is_wrapped_product (lib : Strconv) :
    (unitFactor 'k' = 1024 ∧ unitFactor 'K' = 1024 ∧ unitFactor 'm' = 1024 ^ 2 ∧
        unitFactor 'M' = 1024 ^ 2 ∧ unitFactor 'g' = 1024 ^ 3 ∧ unitFactor 'G' = 1024 ^ 3 ∧
        ∀ c, c ∉ ['k', 'K', 'm', 'M', 'g', 'G'] → unitFactor c = 0) ∧
      (∀ (body : List Char) (c : Char) (n : Int), unitFactor c > 0 →
        lib.ParseInt (String.mk body) = (n, true) →
        parseSize lib (String.mk (body ++ [c])) = (wrap64 (n * unitFactor c), none) ∧
          (-2 ^ 63 ≤ n * unitFactor c → n * unitFactor c < 2 ^ 63 →
            parseSize lib (String.mk (body ++ [c])) = (n * unitFactor c, none))) ∧
      (∀ (body : List Char) (c : Char) (n : Int), unitFactor c = 0 →
        lib.ParseInt (String.mk (body ++ [c])) = (n, true) →
        parseSize lib (String.mk (body ++ [c])) = (0, none)) ∧
      parseSize lib "" = (0, none) ∧
      (∀ (body : List Char) (c : Char) (n : Int), unitFactor c > 0 →
        lib.ParseInt (String.mk body) = (n, false) →
        parseSize lib (String.mk (body ++ [c])) =
          (n, some ("invalid log size " ++ String.mk body))) ∧
      (∀ (body : List Char) (c : Char) (n : Int), unitFactor c = 0 →
        lib.ParseInt (String.mk (body ++ [c])) = (n, false) →
        parseSize lib (String.mk (body ++ [c])) =
          (n, some ("invalid log size " ++ String.mk (body ++ [c])))) := by
  refine ⟨⟨by decide, by decide, by decide, by decide, by decide, by decide, ?_⟩,
    ?_, ?_, rfl, ?_, ?_⟩
  · intro c hc
    simp only [List.mem_cons, List.mem_singleton, List.not_mem_nil, or_false, not_or] at hc
    unfold unitFactor
    simp [hc]
  · intro body c n hc hp
    have h := parseSize_suffix lib body c hc
    rw [hp] at h
    simp only at h
    refine ⟨h, fun h1 h2 => ?_⟩
    rw [h, wrap64_exact _ h1 h2]
  · intro body c n hc hp
    have h := parseSize_plain lib body c hc
    rw [hp] at h
    exact h
  · intro body c n hc hp
    have h := parseSize_suffix lib body c hc
    rw [hp] at h
    exact h
  · intro body c n hc hp
    have h := parseSize_plain lib body c hc
    rw [hp] at h
    exact h

/-- Instance of the amended C28 with `decimalStrconv`: `10k` is 10240, the
plain number `1000` yields 0, and `abc` is an error. -/
theorem C28_size_is_wrapped_product_witness :
    (parseSize decimalStrconv (String.mk (['1', '0'] ++ ['k'])) =
          (wrap64 (10 * unitFactor 'k'), none) ∧
        (-2 ^ 63 ≤ (10 : Int) * unitFactor 'k' → (10 : Int) * unitFactor 'k' < 2 ^ 63 →
          parseSize decimalStrconv (String.mk (['1', '0'] ++ ['k']))
            = (10 * unitFactor 'k', none))) ∧
      parseSize decimalStrconv "10k" = (10240, none) ∧
      parseSize decimalStrconv (String.mk (['1', '0', '0'] ++ ['0'])) = (0, none) ∧
      parseSize decimalStrconv "1000" = (0, none) ∧
      parseSize decimalStrconv "" = (0, none) ∧
      parseSize decimalStrconv "abc" = (0, some "invalid log size abc") :=
  ⟨(C28_size_is_wrapped_product decimalStrconv).2.1 ['1', '0'] 'k' 10 (by decide) (by decide),
    by decide,
    (C28_size_is_wrapped_product decimalStrconv).2.2.1 ['1', '0', '0'] '0' 1000 (by decide)
      (by decide),
    by decide, by decide, by decide⟩

end clip
